import Mathlib

/-!
# RealSenseID F45x firmware update: block reconciler, container parser, update engine

A shallow embedding of `FwUpdateEngineF45x.cc` and `Utilities.cc`.

Conventions of the embedding:
* a C string is the list of its characters before the terminating NUL;
* a `char*` into a C string is the suffix of that list it points at;
* `while (true)` loops take a fuel argument and return `none` when the fuel
  runs out while the loop is still iterating;
* behaviour the C/C++ standard leaves undefined is an explicit outcome, except
  for a numeric `sscanf` item that does not fit its type, which is stored as
  the GNU C library stores it (the low 32 bits of the `strtoul` / `strtol`
  result);
* a routine of the engine that talks to the device is a function from the
  state of the run (the state of the communication object and the trace of
  the events so far) to its result, a returned value or an exit.
-/

set_option maxRecDepth 100000

namespace RealSenseID
namespace FwUpdateF45x

/-! ## Data model (`ModuleInfo.h`, through the fields the sources use) -/

/-- One block of a module: `BlockInfo` with the fields `offset`, `size`, `crc`. -/
structure BlockInfo where
  offset : Nat
  size : Nat
  crc : Nat
deriving DecidableEq, Repr

/-- A parsed firmware module: `ModuleInfo` as filled in by `ParseUfifToModules`. -/
structure ModuleInfo where
  name : String
  version : String
  crc : Nat
  filename : String
  file_offset : Nat
  size : Nat
  aligned_size : Nat
  blocks : List BlockInfo
deriving DecidableEq, Repr

/-! ## C library routines used by `GetBlockUpdateList` -/

/-- The C `isspace` in the "C" locale: space, `\t`, `\n`, `\v`, `\f`, `\r`. -/
def isspace (c : Char) : Bool :=
  c.toNat == 32 || (9 ≤ c.toNat && c.toNat ≤ 13)

/-- Decimal digit test, `isdigit`. -/
def isdigit (c : Char) : Bool :=
  48 ≤ c.toNat && c.toNat ≤ 57

/-- Hexadecimal digit test, `isxdigit`. -/
def isxdigit (c : Char) : Bool :=
  isdigit c || (97 ≤ c.toNat && c.toNat ≤ 102) || (65 ≤ c.toNat && c.toNat ≤ 70)

/-- Value of a (hexa)decimal digit. -/
def digitVal (c : Char) : Nat :=
  if isdigit c then c.toNat - 48
  else if 97 ≤ c.toNat then c.toNat - 87
  else c.toNat - 55

/-- Value of a digit string in the given base, most significant digit first. -/
def numVal (base : Nat) (ds : List Char) : Nat :=
  ds.foldl (fun acc c => acc * base + digitVal c) 0

/-- The C `strstr`: the suffix of `hay` starting at the first occurrence of
`needle`, or `none` (a null pointer) when there is none. -/
def strstr : List Char → List Char → Option (List Char)
  | [], needle => if needle.isEmpty then some [] else none
  | c :: cs, needle =>
    if needle.isPrefixOf (c :: cs) then some (c :: cs) else strstr cs needle

/-- The C `strchr` for a non-NUL character: the suffix of `s` starting at the
first occurrence of `ch`, or `none`. -/
def strchr : List Char → Char → Option (List Char)
  | [], _ => none
  | c :: cs, ch => if c = ch then some (c :: cs) else strchr cs ch

/-- Result of one numeric conversion of `sscanf`. -/
inductive ScanNum where
  /-- the conversion succeeded with this value, leaving `rest` unread -/
  | value (v : Nat) (rest : List Char)
  /-- input failure or matching failure: the conversion assigns nothing -/
  | noMatch
deriving DecidableEq, Repr

/-- Skip leading white space, as every `sscanf` directive used here does. -/
def skipSpace (s : List Char) : List Char :=
  s.dropWhile isspace

/-- Optional sign of a numeric input item: `(negative, rest)`. -/
def stripSign (s : List Char) : Bool × List Char :=
  match s with
  | c :: r => if c = '-' then (true, r) else if c = '+' then (false, r) else (false, s)
  | [] => (false, s)

/-- Store a scanned magnitude into an `unsigned int`, as the GNU C library
does (the C standard leaves a number that does not fit undefined): the digits
are converted as by `strtoul`, to an `unsigned long` of 64 bits, where a
magnitude of 2^64 or more gives `ULONG_MAX` and a minus sign negates modulo
2^64; the low 32 bits of that are stored. -/
def finishNum (neg : Bool) (v : Nat) (rest : List Char) : ScanNum :=
  let ul := if 2 ^ 64 ≤ v then 2 ^ 64 - 1 else if neg then (2 ^ 64 - v) % 2 ^ 64 else v
  .value (ul % 2 ^ 32) rest

/-- The `%u` conversion: white space, optional sign, decimal digits. -/
def scanDec (s : List Char) : ScanNum :=
  let (neg, t) := stripSign (skipSpace s)
  let ds := t.takeWhile isdigit
  if ds.isEmpty then .noMatch
  else finishNum neg (numVal 10 ds) (t.dropWhile isdigit)

/-- The `%x` input item starts with `0x` or `0X`. -/
def hasHexPrefix (t : List Char) : Bool :=
  match t with
  | c0 :: c1 :: _ => decide (c0 = '0' ∧ (c1 = 'x' ∨ c1 = 'X'))
  | _ => false

/-- Optional `0x` / `0X` of a `%x` input item. -/
def stripHexPrefix (t : List Char) : List Char :=
  match t with
  | c0 :: c1 :: r => if c0 = '0' ∧ (c1 = 'x' ∨ c1 = 'X') then r else t
  | _ => t

/-- The `%x` conversion: white space, optional sign, optional `0x`, hex
digits. A `0x` that no hex digit follows is read, as the GNU C library does,
as the number 0, the `0x` being consumed. -/
def scanHex (s : List Char) : ScanNum :=
  let (neg, t) := stripSign (skipSpace s)
  let u := stripHexPrefix t
  let ds := u.takeWhile isxdigit
  if ds.isEmpty && !hasHexPrefix t then .noMatch
  else finishNum neg (numVal 16 ds) (u.dropWhile isxdigit)

/-- What `sscanf(p + 1, "%u %15s %x %x", ...)` leaves behind. -/
inductive ScanResult where
  /-- the call returned 4: all four items were assigned -/
  | full (block_number : Nat) (state_str : List Char) (hdrCrc fwCrc : Nat)
  /-- the call returned less than 4 (EOF included) -/
  | fewer
deriving DecidableEq, Repr

/-- The call `sscanf(s, "%u %15s %x %x", &block_number, state_str, &hdrCrc, &fwCrc)`. -/
def sscanfRecord (s : List Char) : ScanResult :=
  match scanDec s with
  | .noMatch => .fewer
  | .value block_number r1 =>
    let r1 := skipSpace r1
    let state_str := (r1.takeWhile (fun c => !isspace c)).take 15
    if state_str.isEmpty then .fewer
    else
      match scanHex (r1.drop state_str.length) with
      | .noMatch => .fewer
      | .value hdrCrc r2 =>
        match scanHex r2 with
        | .noMatch => .fewer
        | .value fwCrc _ => .full block_number state_str hdrCrc fwCrc

/-! ## `FwUpdateEngineF45x::GetBlockUpdateList` -/

/-- How a call of `GetBlockUpdateList` ends. -/
inductive Outcome where
  /-- the function returned this vector -/
  | returned (rv : List Bool)
  /-- one of the `assert`s failed (builds without `NDEBUG` only) -/
  | assertFailed
  /-- undefined behaviour: `p + 9` points behind the terminating NUL of the
  report -/
  | undefined
deriving DecidableEq, Repr

/-- What one iteration of the `while (true)` loop does. -/
inductive Step where
  /-- back to the loop head with these values of `cur_input` and `rv` -/
  | next (cur_input : List Char) (rv : List Bool)
  /-- the loop (and the function) is left -/
  | done (o : Outcome)
deriving DecidableEq, Repr

/-- The literal `"OK"`. -/
def okStr : List Char := [ 'O', 'K']

/-- The body of the `while (true)` loop of `GetBlockUpdateList`.
`asserts` tells whether the `assert`s are compiled in. -/
def loopBody (asserts : Bool) (module : ModuleInfo) (cur_input : List Char)
    (rv : List Bool) : Step :=
  match strchr cur_input '#' with
  | none => .done (.returned rv)
  | some p =>
    match sscanfRecord (p.drop 1) with
    | .fewer => .next cur_input rv
    | .full block_number state_str hdrCrc fwCrc =>
      if asserts && (state_str.length == 0 || hdrCrc == 0 || fwCrc == 0) then
        .done .assertFailed
      else if h : module.blocks.length ≤ block_number then
        .done (.returned (rv.map fun _ => true))
      else
        let host_block_crc := (module.blocks.get ⟨block_number, Nat.lt_of_not_le h⟩).crc
        let should_update :=
          decide (state_str ≠ okStr) || decide (hdrCrc ≠ fwCrc) || decide (hdrCrc ≠ host_block_crc)
        if p.length < 9 then .done .undefined
        else .next (p.drop 9) (rv.set block_number should_update)

/-- The `while (true)` loop, run for at most `fuel` iterations. -/
def scanLoop (asserts : Bool) (module : ModuleInfo) :
    Nat → List Char → List Bool → Option Outcome
  | 0, _, _ => none
  | fuel + 1, cur_input, rv =>
    match loopBody asserts module cur_input rv with
    | .done o => some o
    | .next cur_input2 rv2 => scanLoop asserts module fuel cur_input2 rv2

/-- The literal `"empty"`. -/
def emptyStr : List Char := [ 'e', 'm', 'p', 't', 'y']

/-- The literal `"SCRAP info"`. -/
def scrapInfoStr : List Char := [ 'S', 'C', 'R', 'A', 'P', ' ', 'i', 'n', 'f', 'o']

/-- Where the scan starts: at `"SCRAP info"` if the report has it, else at
the start of the report. -/
def scanStart (logBuf : List Char) : List Char :=
  match strstr logBuf scrapInfoStr with
  | some p => p
  | none => logBuf

/-- `GetBlockUpdateList(module, force_full)` on the report `logBuf` that
`_comm->GetScanPtr()` points at. `none`: the loop was still running after
`fuel` iterations. -/
def GetBlockUpdateList (asserts : Bool) (fuel : Nat) (module : ModuleInfo)
    (logBuf : List Char) (force_full : Bool) : Option Outcome :=
  let rv := List.replicate module.blocks.length true
  if force_full || (strstr logBuf emptyStr).isSome then some (.returned rv)
  else scanLoop asserts module fuel (scanStart logBuf) rv

/-- A module with the given block CRCs (other fields are irrelevant to the reconciler). -/
def moduleOfCrcs (crcs : List Nat) : ModuleInfo :=
  { name := "OPFW", version := "0.0.0.1", crc := 0, filename := "", file_offset := 0,
    size := 0, aligned_size := 0,
    blocks := crcs.map fun c => { offset := 0, size := 0, crc := c } }

/-! ## Vocabulary of the reconciler claims -/

/-- The report `logBuf` holds, at some `#`, a record that `sscanf` reads as
`#i OK c c` with `c` the CRC of block `i` of the module (the numbers as
`sscanf` stores them, in 32 bits). -/
def HasOkRecord (module : ModuleInfo) (logBuf : List Char) (i : Nat) : Prop :=
  ∃ pre post b, logBuf = pre ++ '#' :: post ∧ module.blocks[i]? = some b ∧
    sscanfRecord post = .full i okStr b.crc b.crc

/-- A record of the block table in the documented format
`#<index> <status> <hdrCRC> <realCRC>`: the tokens as written, separated by
one or more spaces (`pad + 1` of them). -/
structure BlockRecord where
  index : List Char
  pad1 : Nat
  status : List Char
  pad2 : Nat
  hdrCrc : List Char
  pad3 : Nat
  realCrc : List Char
deriving DecidableEq, Repr

namespace BlockRecord

/-- The block index the record names. -/
def blockNumber (r : BlockRecord) : Nat := numVal 10 r.index

/-- The value of the `HDR CRC` column. -/
def hdrVal (r : BlockRecord) : Nat := numVal 16 r.hdrCrc

/-- The value of the `Real CRC` column. -/
def realVal (r : BlockRecord) : Nat := numVal 16 r.realCrc

/-- The tokens are well formed: a decimal index and two hexadecimal CRCs that
fit 32 bits, and a status of 1 to 15 characters without white space or `#`. -/
def wellFormed (r : BlockRecord) : Bool :=
  !r.index.isEmpty && r.index.all isdigit && decide (r.blockNumber < 2 ^ 32) &&
  !r.status.isEmpty && decide (r.status.length ≤ 15) &&
  r.status.all (fun c => !isspace c && c != '#') &&
  !r.hdrCrc.isEmpty && r.hdrCrc.all isxdigit && decide (r.hdrVal < 2 ^ 32) &&
  !r.realCrc.isEmpty && r.realCrc.all isxdigit && decide (r.realVal < 2 ^ 32)

/-- The record after its `#`, up to and including the end of its line. -/
def body (r : BlockRecord) : List Char :=
  r.index ++ (List.replicate (r.pad1 + 1) ' ' ++ (r.status ++
    (List.replicate (r.pad2 + 1) ' ' ++ (r.hdrCrc ++
      (List.replicate (r.pad3 + 1) ' ' ++ (r.realCrc ++ [ '\n']))))))

/-- The record as one line of the report. -/
def line (r : BlockRecord) : List Char := '#' :: r.body

/-- The device shows the block as up to date: status exactly `OK`, and
`hdrCRC = realCRC = ` the CRC of that block computed from the file. -/
def upToDate (module : ModuleInfo) (r : BlockRecord) : Prop :=
  r.status = okStr ∧ r.hdrVal = r.realVal ∧
    (module.blocks[r.blockNumber]?).map BlockInfo.crc = some r.hdrVal

instance (module : ModuleInfo) (r : BlockRecord) : Decidable (upToDate module r) := by
  unfold upToDate; infer_instance

/-- The record passes the `assert`s of the loop when they are compiled in. -/
def passesAsserts (asserts : Bool) (r : BlockRecord) : Prop :=
  asserts = true → r.hdrVal ≠ 0 ∧ r.realVal ≠ 0

instance (asserts : Bool) (r : BlockRecord) : Decidable (passesAsserts asserts r) := by
  unfold passesAsserts; infer_instance

end BlockRecord

/-- A report made of the given records, one per line. -/
def report (rs : List BlockRecord) : List Char :=
  match rs with
  | [] => []
  | r :: rest => r.line ++ report rest

/-- What the loop does to `rv` for one in-range record. -/
def applyRecord (module : ModuleInfo) (rv : List Bool) (r : BlockRecord) : List Bool :=
  rv.set r.blockNumber (decide (¬ r.upToDate module))

/-- Sample module of two blocks, CRCs as in the `dlinfo` example of the source. -/
def sampleModule : ModuleInfo := moduleOfCrcs [0xb9fa1f11, 0xfae50cb5]

/-- A record of the sample reports, in the columns of the `dlinfo` example of
the source: `#0   OK    b9fa1f11 b9fa1f11`. -/
def sampleRecord (index status crc : String) : BlockRecord :=
  { index := index.toList, pad1 := 2, status := status.toList, pad2 := 5 - status.length,
    hdrCrc := crc.toList, pad3 := 0, realCrc := crc.toList }


/-! ## The records of a report as they are written -/

/-- The record written at the head of `post`, the text behind a `#`: a
decimal index, a status word and two hexadecimal CRCs, with white space
between them (and possibly before the index). The numbers are the ones the
digits denote, whatever their size. -/
def writtenRecord (post : List Char) : Option (Nat × List Char × Nat × Nat) :=
  let r0 := skipSpace post
  let index := r0.takeWhile isdigit
  let r1 := skipSpace (r0.dropWhile isdigit)
  let status := r1.takeWhile (fun c => !isspace c)
  let r2 := skipSpace (r1.dropWhile (fun c => !isspace c))
  let hdrCrc := r2.takeWhile isxdigit
  let r3 := skipSpace (r2.dropWhile isxdigit)
  let realCrc := r3.takeWhile isxdigit
  if index.isEmpty || status.isEmpty || hdrCrc.isEmpty || realCrc.isEmpty then none
  else some (numVal 10 index, status, numVal 16 hdrCrc, numVal 16 realCrc)

/-- At the head of `t` a record `#i OK c c` is written, with `c` the CRC of
block `i` of the module. -/
def okRecordAt (module : ModuleInfo) (i : Nat) (t : List Char) : Bool :=
  match t, module.blocks[i]? with
  | '#' :: post, some b => writtenRecord post == some (i, okStr, b.crc, b.crc)
  | _, _ => false

/-- Somewhere in the report a record `#i OK c c` is written, with `c` the CRC
of block `i` of the module. -/
def HasWrittenOkRecord (module : ModuleInfo) (logBuf : List Char) (i : Nat) : Prop :=
  ∃ t ∈ logBuf.tails, okRecordAt module i t = true

instance (module : ModuleInfo) (logBuf : List Char) (i : Nat) :
    Decidable (HasWrittenOkRecord module logBuf i) := by
  unfold HasWrittenOkRecord; infer_instance

/-! ## The records the loop scans -/

/-- One record as the `sscanf` call of the loop reads it. -/
structure ScannedRecord where
  block_number : Nat
  state_str : List Char
  hdrCrc : Nat
  fwCrc : Nat
deriving DecidableEq, Repr

/-- The records the loop of `GetBlockUpdateList` reads from `cur_input` on,
whatever the module: at each `#` that `strchr` finds, the four items `sscanf`
reads behind it; the search goes on nine characters behind that `#`. The list
ends where no `#` is left, at a `#` behind which `sscanf` reads fewer than four
items (the loop does not get past it), and where fewer than nine characters
are left. At most `fuel` records are listed. -/
def scanRecords : Nat → List Char → List ScannedRecord
  | 0, _ => []
  | fuel + 1, cur_input =>
    match strchr cur_input '#' with
    | none => []
    | some p =>
      match sscanfRecord (p.drop 1) with
      | .fewer => []
      | .full block_number state_str hdrCrc fwCrc =>
        { block_number := block_number, state_str := state_str, hdrCrc := hdrCrc,
          fwCrc := fwCrc } ::
          (if p.length < 9 then [] else scanRecords fuel (p.drop 9))

/-- The scanned records of a report: those read from the scan start on. A
record takes at least one character, so there are no more records than
characters. -/
def scannedRecords (logBuf : List Char) : List ScannedRecord :=
  scanRecords logBuf.length (scanStart logBuf)

/-- The scanned record passes the `assert`s of the loop when they are compiled in. -/
def ScannedRecord.passesAsserts (asserts : Bool) (r : ScannedRecord) : Prop :=
  asserts = true → r.hdrCrc ≠ 0 ∧ r.fwCrc ≠ 0

instance (asserts : Bool) (r : ScannedRecord) : Decidable (r.passesAsserts asserts) := by
  unfold ScannedRecord.passesAsserts; infer_instance
/-! ## `Utilities.cc`: the UFIF container parser -/

def UFIF_ALIGN : Nat := 16
def UFIF_SIG : Nat := 0x46484655
def UFIF_VER : Nat := 0x0100
def UFIF_NAME_MAX : Nat := 64
def DIGEST_HEADER_VERSION : Nat := 0x00000004
def DIGEST_HEADER_VERSION_SIZE : Nat := 12

/-- Little-endian value of a byte string (the host is little-endian). -/
def leValue (bs : List UInt8) : Nat :=
  bs.foldr (fun b acc => b.toNat + 256 * acc) 0

/-- The bytes `[ofs, ofs + len)` of a byte string. -/
def slice (bs : List UInt8) (ofs len : Nat) : List UInt8 :=
  (bs.drop ofs).take len

/-- The C string starting at the head of `bs`: the bytes before the first NUL. -/
def cstring (bs : List UInt8) : List UInt8 :=
  bs.takeWhile (fun b => b != 0)

/-- A `std::string` built from the given bytes. -/
def toStdString (bs : List UInt8) : String :=
  String.mk (bs.map fun b => Char.ofNat b.toNat)

/-- `struct UfifFile` (32 bytes). -/
structure UfifFile where
  sig : Nat
  ver : Nat
  entryN : Nat
  otpEncryptVersion : Nat
  rsv : List UInt8
deriving DecidableEq, Repr

/-- `struct UfifEntry` (80 bytes). -/
structure UfifEntry where
  name : List UInt8
  size : Nat
  crc32 : Nat
  rsv : List UInt8
deriving DecidableEq, Repr

/-- `sizeof(UfifFile)`. -/
def sizeofUfifFile : Nat := 32

/-- `sizeof(UfifEntry)`. -/
def sizeofUfifEntry : Nat := 80

/-- `sizeof(DigestHeader)`. -/
def sizeofDigestHeader : Nat := 512

/-- The 32 bytes read into a `UfifFile`. -/
def decodeUfifFile (bs : List UInt8) : UfifFile :=
  { sig := leValue (slice bs 0 4), ver := leValue (slice bs 4 2),
    entryN := leValue (slice bs 6 2), otpEncryptVersion := leValue (slice bs 8 1),
    rsv := slice bs 9 23 }

/-- The 80 bytes read into a `UfifEntry`. -/
def decodeUfifEntry (bs : List UInt8) : UfifEntry :=
  { name := slice bs 0 UFIF_NAME_MAX, size := leValue (slice bs 64 4),
    crc32 := leValue (slice bs 68 4), rsv := slice bs 72 8 }

/-- `DigestHeader::ver`, at byte offset 256 of the 512-byte header. -/
def digestVer (hdr : List UInt8) : Nat := leValue (slice hdr 256 4)

/-- `DigestHeader::id`, the 8 bytes at offset 260. -/
def digestId (hdr : List UInt8) : List UInt8 := slice hdr 260 8

/-- The header from `DigestHeader::binVer` (offset 268) to its end: what a
C-string read starting at `hdr.binVer` can see inside the header. -/
def digestBinVerTail (hdr : List UInt8) : List UInt8 := hdr.drop 268

/-- Failures of the parser: the `std::runtime_error`s it throws, and undefined behaviour. -/
inductive ParseError where
  /-- "Error while trying to read project header" -/
  | openFailed
  /-- "Error while reading ufifFile_t" -/
  | readHeaderFailed
  /-- "Error while validating ufif header" -/
  | invalidHeader
  /-- "Error while reading ufifEntries" -/
  | readEntriesFailed
  /-- "read failed" (digest header) -/
  | readFailed
  /-- "Incompatible digest header" -/
  | incompatibleDigestHeader
  /-- "Error while validating Header. id exceeded max size of 7" -/
  | idNotTerminated
  /-- "Error while validating header version" -/
  | invalidVersion
  /-- "Failed reading module from file" -/
  | readModuleFailed
  /-- "Invalid crc field in module " + name -/
  | invalidCrc (name : String)
  /-- "Found invalid module name in file: " + name (thrown by `VerifyAllowed`) -/
  | invalidModuleName (name : String)
  /-- undefined behaviour: division by a zero block size, a read into a buffer
  that is too small, a C-string read that leaves the digest header -/
  | undefinedBehaviour
deriving DecidableEq, Repr

deriving instance DecidableEq for Except

/-- `UfifCheckHeader`. -/
def UfifCheckHeader (header : UfifFile) : Bool :=
  if header.sig ≠ UFIF_SIG ∨ (header.ver >>> 8) ≠ (UFIF_VER >>> 8) then false else true

/-- `file.read(dst, len)` at stream position `pos`: the bytes read, or `none`
when the file ends before `len` bytes (the stream then fails). -/
def readAt (file : List UInt8) (pos len : Nat) : Option (List UInt8) :=
  if pos + len ≤ file.length then some (slice file pos len) else none

/-- `UfifReadHeader`: the header, the directory entries, and the stream
position behind them. -/
def UfifReadHeader (file : List UInt8) : Except ParseError (UfifFile × List UfifEntry × Nat) :=
  match readAt file 0 sizeofUfifFile with
  | none => .error .readHeaderFailed
  | some hbytes =>
    let header := decodeUfifFile hbytes
    if !UfifCheckHeader header then .error .invalidHeader
    else
      match readAt file sizeofUfifFile (header.entryN * sizeofUfifEntry) with
      | none => .error .readEntriesFailed
      | some ebytes =>
        .ok (header,
          (List.range header.entryN).map
            (fun i => decodeUfifEntry (slice ebytes (i * sizeofUfifEntry) sizeofUfifEntry)),
          sizeofUfifFile + header.entryN * sizeofUfifEntry)

/-- `ParseUfifToOtpEncryption` (`file = none`: the file cannot be opened). -/
def ParseUfifToOtpEncryption (file : Option (List UInt8)) : Except ParseError Nat :=
  match file with
  | none => .error .openFailed
  | some content =>
    match UfifReadHeader content with
    | .error e => .error e
    | .ok (header, _, _) => .ok header.otpEncryptVersion

/-- The stream offset rounded up to `UFIF_ALIGN`, as the entry loop does. -/
def alignOffset (ofs : Nat) : Nat :=
  if ofs % UFIF_ALIGN ≠ 0 then ofs + (UFIF_ALIGN - ofs % UFIF_ALIGN) else ofs

/-- `(entry.size + 4095) & 0xfffff000` in 32-bit unsigned arithmetic. -/
def alignedBufferSize (size : Nat) : Nat :=
  ((size + 4095) % 2 ^ 32) &&& 0xfffff000

/-- `(entry.size + 3) & ~3` in 32-bit unsigned arithmetic. -/
def crcAlignedDataSize (size : Nat) : Nat :=
  ((size + 3) % 2 ^ 32) &&& 0xfffffffc

/-- The number of blocks: `aligned_buffer_size / block_size`, plus one when
there is a remainder. -/
def blockCount (aligned_buffer_size block_size : Nat) : Nat :=
  if aligned_buffer_size % block_size ≠ 0 then aligned_buffer_size / block_size + 1
  else aligned_buffer_size / block_size

/-- The block loop `for (unsigned i = 0; i < n_blocks; i++)`: `todo` blocks are
left to build, the next has index `i`, and `crc_aligned_data_size` bytes are
not yet covered. `crc` is `FwUpdateCommon::CalculateCRC`. -/
def makeBlocks (crc : Nat → List UInt8 → Nat) (module_buffer : List UInt8) (block_size : Nat) :
    Nat → Nat → Nat → List BlockInfo
  | 0, _, _ => []
  | todo + 1, i, crc_aligned_data_size =>
    let offset := i * block_size
    let block_crc_size := min crc_aligned_data_size block_size
    { offset := offset, size := block_crc_size,
      crc := crc i (slice module_buffer offset block_crc_size) } ::
      makeBlocks crc module_buffer block_size todo (i + 1)
        (crc_aligned_data_size - block_crc_size)

/-- The first of NUL and `.` met from the start of `bs`: what `strchr(bs, '.')`
runs into. `none`: neither occurs in `bs`. -/
def firstDotOrNul (bs : List UInt8) : Option UInt8 :=
  bs.find? (fun b => b == 0 || b == 46)

/-- The body of the entry loop of `ParseUfifToModules` for one directory entry,
the stream standing at `pos`: the module and the new stream position.
`seekg` is taken to succeed (as it does on a regular file, also behind its end). -/
def parseEntry (crc : Nat → List UInt8 → Nat) (path : String) (file : List UInt8)
    (block_size : Nat) (pos : Nat) (entry : UfifEntry) : Except ParseError (ModuleInfo × Nat) :=
  let ofs := alignOffset pos
  match readAt file ofs sizeofDigestHeader with
  | none => .error .readFailed
  | some hdr =>
    if (digestVer hdr >>> 16) ≠ (DIGEST_HEADER_VERSION >>> 16) then
      .error .incompatibleDigestHeader
    else if (digestId hdr).getD 7 0 ≠ 0 then .error .idNotTerminated
    else
      let module_name := toStdString (cstring (digestId hdr))
      match firstDotOrNul (digestBinVerTail hdr) with
      | none => .error .undefinedBehaviour
      | some found =>
        if found = 0 then .error .invalidVersion
        else if block_size = 0 then .error .undefinedBehaviour
        else
          let aligned_buffer_size := alignedBufferSize entry.size
          let n_blocks := blockCount aligned_buffer_size block_size
          if aligned_buffer_size < entry.size then .error .undefinedBehaviour
          else
            match readAt file ofs entry.size with
            | none => .error .readModuleFailed
            | some data =>
              let module_buffer := data ++ List.replicate (aligned_buffer_size - entry.size) 0
              let crc_aligned_data_size := crcAlignedDataSize entry.size
              let whole_module_crc := crc 0 (slice module_buffer 0 crc_aligned_data_size)
              if whole_module_crc ≠ entry.crc32 then .error (.invalidCrc module_name)
              else if (0 : UInt8) ∉ digestBinVerTail hdr then .error .undefinedBehaviour
              else
                .ok ({ name := module_name,
                       version := toStdString (cstring (digestBinVerTail hdr)),
                       crc := whole_module_crc,
                       filename := path,
                       file_offset := ofs,
                       size := entry.size,
                       aligned_size := aligned_buffer_size,
                       blocks := makeBlocks crc module_buffer block_size n_blocks 0
                         crc_aligned_data_size },
                     ofs + entry.size)

/-- The entry loop `for (const auto& entry : entries)`. -/
def parseEntries (crc : Nat → List UInt8 → Nat) (path : String) (file : List UInt8)
    (block_size : Nat) : Nat → List UfifEntry → Except ParseError (List ModuleInfo)
  | _, [] => .ok []
  | pos, entry :: rest =>
    match parseEntry crc path file block_size pos entry with
    | .error e => .error e
    | .ok (module_info, pos2) =>
      match parseEntries crc path file block_size pos2 rest with
      | .error e => .error e
      | .ok result => .ok (module_info :: result)

/-- `ParseUfifToModules(path, block_size)`; `file` is the content of the file
at `path`, `none` when it cannot be opened; `crc` is `FwUpdateCommon::CalculateCRC`. -/
def ParseUfifToModules (crc : Nat → List UInt8 → Nat) (path : String)
    (file : Option (List UInt8)) (block_size : Nat) : Except ParseError (List ModuleInfo) :=
  match file with
  | none => .error .openFailed
  | some content =>
    match UfifReadHeader content with
    | .error e => .error e
    | .ok (_, entries, pos) => parseEntries crc path content block_size pos entries

/-! ## `FwUpdateEngineF45x::ModulesFromFile` -/

/-- `AllowedModules`. -/
def AllowedModules : List String :=
  ["OPFW", "NNLED", "DNET", "RECOG", "YOLO", "AS2DLR",
   "NNLAS", "NNLEDR", "SPOOFS", "ASDISP", "ACCNET", "ASVIS"]

def OPFW : String := "OPFW"
def SCRAP : String := "SCRAP"

/-- `FwUpdateEngineF45x::BlockSize`. -/
def BlockSize : Nat := 512 * 1024

/-- `VerifyAllowed`: throws when the module name is not in the allowed list. -/
def VerifyAllowed (module : ModuleInfo) : Except ParseError Unit :=
  if module.name ∉ AllowedModules then .error (.invalidModuleName module.name) else .ok ()

/-- The loop `for (const auto& module : modules) VerifyAllowed(module);`. -/
def verifyAll : List ModuleInfo → Except ParseError Unit
  | [] => .ok ()
  | module :: rest =>
    match VerifyAllowed module with
    | .error e => .error e
    | .ok () => verifyAll rest

/-- `FwUpdateEngineF45x::ModulesFromFile(path)`. -/
def ModulesFromFile (crc : Nat → List UInt8 → Nat) (path : String)
    (file : Option (List UInt8)) : Except ParseError (List ModuleInfo) :=
  match ParseUfifToModules crc path file BlockSize with
  | .error e => .error e
  | .ok modules =>
    match verifyAll modules with
    | .error e => .error e
    | .ok () => .ok modules

/-! ## A sample container -/

/-- The four bytes of a 32-bit value, little-endian. -/
def le32 (v : Nat) : List UInt8 :=
  [UInt8.ofNat (v % 256), UInt8.ofNat (v / 256 % 256), UInt8.ofNat (v / 65536 % 256),
   UInt8.ofNat (v / 16777216 % 256)]

/-- The bytes of an ASCII string, zero-padded to `width`. -/
def asciiField (s : String) (width : Nat) : List UInt8 :=
  (s.toList.map fun c => UInt8.ofNat c.toNat) ++ List.replicate (width - s.length) 0

/-- A stand-in for `FwUpdateCommon::CalculateCRC` in the samples (the parser
is parametric in the checksum). -/
def sampleCrc (seed : Nat) (bs : List UInt8) : Nat :=
  bs.foldl (fun acc b => (acc * 33 + b.toNat + 1) % 2 ^ 32) seed

/-- A digest header with version 4, the given module id and version `0.0.0.1`. -/
def sampleDigest (id : String) : List UInt8 :=
  List.replicate 256 0 ++ le32 DIGEST_HEADER_VERSION ++ asciiField id 8 ++
    asciiField "0.0.0.1" DIGEST_HEADER_VERSION_SIZE ++ List.replicate 232 0

/-- A container with one directory entry: the entry carries `entryName`, the
module's digest header carries `id`, and the payload is the digest header
followed by `extra`; the declared CRC is the one the parser computes. -/
def sampleContainer (entryName id : String) (extra : List UInt8) : List UInt8 :=
  let payload := sampleDigest id ++ extra
  let size := payload.length
  let buffer := payload ++ List.replicate (alignedBufferSize size - size) 0
  le32 UFIF_SIG ++ [0x00, 0x01] ++ [1, 0] ++ [0] ++ List.replicate 23 0 ++
    (asciiField entryName UFIF_NAME_MAX ++ le32 size ++
      le32 (sampleCrc 0 (slice buffer 0 (crcAlignedDataSize size))) ++ List.replicate 8 0) ++
    payload

/-- What the parser returns for `sampleContainer _ "OPFW" [0xAB]` with the
protocol block size: one module of 513 bytes, padded to 4096, in one block. -/
def sampleParsed : List ModuleInfo :=
  [{ name := "OPFW", version := "0.0.0.1", crc := 968002330, filename := "fw.bin",
     file_offset := 112, size := 513, aligned_size := 4096,
     blocks := [{ offset := 0, size := 516, crc := 968002330 }] }]

/-- The header of the sample containers. -/
def sampleHeader : UfifFile :=
  { sig := 0x46484655, ver := 0x0100, entryN := 1, otpEncryptVersion := 0,
    rsv := List.replicate 23 0 }

/-- The directory of `sampleContainer entryName "OPFW" [0xAB]`. -/
def sampleEntries (entryName : String) : List UfifEntry :=
  [{ name := asciiField entryName UFIF_NAME_MAX, size := 513, crc32 := 968002330,
     rsv := List.replicate 8 0 }]

/-! ## Vocabulary of the parser claims -/

/-- The zero-initialised `module_buffer` after reading `size` bytes at `ofs`. -/
def paddedPayload (file : List UInt8) (ofs size : Nat) : List UInt8 :=
  slice file ofs size ++ List.replicate (alignedBufferSize size - size) 0

/-- `n` rounded up to a multiple of `k`. -/
def roundUp (n k : Nat) : Nat := (n + k - 1) / k * k

/-- Where the payload of directory entry `i` starts when the payloads follow
the directory (which ends at `pos`) in order, each at the next 16-byte boundary. -/
def payloadOffset : Nat → List UfifEntry → Nat → Nat
  | pos, [], _ => alignOffset pos
  | pos, _ :: _, 0 => alignOffset pos
  | pos, e :: es, i + 1 => payloadOffset (alignOffset pos + e.size) es i

/-- The file with the name field of directory entry `k` overwritten by `name`. -/
def setEntryName (file : List UInt8) (k : Nat) (name : List UInt8) : List UInt8 :=
  file.take (sizeofUfifFile + k * sizeofUfifEntry) ++ name ++
    file.drop (sizeofUfifFile + k * sizeofUfifEntry + UFIF_NAME_MAX)


/-! ## Further sample containers -/

/-- The sample container with the last byte of its payload changed, the
declared CRC left as it was. -/
def tamperedContainer : List UInt8 :=
  (sampleContainer "OPFW" "OPFW" [0xAB]).dropLast ++ [0xAC]

/-- A second stand-in for `FwUpdateCommon::CalculateCRC`, for the larger
sample: the seed plus the sum of the bytes, in 32 bits. -/
def sumCrc (seed : Nat) (bs : List UInt8) : Nat :=
  (bs.foldl (fun acc b => acc + b.toNat) seed) % 2 ^ 32

/-- A container with one directory entry `OPFW` whose module is the digest
header followed by 8000 bytes `0xAB`, 8512 bytes in all; the declared CRC is
the one `sumCrc` gives. -/
def threeBlockContainer : List UInt8 :=
  le32 UFIF_SIG ++ [0x00, 0x01] ++ [1, 0] ++ [0] ++ List.replicate 23 0 ++
    (asciiField "OPFW" UFIF_NAME_MAX ++ le32 8512 ++ le32 1368651 ++ List.replicate 8 0) ++
    (sampleDigest "OPFW" ++ List.replicate 8000 0xAB)

/-- What the parser returns for `threeBlockContainer` with a block size of
4096: one module of 8512 bytes, padded to 12288, in three blocks. -/
def threeBlockParsed : List ModuleInfo :=
  [{ name := "OPFW", version := "0.0.0.1", crc := 1368651, filename := "fw.bin",
     file_offset := 112, size := 8512, aligned_size := 12288,
     blocks := [{ offset := 0, size := 4096, crc := 613515 },
                { offset := 4096, size := 4096, crc := 700417 },
                { offset := 8192, size := 320, crc := 54722 }] }]

/-! ## `FwUpdateEngineF45x::ModuleVersionInfo` and the `dlver` response -/

/-- `ModuleVersionInfo::State`. -/
inductive State where
  | Empty
  | Active
  | ActiveUpdating
  | Pending
deriving DecidableEq, Repr

/-- `struct FwUpdateEngineF45x::ModuleVersionInfo`. -/
structure ModuleVersionInfo where
  name : String
  version : String
  state : State
deriving DecidableEq, Repr

/-- The `std::runtime_error`s thrown by the engine and, for `timeout`, by the
string wait of the communication layer. -/
inductive EngineError where
  /-- "Invalid info state: " + str -/
  | invalidInfoState (str : String)
  /-- "Could not extract module list from dlver response" -/
  | noModuleList
  /-- "Module not found in device: " + name -/
  | moduleNotFound (name : String)
  /-- "DL init returned err" -/
  | dlInitErr
  /-- "Did not receive 'dl ack'" -/
  | noDlAck
  /-- "Error while parsing block" -/
  | blockError
  /-- "Update failed" -/
  | updateFailed
  /-- the awaited string did not arrive within the timeout -/
  | timeout (str : String)
  /-- "Found invalid module name in file: " + name -/
  | invalidModuleName (name : String)
  /-- "Failed loading firwmare file" -/
  | loadFailed
deriving DecidableEq, Repr

/-- `ModuleVersionInfo::StateFromString`: the enum for the string, or the
exception it throws. -/
def StateFromString (str : String) : Except EngineError State :=
  if str = "empty" then .ok .Empty
  else if str = "active" then .ok .Active
  else if str = "pending" then .ok .Pending
  else if str = "active-updating" then .ok .ActiveUpdating
  else .error (.invalidInfoState str)

/-- The regex class `\w` in the "C" locale: letters, digits and `_`. -/
def isWordChar (c : Char) : Bool :=
  isdigit c || (97 ≤ c.toNat && c.toNat ≤ 122) || (65 ≤ c.toNat && c.toNat ≤ 90) || c.toNat == 95

/-- The regex class `[\d\.]`. -/
def isVersionChar (c : Char) : Bool := isdigit c || c.toNat == 46

/-- The regex class `[\w-]`. -/
def isStateChar (c : Char) : Bool := isWordChar c || c.toNat == 45

/-- The pieces the regular expression of `ModulesFromDevice` is made of: a
literal character, or a capture group `(cls+)` over a character class. -/
inductive RegexItem where
  | lit (c : Char)
  | group (cls : Char → Bool)

/-- The greedy `cls+` of a capture group followed by the rest of the pattern
(`cont`): the group first takes `k` characters and gives back one at a time
until the rest matches; at least one character stays in the group. -/
def backtrack (cont : List Char → Option (List (List Char))) (s : List Char) :
    Nat → Option (List (List Char))
  | 0 => none
  | k + 1 =>
    match cont (s.drop (k + 1)) with
    | some captures => some (s.take (k + 1) :: captures)
    | none => backtrack cont s k

/-- Match the pattern at the head of `s` (ECMAScript backtracking semantics):
the captured groups, in order. -/
def matchItems : List RegexItem → List Char → Option (List (List Char))
  | [], _ => some []
  | .lit c :: items, s =>
    match s with
    | x :: xs => if x = c then matchItems items xs else none
    | [] => none
  | .group cls :: items, s =>
    backtrack (fun rest => matchItems items rest) s (s.takeWhile cls).length

/-- The pattern `(\w+) : \[(\w+)\] \[([\d\.]+)\] \(([\w-]+)\)`. -/
def rgx : List RegexItem :=
  [.group isWordChar, .lit ' ', .lit ':', .lit ' ', .lit '[', .group isWordChar, .lit ']',
   .lit ' ', .lit '[', .group isVersionChar, .lit ']', .lit ' ', .lit '(',
   .group isStateChar, .lit ')']

/-- `std::regex_search(line, match, rgx)`: the groups of the leftmost match. -/
def regex_search (items : List RegexItem) : List Char → Option (List (List Char))
  | [] => matchItems items []
  | c :: cs =>
    match matchItems items (c :: cs) with
    | some captures => some captures
    | none => regex_search items cs

/-- The loop `while (std::getline(ss, line, '\n'))` over the response: the
lines it reads. `cur` holds, reversed, the characters of the current line. A
line is read when a `\n` ends it, or at the end of the text when it has at
least one character. -/
def getlines : List Char → List Char → List (List Char)
  | [], cur => if cur.isEmpty then [] else [cur.reverse]
  | c :: cs, cur => if c = '\n' then cur.reverse :: getlines cs [] else getlines cs (c :: cur)

/-- How a call of an engine routine can end without returning. -/
inductive Exit where
  /-- a `std::runtime_error` was thrown -/
  | thrown (e : EngineError)
  /-- an `assert` failed (builds without `NDEBUG` only) -/
  | assertFailed
  /-- undefined behaviour -/
  | undefined
  /-- the fuel of a `while (true)` loop ran out -/
  | outOfFuel
deriving DecidableEq, Repr

/-- The body of the line loop of `ModulesFromDevice` for the lines still to
read, `results` being the vector built so far. -/
def parseDlVerLines (asserts : Bool) :
    List (List Char) → List ModuleVersionInfo → Except Exit (List ModuleVersionInfo)
  | [], results => .ok results
  | line :: rest, results =>
    match regex_search rgx line with
    | some [m1, m2, m3, m4] =>
      if asserts && decide (m1 ≠ m2) then .error .assertFailed
      else
        match StateFromString (String.mk m4) with
        | .error e => .error (.thrown e)
        | .ok state =>
          let result : ModuleVersionInfo :=
            { name := String.mk m2, version := String.mk m3, state := state }
          if result.name ≠ SCRAP then parseDlVerLines asserts rest (results ++ [result])
          else parseDlVerLines asserts rest results
    | _ => parseDlVerLines asserts rest results

/-! ## The communication layer and the run of an engine routine

`FwUpdaterCommF45x` and `Cmds.h` are not among the sources: a command is kept
as the call that builds it, and the communication object is a parameter. -/

/-- The commands of `F45xCmds`, each as the call that builds it. -/
inductive Cmd where
  | dlver
  | dlspd (baud_rate : Int)
  | dlinfo (name : String)
  | dlinit (name version : String) (size : Nat) (is_first : Bool) (crc block_size : Nat)
  | dl (block : Nat)
  | dlact (is_last : Bool)
  | dlsize (name : String) (size : Nat)
  | dlnew (name : String) (size : Nat)
deriving DecidableEq, Repr

/-- What the engine does to the outside world, in the order it does it. -/
inductive Event where
  /-- `_comm->WriteCmd(cmd, wait_response)`; `none`: the argument is defaulted -/
  | writeCmd (cmd : Cmd) (wait_response : Option Bool)
  /-- `_comm->WriteBinary(buf, n)` with the `n` bytes at `buf` -/
  | writeBinary (bytes : List UInt8)
  /-- `_comm->WaitForStr(str, timeout)` -/
  | waitForStr (str : String) (timeout_ms : Nat)
  /-- `_comm->WaitForIdle()` -/
  | waitForIdle
  /-- `_comm->ConsumeScanned()` -/
  | consumeScanned
  /-- `_comm->StopReaderThread()` -/
  | stopReaderThread
  /-- `std::this_thread::sleep_for` -/
  | sleep (ms : Nat)
  /-- a call of the progress tick -/
  | tick
  /-- a call `on_progress(value)` of the progress callback made by `BurnModules` itself -/
  | onProgress (value : ℚ)
  /-- `_comm = std::make_unique<FwUpdaterCommF45x>(settings.serial_config)` -/
  | openComm
  /-- `_comm->DumpSession(DumpFilename)` -/
  | dumpSession
  /-- `_comm.reset()` -/
  | closeComm
deriving DecidableEq, Repr

/-- Modelled from the spec: the communication object `_comm`
(`FwUpdaterCommF45x`, not among the sources), over a state `σ` that stands for
the device, the serial link and the scan buffer. Commands and binary payloads
are written, and idleness is awaited, without failure; waiting for a string
either finds it or times out, which is fatal (`none`); `GetScanPtr` is the text
scanned and not yet consumed; `elapse` is what happens to the state while the
caller sleeps. -/
structure Comm (σ : Type) where
  WriteCmd : Cmd → Option Bool → σ → σ
  WriteBinary : List UInt8 → σ → σ
  WaitForStr : String → Nat → σ → Option σ
  WaitForIdle : σ → σ
  GetScanPtr : σ → List Char
  ConsumeScanned : σ → σ
  StopReaderThread : σ → σ
  elapse : Nat → σ → σ

/-- The state of a run: the communication state and the events so far. -/
structure World (σ : Type) where
  comm : σ
  trace : List Event
deriving DecidableEq

/-- How a routine ends: it returns a value, or it exits; the state is kept
in both cases. -/
inductive Res (σ α : Type) where
  | ok (a : α) (w : World σ)
  | exit (e : Exit) (w : World σ)
deriving DecidableEq

/-- The state in which a routine ends. -/
def Res.world {σ α : Type} : Res σ α → World σ
  | .ok _ w => w
  | .exit _ w => w

/-- A routine of the engine. -/
def M (σ α : Type) : Type := World σ → Res σ α

instance (σ : Type) : Monad (M σ) where
  pure a := fun w => .ok a w
  bind m f := fun w =>
    match m w with
    | .ok a w2 => f a w2
    | .exit e w2 => .exit e w2

/-- Leave the routine. -/
def exitWith {σ α : Type} (e : Exit) : M σ α := fun w => .exit e w

/-- `throw std::runtime_error(...)`. -/
def throwErr {σ α : Type} (e : EngineError) : M σ α := exitWith (.thrown e)

/-- `_comm->WriteCmd(cmd, wait_response)`. -/
def WriteCmd {σ : Type} (C : Comm σ) (cmd : Cmd) (wait_response : Option Bool) : M σ Unit :=
  fun w => .ok () { comm := C.WriteCmd cmd wait_response w.comm,
                    trace := w.trace ++ [.writeCmd cmd wait_response] }

/-- `_comm->WriteBinary(buf, n)`. -/
def WriteBinary {σ : Type} (C : Comm σ) (bytes : List UInt8) : M σ Unit :=
  fun w => .ok () { comm := C.WriteBinary bytes w.comm, trace := w.trace ++ [.writeBinary bytes] }

/-- `_comm->WaitForStr(str, timeout)`. -/
def WaitForStr {σ : Type} (C : Comm σ) (str : String) (timeout_ms : Nat) : M σ Unit :=
  fun w =>
    match C.WaitForStr str timeout_ms w.comm with
    | some c => .ok () { comm := c, trace := w.trace ++ [.waitForStr str timeout_ms] }
    | none => .exit (.thrown (.timeout str))
        { comm := w.comm, trace := w.trace ++ [.waitForStr str timeout_ms] }

/-- `_comm->WaitForIdle()`. -/
def WaitForIdle {σ : Type} (C : Comm σ) : M σ Unit :=
  fun w => .ok () { comm := C.WaitForIdle w.comm, trace := w.trace ++ [.waitForIdle] }

/-- `_comm->GetScanPtr()`: the text at the scan pointer when it is taken. -/
def GetScanPtr {σ : Type} (C : Comm σ) : M σ (List Char) :=
  fun w => .ok (C.GetScanPtr w.comm) w

/-- `_comm->ConsumeScanned()`. -/
def ConsumeScanned {σ : Type} (C : Comm σ) : M σ Unit :=
  fun w => .ok () { comm := C.ConsumeScanned w.comm, trace := w.trace ++ [.consumeScanned] }

/-- `_comm->StopReaderThread()`. -/
def StopReaderThread {σ : Type} (C : Comm σ) : M σ Unit :=
  fun w => .ok () { comm := C.StopReaderThread w.comm, trace := w.trace ++ [.stopReaderThread] }

/-- `std::this_thread::sleep_for(std::chrono::milliseconds(ms))`. -/
def sleep_for {σ : Type} (C : Comm σ) (ms : Nat) : M σ Unit :=
  fun w => .ok () { comm := C.elapse ms w.comm, trace := w.trace ++ [.sleep ms] }

/-- A call `tick()` of the progress tick. -/
def tick {σ : Type} : M σ Unit :=
  fun w => .ok () { comm := w.comm, trace := w.trace ++ [.tick] }

/-- `FwUpdateEngineF45x::ModulesFromDevice`. -/
def ModulesFromDevice {σ : Type} (C : Comm σ) (asserts : Bool) : M σ (List ModuleVersionInfo) := do
  WriteCmd C .dlver (some true)
  sleep_for C 200
  let response ← GetScanPtr C
  match parseDlVerLines asserts (getlines response []) [] with
  | .error e => exitWith e
  | .ok results =>
    ConsumeScanned C
    if results.isEmpty then throwErr .noModuleList
    else pure results

/-- `FwUpdateEngineF45x::ModuleFromDevice`. -/
def ModuleFromDevice {σ : Type} (C : Comm σ) (asserts : Bool) (module_name : String) :
    M σ ModuleVersionInfo := do
  let modules ← ModulesFromDevice C asserts
  match modules.find? (fun module => module.name == module_name) with
  | some module => pure module
  | none => throwErr (.moduleNotFound module_name)

/-! ## Vocabulary of the `dlver` claims -/

/-- The four groups of a line `NAME : [NAME] [VERSION] (STATE)`. -/
structure VersionLine where
  name1 : List Char
  name2 : List Char
  version : List Char
  state : List Char
deriving DecidableEq, Repr

/-- The line matches the pattern: its groups. -/
def lineMatch (line : List Char) : Option VersionLine :=
  match regex_search rgx line with
  | some [m1, m2, m3, m4] => some { name1 := m1, name2 := m2, version := m3, state := m4 }
  | _ => none

/-- The matching lines of a response, in response order. -/
def matchingLines (response : List Char) : List VersionLine :=
  (getlines response []).filterMap lineMatch

/-- The state literal of the line is one of the four recognised ones. -/
def VersionLine.recognised (l : VersionLine) : Prop :=
  String.mk l.state ∈ ["empty", "active", "active-updating", "pending"]

instance (l : VersionLine) : Decidable l.recognised := by
  unfold VersionLine.recognised; infer_instance

/-- The entry a matching line with a recognised state stands for. -/
def VersionLine.entry (l : VersionLine) : Option ModuleVersionInfo :=
  match StateFromString (String.mk l.state) with
  | .ok state => some { name := String.mk l.name2, version := String.mk l.version, state := state }
  | .error _ => none

/-- One entry per matching line whose name is not `SCRAP`, in response order. -/
def listedModules (response : List Char) : List ModuleVersionInfo :=
  ((matchingLines response).filterMap VersionLine.entry).filter (fun e => e.name ≠ "SCRAP")

/-- The text `ModulesFromDevice` reads: what is at the scan pointer 200 ms
after the `dlver` command. -/
def dlverResponse {σ : Type} (C : Comm σ) (c : σ) : List Char :=
  C.GetScanPtr (C.elapse 200 (C.WriteCmd .dlver (some true) c))

/-- The state `ModulesFromDevice` leaves behind once the response is parsed. -/
def afterDlver {σ : Type} (C : Comm σ) (w : World σ) : World σ :=
  { comm := C.ConsumeScanned (C.elapse 200 (C.WriteCmd .dlver (some true) w.comm)),
    trace := w.trace ++ [.writeCmd .dlver (some true), .sleep 200, .consumeScanned] }

/-! ## A scripted device for the samples -/

/-- The state of the scripted device: the texts it will still send, one for
each operation of the host that lets time pass, and the scan buffer. -/
structure Script where
  pending : List String
  scan : List Char
deriving DecidableEq, Repr

/-- The next text of the script arrives in the scan buffer. -/
def Script.receive (s : Script) : Script :=
  match s.pending with
  | [] => s
  | text :: rest => { pending := rest, scan := s.scan ++ text.toList }

/-- The scripted device: every write, wait and sleep receives the next text of
the script; a string wait succeeds iff the string is then in the scan buffer;
consuming empties the scan buffer. -/
def scriptedComm : Comm Script where
  WriteCmd _ _ s := s.receive
  WriteBinary _ s := s.receive
  WaitForStr str _ s :=
    if (strstr s.receive.scan str.toList).isSome then some s.receive else none
  WaitForIdle s := s.receive
  GetScanPtr s := s.scan
  ConsumeScanned s := { pending := s.pending, scan := [] }
  StopReaderThread s := s
  elapse _ s := s.receive

/-- The start of a run against the scripted device. -/
def scripted (texts : List String) : World Script :=
  { comm := { pending := texts, scan := [] }, trace := [] }

/-- The exit of a routine, `none` when it returned. -/
def Res.exit? {σ α : Type} : Res σ α → Option Exit
  | .ok _ _ => none
  | .exit e _ => some e

/-- The value a routine returned, if it returned. -/
def Res.value? {σ α : Type} : Res σ α → Option α
  | .ok a _ => some a
  | .exit _ _ => none

/-- A `dlver` response listing `OPFW`, the bookkeeping module and `NNLED`. -/
def sampleDlver : List String :=
  ["dlver ack\n",
   "OPFW : [OPFW] [0.0.0.1] (active)\nSCRAP : [SCRAP] [0.0.0.0] (empty)\n" ++
   "NNLED : [NNLED] [1.2] (pending)\ndlver end\n"]


/-! ## Lines whose two names agree -/

/-- The line carries the same name before the colon and inside the brackets. -/
def VersionLine.namesAgree (l : VersionLine) : Bool :=
  decide (l.name1 = l.name2)

/-- One entry per line `NAME : [NAME] [VERSION] (STATE)` that carries the same
name twice, other than `SCRAP`, in response order. -/
def agreeingModules (response : List Char) : List ModuleVersionInfo :=
  (((matchingLines response).filter VersionLine.namesAgree).filterMap
    VersionLine.entry).filter (fun e => e.name ≠ "SCRAP")

/-- A `dlver` response whose one module line carries two different names. -/
def mismatchDlver : List String :=
  ["dlver ack\n", "FOO : [OPFW] [1.0] (active)\ndlver end\n"]

/-! ## `FwUpdateEngineF45x::BurnModule` and its helpers -/

/-- Result of the `%d` conversion of `sscanf`. -/
inductive ScanInt where
  | value (v : Int)
  /-- input failure or matching failure -/
  | noMatch
deriving DecidableEq, Repr

/-- The `int` with the low 32 bits of `l` (two's complement). -/
def toInt32 (l : Int) : Int :=
  (l + 2 ^ 31) % 2 ^ 32 - 2 ^ 31

/-- The `%d` conversion: white space, optional sign, decimal digits. As the
GNU C library does (the C standard leaves a number that does not fit
undefined), the digits are converted as by `strtol`, to a `long` of 64 bits
that stops at `LONG_MIN` and `LONG_MAX`, and the low 32 bits are stored. -/
def scanInt (s : List Char) : ScanInt :=
  let (neg, t) := stripSign (skipSpace s)
  let ds := t.takeWhile isdigit
  if ds.isEmpty then .noMatch
  else if neg then
    .value (toInt32 (if 2 ^ 63 < numVal 10 ds then -(2 ^ 63) else -(numVal 10 ds : Int)))
  else
    .value (toInt32 (if 2 ^ 63 ≤ numVal 10 ds then 2 ^ 63 - 1 else (numVal 10 ds : Int)))

/-- The call of `GetBlockUpdateList(module, force_full)` inside a run: the
report is the text at the scan pointer; the scanned text is consumed before
the function returns. -/
def callGetBlockUpdateList {σ : Type} (C : Comm σ) (asserts : Bool) (fuel : Nat)
    (module : ModuleInfo) (force_full : Bool) : M σ (List Bool) := do
  let logBuf ← GetScanPtr C
  match GetBlockUpdateList asserts fuel module logBuf force_full with
  | none => exitWith .outOfFuel
  | some .assertFailed => exitWith .assertFailed
  | some .undefined => exitWith .undefined
  | some (.returned rv) =>
    ConsumeScanned C
    pure rv

/-- The text `snprintf(str, 64, "%s : blk %zu sz=%zu", name, blkNo, sz)` leaves in `str`. -/
def dlAckStr (name : String) (blkNo sz : Nat) : List Char :=
  (name.toList ++ " : blk ".toList ++ Nat.toDigits 10 blkNo ++ " sz=".toList
    ++ Nat.toDigits 10 sz).take 63

/-- `FwUpdateEngineF45x::ParseDlResponse`. -/
def ParseDlResponse {σ : Type} (C : Comm σ) (name : String) (blkNo sz : Nat) : M σ Bool := do
  let logBuf ← GetScanPtr C
  let ack := (strstr logBuf (dlAckStr name blkNo sz)).isSome
  ConsumeScanned C
  pure ack

/-- `FwUpdateEngineF45x::ParseDlBlockResult`. -/
def ParseDlBlockResult {σ : Type} (C : Comm σ) : M σ Bool := do
  let logBuf ← GetScanPtr C
  match strstr logBuf "dl ret=".toList with
  | none =>
    ConsumeScanned C
    pure false
  | some p =>
    match scanInt (p.drop 7) with
    | .noMatch =>
      ConsumeScanned C
      pure false
    | .value result =>
      ConsumeScanned C
      pure (result == 0)

/-- The loop `for (uint32_t i = 0; i < module.blocks.size(); ++i) tick();`. -/
def tickTimes {σ : Type} : Nat → M σ Unit
  | 0 => pure ()
  | n + 1 => do
    tick
    tickTimes n

/-- The array of the block CRCs, `uint32_t` each, as the bytes that are sent. -/
def blkCrcBytes (module : ModuleInfo) : List UInt8 :=
  (module.blocks.map fun block => le32 block.crc).flatten

/-- The body of the transfer loop for a block that is to be written: from
`_comm->WriteCmd(F45xCmds::dl(i))` to `tick()`. Reading the `size` bytes at
`buffer.data() + offset` out of the buffer is undefined behaviour. -/
def burnBlock {σ : Type} (C : Comm σ) (module : ModuleInfo) (buffer : List UInt8)
    (i : Nat) (block : BlockInfo) : M σ Unit := do
  WriteCmd C (.dl i) none
  WaitForIdle C
  let dlAck ← ParseDlResponse C module.name i block.size
  if !dlAck then throwErr .noDlAck
  else if buffer.length < block.offset + block.size then exitWith .undefined
  else do
    WriteBinary C (slice buffer block.offset block.size)
    WaitForStr C "dl ret=" (2000 * BlockSize / (64 * 1024))
    let dlErr ← ParseDlBlockResult C
    if !dlErr then throwErr .blockError
    else tick

/-- The transfer loop `for (auto i = 0; i < static_cast<int>(module.blocks.size()); ++i)`
with `todo` iterations left, the next for index `i` (the number of blocks is
taken to fit an `int`). Reading `block_update_list[i]` out of bounds is
undefined behaviour. -/
def burnBlocks {σ : Type} (C : Comm σ) (module : ModuleInfo) (buffer : List UInt8)
    (block_update_list : List Bool) : Nat → Nat → M σ Unit
  | 0, _ => pure ()
  | todo + 1, i =>
    match block_update_list[i]?, module.blocks[i]? with
    | some should_update_block, some block =>
      if !should_update_block then burnBlocks C module buffer block_update_list todo (i + 1)
      else do
        burnBlock C module buffer i block
        burnBlocks C module buffer block_update_list todo (i + 1)
    | _, _ => exitWith .undefined

/-- `BurnModule`, first part: the module's state on the device and the
reconciler's list for its block table. -/
def burnQuery {σ : Type} (C : Comm σ) (asserts : Bool) (fuel : Nat) (module : ModuleInfo)
    (force_full : Bool) : M σ (ModuleVersionInfo × List Bool) := do
  let version_info ← ModuleFromDevice C asserts module.name
  WriteCmd C (.dlinfo module.name) none
  WaitForStr C "dlinfo end" 1000
  let block_update_list ← callGetBlockUpdateList C asserts fuel module force_full
  if asserts && decide (module.blocks.length ≠ block_update_list.length) then
    exitWith .assertFailed
  else pure (version_info, block_update_list)

/-- `BurnModule`, the branch `if (!need_update && version_info.state == Active)`:
the 'fake' progress reports and, for the last module, the final command. -/
def burnSkip {σ : Type} (C : Comm σ) (module : ModuleInfo) (is_last : Bool) : M σ Unit := do
  tickTimes module.blocks.length
  if is_last then do
    StopReaderThread C
    WriteCmd C (.dlact true) (some false)
  else pure ()

/-- `BurnModule` from `dlinit` to the end of the transfer loop. -/
def burnTransfer {σ : Type} (C : Comm σ) (module : ModuleInfo) (buffer : List UInt8)
    (is_first : Bool) (block_update_list : List Bool) : M σ Unit := do
  WriteCmd C (.dlinit module.name module.version module.size is_first module.crc BlockSize) none
  sleep_for C 50
  let logBuf ← GetScanPtr C
  ConsumeScanned C
  if (strstr logBuf "err ".toList).isSome then do
    WriteCmd C (.dlact true) (some false)
    throwErr .dlInitErr
  else do
    WriteBinary C (blkCrcBytes module)
    ConsumeScanned C
    burnBlocks C module buffer block_update_list module.blocks.length 0

/-- `BurnModule` after the transfer loop: verification and activation. -/
def burnVerify {σ : Type} (C : Comm σ) (asserts : Bool) (fuel : Nat) (module : ModuleInfo)
    (is_last : Bool) : M σ Unit := do
  WriteCmd C (.dlinfo module.name) none
  WaitForStr C "dlinfo end" 3000
  let block_update_list ← callGetBlockUpdateList C asserts fuel module false
  if block_update_list.contains true then throwErr .updateFailed
  else if is_last then do
    StopReaderThread C
    WriteCmd C (.dlact true) (some false)
  else do
    WriteCmd C (.dlact false) none
    WaitForStr C "validation ok" 3000

/-- The list the transfer loop works with: the reconciler's list, or all
`true` when the module is not `ActiveUpdating`. -/
def transferList (version_info : ModuleVersionInfo) (block_update_list : List Bool) : List Bool :=
  if version_info.state ≠ .ActiveUpdating then block_update_list.map fun _ => true
  else block_update_list

/-- `FwUpdateEngineF45x::BurnModule(tick, module, buffer, is_first, is_last, force_full)`. -/
def BurnModule {σ : Type} (C : Comm σ) (asserts : Bool) (fuel : Nat) (module : ModuleInfo)
    (buffer : List UInt8) (is_first is_last force_full : Bool) : M σ Unit := do
  let (version_info, block_update_list) ← burnQuery C asserts fuel module force_full
  let n_updates := block_update_list.count true
  let need_update := decide (n_updates > 0)
  if !need_update && decide (version_info.state = .Active) then burnSkip C module is_last
  else do
    burnTransfer C module buffer is_first (transferList version_info block_update_list)
    burnVerify C asserts fuel module is_last

/-- `FwUpdateEngineF45x::CleanObsoleteModules`: the loop over the device modules. -/
def CleanObsoleteModules {σ : Type} (C : Comm σ) (file_modules : List ModuleInfo) :
    List ModuleVersionInfo → M σ Unit
  | [] => pure ()
  | device_module :: rest =>
    if device_module.state = .Empty ∨ device_module.name = OPFW then
      CleanObsoleteModules C file_modules rest
    else
      let exists_in_file := file_modules.any fun file_module => file_module.name == device_module.name
      if !exists_in_file then do
        WriteCmd C (.dlsize device_module.name 0) (some false)
        WaitForIdle C
        CleanObsoleteModules C file_modules rest
      else CleanObsoleteModules C file_modules rest

/-! ## Sample runs of `BurnModule` -/

/-- A module of five blocks of four bytes, with CRCs `0x11111111 * (i + 1)`. -/
def sampleModule5 : ModuleInfo :=
  { name := "OPFW", version := "0.0.0.1", crc := 0xabcdef01, filename := "fw.bin",
    file_offset := 112, size := 20, aligned_size := 20,
    blocks := (List.range 5).map fun i =>
      { offset := 4 * i, size := 4, crc := 0x11111111 * (i + 1) } }

/-- The 20 bytes of `sampleModule5`: `0, 1, ..., 19`. -/
def sampleBuffer5 : List UInt8 := (List.range 20).map UInt8.ofNat

/-- A block table in which every block of `sampleModule5` is up to date. -/
def tableAllOk : String :=
  "dlinfo ack\nOPFW info\n#0   OK    11111111 11111111\n#1   OK    22222222 22222222\n" ++
  "#2   OK    33333333 33333333\n#3   OK    44444444 44444444\n" ++
  "#4   OK    55555555 55555555\nOPFW end\ndlinfo end\n"

/-- A block table in which blocks 0 and 1 of `sampleModule5` are up to date,
block 2 has a wrong CRC and blocks 3 and 4 are not listed. -/
def tableTwoOk : String :=
  "dlinfo ack\nOPFW info\n#0   OK    11111111 11111111\n#1   OK    22222222 22222222\n" ++
  "#2   OK    33333333 12345678\nOPFW end\ndlinfo end\n"

/-- What the scripted device sends while block `i` (of 4 bytes) is written:
nothing on the command, the acknowledgement while the host waits for idle,
nothing on the payload, then the result. -/
def blockTexts (i : Nat) : List String :=
  ["", "OPFW : blk " ++ String.mk (Nat.toDigits 10 i) ++ " sz=4\n", "", "dl ret=0\n"]

/-- The device reports `OPFW` in the given state, then the first block table;
it accepts the session, acknowledges the given blocks, and shows the second
block table at the verification. -/
def burnScript (state : String) (table1 : String) (blocks : List Nat) (table2 : String) :
    List String :=
  ["dlver ack\n", "OPFW : [OPFW] [0.0.0.1] (" ++ state ++ ")\ndlver end\n", "", table1,
   "", "dlinit ack\n", ""] ++ (blocks.map blockTexts).flatten ++ ["", table2, "", "validation ok\n"]

/-- The commands of a trace, in order. -/
def sentCmds (trace : List Event) : List Cmd :=
  trace.filterMap fun e =>
    match e with
    | .writeCmd cmd _ => some cmd
    | _ => none

/-- The binary payloads of a trace, in order. -/
def sentBinary (trace : List Event) : List (List UInt8) :=
  trace.filterMap fun e =>
    match e with
    | .writeBinary bytes => some bytes
    | _ => none

/-- The block indices of the block-write commands of a trace, in order. -/
def blockWrites (trace : List Event) : List Nat :=
  trace.filterMap fun e =>
    match e with
    | .writeCmd (.dl i) _ => some i
    | _ => none

/-- The indices `i, i + 1, ..., i + todo - 1` that the list flags, ascending. -/
def flaggedFrom (block_update_list : List Bool) (i todo : Nat) : List Nat :=
  (List.range' i todo).filter fun j => block_update_list[j]? = some true

/-- The bytes `buffer[offset .. offset + size)` of block `j`. -/
def blockPayload (module : ModuleInfo) (buffer : List UInt8) (j : Nat) : List UInt8 :=
  match module.blocks[j]? with
  | some block => slice buffer block.offset block.size
  | none => []

/-- The routine only adds events to the trace. -/
def Appends {σ α : Type} (m : M σ α) : Prop :=
  ∀ w, ∃ added, (m w).world.trace = w.trace ++ added

/-- The event is a block-write command or a binary payload. -/
def Event.isTransfer : Event → Bool
  | .writeCmd (.dl _) _ => true
  | .writeBinary _ => true
  | _ => false

/-- The routine only adds events to the trace, and among them no block-write
command, no binary payload and no tick. -/
def Quiet {σ α : Type} (m : M σ α) : Prop :=
  ∀ w, ∃ added, (m w).world.trace = w.trace ++ added ∧
    ∀ e ∈ added, e.isTransfer = false ∧ e ≠ .tick

/-- The device reports `OPFW` as `active-updating` with blocks 0 and 1 of 5
up to date; it acknowledges blocks 2, 3 and 4 and then shows a clean table. -/
def resumeRun : World Script :=
  scripted (burnScript "active-updating" tableTwoOk [2, 3, 4] tableAllOk)

/-- The device reports `OPFW` as `pending` with blocks 0 and 1 of 5 up to
date; it acknowledges all five blocks and then shows a clean table. -/
def pendingRun : World Script :=
  scripted (burnScript "pending" tableTwoOk [0, 1, 2, 3, 4] tableAllOk)

/-- The device reports `OPFW` as `pending` with blocks 0 and 1 of 5 up to
date, and answers the session-open command with an error. -/
def dlinitErrRun : World Script :=
  scripted ["dlver ack\n", "OPFW : [OPFW] [0.0.0.1] (pending)\ndlver end\n", "", tableTwoOk,
    "", "dlinit err 3\n"]

/-- The device reports `OPFW` as `pending`, acknowledges all five blocks, and
at the verification shows a table in which block 2 has a wrong CRC and blocks
3 and 4 are missing. -/
def failedVerifyRun : World Script :=
  scripted (burnScript "pending" tableAllOk [0, 1, 2, 3, 4] tableTwoOk)

/-- The whole run for `sampleModule5`: the device answers the idle wait and the
baud rate command, lists `OPFW` as `pending`, and then behaves as in
`pendingRun`. -/
def sessionRun : World Script :=
  scripted (["", "dlspd ack\n", "dlver ack\n", "OPFW : [OPFW] [0.0.0.1] (pending)\ndlver end\n"] ++
    burnScript "pending" tableTwoOk [0, 1, 2, 3, 4] tableAllOk)

/-- A module `SPOOFS` of one block of four bytes. -/
def sampleModuleB : ModuleInfo :=
  { name := "SPOOFS", version := "0.0.0.1", crc := 0x12345678, filename := "fw.bin",
    file_offset := 640, size := 4, aligned_size := 4,
    blocks := [{ offset := 0, size := 4, crc := 0x11111111 }] }

/-- A run for `sampleModule5` followed by `sampleModuleB`: the device lists
`OPFW` as `pending` and `SPOOFS` as `active`; it takes the five blocks of
`OPFW`, shows a clean table and validates the module; the block table of
`SPOOFS` shows its block up to date. -/
def twoModuleRun : World Script :=
  scripted (["dlver ack\n",
      "OPFW : [OPFW] [0.0.0.1] (pending)\nSPOOFS : [SPOOFS] [0.0.0.1] (active)\ndlver end\n",
      "", tableTwoOk, "", "dlinit ack\n", ""] ++
    ([0, 1, 2, 3, 4].map blockTexts).flatten ++ ["", tableAllOk, "", "validation ok\n"] ++
    ["dlver ack\n",
      "OPFW : [OPFW] [0.0.0.1] (active)\nSPOOFS : [SPOOFS] [0.0.0.1] (active)\ndlver end\n",
      "", "dlinfo ack\nSPOOFS info\n#0   OK    11111111 11111111\nSPOOFS end\ndlinfo end\n"])

/-! ## The orchestration: `InitNewModules`, `BurnSelectModules`, `BurnModules` -/

/-- `FwUpdateEngineF45x::InitNewModules`: the loop over the file modules. -/
def InitNewModules {σ : Type} (C : Comm σ) (device_modules : List ModuleVersionInfo) :
    List ModuleInfo → M σ Unit
  | [] => pure ()
  | file_module :: rest =>
    let exists_in_device :=
      device_modules.any fun device_module => device_module.name == file_module.name
    if !exists_in_device then
      match VerifyAllowed file_module with
      | .error _ => throwErr (.invalidModuleName file_module.name)
      | .ok () => do
        WriteCmd C (.dlnew file_module.name file_module.size) none
        WaitForIdle C
        InitNewModules C device_modules rest
    else InitNewModules C device_modules rest

/-- The loop of `BurnSelectModules` over the modules still to burn;
`modules_size` is `modules.size()`, `module_count` the counter before the
increment. `LoadFileToBuffer` is `FwUpdateCommon::LoadFileToBuffer`. -/
def burnSelectLoop {σ : Type} (C : Comm σ) (asserts : Bool) (fuel : Nat)
    (LoadFileToBuffer : String → Nat → Nat → Nat → List UInt8) (force_full : Bool)
    (modules_size : Nat) : Nat → List ModuleInfo → M σ Unit
  | _, [] => pure ()
  | module_count, module :: rest =>
    let buffer :=
      LoadFileToBuffer module.filename module.aligned_size module.size module.file_offset
    if buffer.isEmpty then throwErr .loadFailed
    else do
      let is_last_module := decide (module_count + 1 = modules_size)
      let is_first_module := decide (module_count + 1 = 1)
      BurnModule C asserts fuel module buffer is_first_module is_last_module force_full
      burnSelectLoop C asserts fuel LoadFileToBuffer force_full modules_size (module_count + 1) rest

/-- `FwUpdateEngineF45x::BurnSelectModules(modules, tick, force_full)`. -/
def BurnSelectModules {σ : Type} (C : Comm σ) (asserts : Bool) (fuel : Nat)
    (LoadFileToBuffer : String → Nat → Nat → Nat → List UInt8) (modules : List ModuleInfo)
    (force_full : Bool) : M σ Unit :=
  burnSelectLoop C asserts fuel LoadFileToBuffer force_full modules.length 0 modules

/-- `FwUpdateEngineF45x::Settings`, through the fields `BurnModules` reads
after the serial configuration. -/
structure Settings where
  baud_rate : Int
  force_full : Bool
deriving DecidableEq, Repr

/-- A call `on_progress(value)` made by `BurnModules` itself. -/
def on_progress {σ : Type} (value : ℚ) : M σ Unit :=
  fun w => .ok () { comm := w.comm, trace := w.trace ++ [.onProgress value] }

/-- Modelled from the spec: `_comm = std::make_unique<FwUpdaterCommF45x>(...)`
opens a fresh communication session; it is taken to succeed and is kept as an
event, the state `σ` being that of the device and the link it attaches to. -/
def openComm {σ : Type} : M σ Unit :=
  fun w => .ok () { comm := w.comm, trace := w.trace ++ [.openComm] }

/-- Modelled from the spec: `_comm->DumpSession(DumpFilename)` writes the
transcript of the session to the log file; it is taken to succeed and to leave
the device and the link as they are. -/
def DumpSession {σ : Type} : M σ Unit :=
  fun w => .ok () { comm := w.comm, trace := w.trace ++ [.dumpSession] }

/-- `_comm.reset()`. -/
def closeComm {σ : Type} : M σ Unit :=
  fun w => .ok () { comm := w.comm, trace := w.trace ++ [.closeComm] }

/-- The statement `try { body } catch (const std::exception&) { handler; throw; }`:
a thrown exception runs the handler and is thrown again; an exit that is not
an exception passes through. -/
def tryCatchRethrow {σ α : Type} (body : M σ α) (handler : M σ Unit) : M σ α :=
  fun w =>
    match body w with
    | .ok a w2 => .ok a w2
    | .exit (.thrown e) w2 =>
      match handler w2 with
      | .ok _ w3 => .exit (.thrown e) w3
      | .exit e2 w3 => .exit e2 w3
    | .exit e w2 => .exit e w2

/-- The `try` block of `BurnModules` after the call `on_progress(0.0f)`. -/
def burnSessionRest {σ : Type} (C : Comm σ) (asserts : Bool) (fuel : Nat)
    (LoadFileToBuffer : String → Nat → Nat → Nat → List UInt8) (settings : Settings)
    (modules : List ModuleInfo) (device_modules : List ModuleVersionInfo) : M σ Unit := do
  CleanObsoleteModules C modules device_modules
  InitNewModules C device_modules modules
  BurnSelectModules C asserts fuel LoadFileToBuffer modules settings.force_full
  DumpSession
  on_progress 1

/-- The `try` block of `BurnModules`. -/
def burnSession {σ : Type} (C : Comm σ) (asserts : Bool) (fuel : Nat)
    (LoadFileToBuffer : String → Nat → Nat → Nat → List UInt8) (settings : Settings)
    (modules : List ModuleInfo) : M σ Unit := do
  WaitForIdle C
  WriteCmd C (.dlspd settings.baud_rate) (some true)
  let device_modules ← ModulesFromDevice C asserts
  on_progress 0
  burnSessionRest C asserts fuel LoadFileToBuffer settings modules device_modules

/-- `FwUpdateEngineF45x::BurnModules(settings, modules, on_progress)`. The
tick handed to `BurnSelectModules` is the lambda `progress_tick`; what it
passes to `on_progress` is read off the trace by `progressCalls`, with 0
for the initial `overall_progress`. -/
def BurnModules {σ : Type} (C : Comm σ) (asserts : Bool) (fuel : Nat)
    (LoadFileToBuffer : String → Nat → Nat → Nat → List UInt8) (settings : Settings)
    (modules : List ModuleInfo) : M σ Unit :=
  if modules.isEmpty then pure ()
  else
    let total_number_of_blocks := (modules.map fun module => module.blocks.length).sum
    if total_number_of_blocks = 0 then pure ()
    else do
      openComm
      tryCatchRethrow (burnSession C asserts fuel LoadFileToBuffer settings modules)
        (do
          DumpSession
          closeComm)

/-! ## Single-precision arithmetic of the progress values -/

/-- The power `2 ^ e` for an integer exponent. -/
def pow2 (e : Int) : ℚ :=
  if 0 ≤ e then 2 ^ e.toNat else 1 / 2 ^ (-e).toNat

/-- The number of binary digits of `n` less one (0 for `n < 2`); `fuel` bounds
the number of halvings. -/
def log2Floor : Nat → Nat → Nat
  | 0, _ => 0
  | fuel + 1, n => if n < 2 then 0 else log2Floor fuel (n / 2) + 1

/-- The exponent `e` with `2 ^ e ≤ |q| < 2 ^ (e + 1)`, for `q ≠ 0`. -/
def binaryExponent (q : ℚ) : Int :=
  let e : Int := (log2Floor q.num.natAbs q.num.natAbs : Int) - (log2Floor q.den q.den : Int)
  if pow2 e ≤ |q| then e else e - 1

/-- The integer nearest to `q`, a tie going to the even one. -/
def roundHalfEven (q : ℚ) : Int :=
  if q - (Int.floor q : ℚ) < 1 / 2 then Int.floor q
  else if 1 / 2 < q - (Int.floor q : ℚ) then Int.floor q + 1
  else if Int.floor q % 2 = 0 then Int.floor q
  else Int.floor q + 1

/-- The value of type `float` (IEEE 754 binary32) nearest to `q`, a tie going
to the even significand: what a conversion or an arithmetic operation on
`float` gives for the exact result `q`. The finite values of `float` are read
as the rationals they denote; `q` is taken to be of a magnitude below
`2 ^ 128`, as every value of the progress arithmetic is. -/
def roundFloat (q : ℚ) : ℚ :=
  if q = 0 then 0
  else (roundHalfEven (q / pow2 (max (binaryExponent q) (-126) - 23)) : ℚ)
    * pow2 (max (binaryExponent q) (-126) - 23)

/-- The variable `progress_delta` of `BurnModules`:
`1.0f / static_cast<float>(total_number_of_blocks)`. -/
def progress_delta (total_number_of_blocks : Nat) : ℚ :=
  roundFloat (1 / roundFloat (total_number_of_blocks : ℚ))

/-- The values `on_progress` receives during a trace of `BurnModules`:
`progress_tick` does `overall_progress += progress_delta;
on_progress(overall_progress)` on variables of type `float`, the direct calls
pass their argument. The second argument is the value of `overall_progress`. -/
def progressCalls (total_number_of_blocks : Nat) : ℚ → List Event → List ℚ
  | _, [] => []
  | overall_progress, .tick :: rest =>
    roundFloat (overall_progress + progress_delta total_number_of_blocks) ::
      progressCalls total_number_of_blocks
        (roundFloat (overall_progress + progress_delta total_number_of_blocks)) rest
  | overall_progress, .onProgress value :: rest =>
    value :: progressCalls total_number_of_blocks overall_progress rest
  | overall_progress, _ :: rest => progressCalls total_number_of_blocks overall_progress rest

/-- The variable `overall_progress` after `n` ticks: `n` additions of `delta`
in `float` arithmetic. -/
def floatSum (delta : ℚ) : Nat → ℚ → ℚ
  | 0, overall_progress => overall_progress
  | n + 1, overall_progress => floatSum delta n (roundFloat (overall_progress + delta))

/-- The same calls read over exact rationals, as the progress claim reads
them: each tick adds the per-block `increment` without rounding. -/
def exactProgress (increment : ℚ) : ℚ → List Event → List ℚ
  | _, [] => []
  | overall_progress, .tick :: rest =>
    (overall_progress + increment) ::
      exactProgress increment (overall_progress + increment) rest
  | overall_progress, .onProgress value :: rest =>
    value :: exactProgress increment overall_progress rest
  | overall_progress, _ :: rest => exactProgress increment overall_progress rest

/-- The total number of blocks of the modules. -/
def totalBlocks (modules : List ModuleInfo) : Nat :=
  (modules.map fun module => module.blocks.length).sum

/-- The event is a direct call of the progress callback. -/
def Event.isProgress : Event → Bool
  | .onProgress _ => true
  | _ => false

/-- The routine only adds events to the trace, among them no direct call of
the progress callback and at most `n` ticks. -/
def Ticks {σ α : Type} (n : Nat) (m : M σ α) : Prop :=
  ∀ w, ∃ added, (m w).world.trace = w.trace ++ added ∧
    (∀ e ∈ added, e.isProgress = false) ∧ added.count .tick ≤ n

/-- The routine adds at most `n` ticks and no direct call of the progress
callback, except that it ends, when it returns, with the call `on_progress(1)`. -/
def TicksThenDone {σ α : Type} (n : Nat) (m : M σ α) : Prop :=
  ∀ w, ∃ b, (∀ e ∈ b, e.isProgress = false) ∧ b.count .tick ≤ n ∧
    (((m w).exit? ≠ none ∧ (m w).world.trace = w.trace ++ b) ∨
     ((m w).exit? = none ∧ (m w).world.trace = w.trace ++ b ++ [.onProgress 1]))


/-! ## A sample run with ten blocks -/

/-- A module of ten blocks of four bytes, with CRCs `0x11111111 * (i + 1)`. -/
def sampleModule10 : ModuleInfo :=
  { name := "OPFW", version := "0.0.0.1", crc := 0xabcdef01, filename := "fw.bin",
    file_offset := 112, size := 40, aligned_size := 40,
    blocks := (List.range 10).map fun i =>
      { offset := 4 * i, size := 4, crc := 0x11111111 * (i + 1) } }

/-- A block table in which every block of `sampleModule10` is up to date. -/
def tableTenOk : String :=
  "dlinfo ack\nOPFW info\n#0   OK    11111111 11111111\n#1   OK    22222222 22222222\n" ++
  "#2   OK    33333333 33333333\n#3   OK    44444444 44444444\n" ++
  "#4   OK    55555555 55555555\n#5   OK    66666666 66666666\n" ++
  "#6   OK    77777777 77777777\n#7   OK    88888888 88888888\n" ++
  "#8   OK    99999999 99999999\n#9   OK    aaaaaaaa aaaaaaaa\nOPFW end\ndlinfo end\n"

/-- The whole run for `sampleModule10` on a device that has it already: the
device answers the idle wait and the baud rate command, lists `OPFW` as
`active`, and shows a block table in which all ten blocks are up to date. -/
def tenBlockRun : World Script :=
  scripted ["", "dlspd ack\n", "dlver ack\n", "OPFW : [OPFW] [0.0.0.1] (active)\ndlver end\n",
    "dlver ack\n", "OPFW : [OPFW] [0.0.0.1] (active)\ndlver end\n", "", tableTenOk]

/-- The 40 bytes of `sampleModule10`: `0, 1, ..., 39`. -/
def sampleBuffer10 : List UInt8 := (List.range 40).map UInt8.ofNat
/-! ## Basic facts about the C string routines -/

theorem strstr_isSome_iff (hay needle : List Char) :
    (strstr hay needle).isSome = true ↔ needle <:+: hay := by
  induction hay with
  | nil =>
    cases needle with
    | nil => simp [strstr]
    | cons a as => simp [strstr]
  | cons c cs ih =>
    unfold strstr
    by_cases hp : needle.isPrefixOf (c :: cs) = true
    · rw [if_pos hp]
      have h1 : needle <+: c :: cs := List.isPrefixOf_iff_prefix.mp hp
      simpa using h1.isInfix
    · rw [if_neg hp, ih, List.infix_cons_iff]
      have h1 : ¬ needle <+: c :: cs := fun h => hp (List.isPrefixOf_iff_prefix.mpr h)
      tauto

theorem strstr_suffix {hay needle p : List Char} (h : strstr hay needle = some p) :
    p <:+ hay := by
  induction hay with
  | nil =>
    unfold strstr at h
    split at h
    · cases h; exact List.suffix_refl _
    · cases h
  | cons c cs ih =>
    unfold strstr at h
    split at h
    · cases h; exact List.suffix_refl _
    · exact (ih h).trans (List.suffix_cons c cs)

theorem scanStart_suffix (logBuf : List Char) : scanStart logBuf <:+ logBuf := by
  unfold scanStart
  split
  · next p hp => exact strstr_suffix hp
  · exact List.suffix_refl _

theorem strchr_some {s p : List Char} {ch : Char} (h : strchr s ch = some p) :
    ∃ pre rest, s = pre ++ ch :: rest ∧ p = ch :: rest ∧ ch ∉ pre := by
  induction s with
  | nil => simp [strchr] at h
  | cons c cs ih =>
    unfold strchr at h
    by_cases hc : c = ch
    · rw [if_pos hc] at h
      cases h
      exact ⟨[], cs, by simp [hc], by simp [hc], by simp⟩
    · rw [if_neg hc] at h
      obtain ⟨pre, rest, h1, h2, h3⟩ := ih h
      refine ⟨c :: pre, rest, by simp [h1], h2, ?_⟩
      simp only [List.mem_cons, not_or]
      exact ⟨fun e => hc e.symm, h3⟩

theorem strchr_none {s : List Char} {ch : Char} (h : ch ∉ s) : strchr s ch = none := by
  induction s with
  | nil => rfl
  | cons c cs ih =>
    simp only [List.mem_cons, not_or] at h
    unfold strchr
    rw [if_neg (fun e => h.1 e.symm)]
    exact ih h.2

theorem strchr_append {pre rest : List Char} {ch : Char} (h : ch ∉ pre) :
    strchr (pre ++ ch :: rest) ch = some (ch :: rest) := by
  induction pre with
  | nil => simp [strchr]
  | cons c cs ih =>
    simp only [List.mem_cons, not_or] at h
    simp only [List.cons_append]
    unfold strchr
    rw [if_neg (fun e => h.1 e.symm)]
    exact ih h.2

/-! ## Soundness of the reconciler -/

theorem loopBody_next_sound {asserts : Bool} {module : ModuleInfo} {logBuf cur rv cur2 rv2}
    (hcur : cur <:+ logBuf) (hlen : rv.length = module.blocks.length)
    (hrv : ∀ i, rv[i]? = some false → HasOkRecord module logBuf i)
    (h : loopBody asserts module cur rv = .next cur2 rv2) :
    cur2 <:+ logBuf ∧ rv2.length = module.blocks.length ∧
      ∀ i, rv2[i]? = some false → HasOkRecord module logBuf i := by
  unfold loopBody at h
  split at h
  · cases h
  · next p hp =>
    obtain ⟨pre, rest, h1, h2, _⟩ := strchr_some hp
    subst h2
    simp only [List.drop_succ_cons, List.drop_zero] at h
    split at h
    · cases h; exact ⟨hcur, hlen, hrv⟩
    · next bn st hdr fw hs =>
      split at h
      · cases h
      · split at h
        · cases h
        · next hlt =>
          split at h
          · cases h
          · cases h
            have hp_suf : ('#' :: rest) <:+ logBuf :=
              (List.suffix_append pre _).trans (h1 ▸ hcur)
            refine ⟨(List.drop_suffix 9 _).trans hp_suf, by simpa using hlen, ?_⟩
            intro i hi
            by_cases hib : bn = i
            · subst hib
              have hbn : bn < module.blocks.length := Nat.lt_of_not_le hlt
              rw [List.getElem?_set_self (by omega)] at hi
              simp only [Option.some.injEq, Bool.or_eq_false_iff, decide_eq_false_iff_not,
                ne_eq, not_not] at hi
              obtain ⟨⟨hst, hhf⟩, hhc⟩ := hi
              obtain ⟨pre2, hpre2⟩ := hp_suf
              refine ⟨pre2, rest, module.blocks.get ⟨bn, hbn⟩, hpre2.symm, ?_, ?_⟩
              · simp
              · rw [hs, ← hhc, ← hhf, hst]
            · rw [List.getElem?_set_ne hib] at hi
              exact hrv i hi

theorem loopBody_done_sound {asserts : Bool} {module : ModuleInfo} {logBuf cur rv out}
    (hlen : rv.length = module.blocks.length)
    (hrv : ∀ i, rv[i]? = some false → HasOkRecord module logBuf i)
    (h : loopBody asserts module cur rv = .done (.returned out)) :
    out.length = module.blocks.length ∧
      ∀ i, out[i]? = some false → HasOkRecord module logBuf i := by
  unfold loopBody at h
  split at h
  · cases h; exact ⟨hlen, hrv⟩
  · split at h
    · cases h
    · split at h
      · cases h
      · split at h
        · cases h
          refine ⟨by simpa using hlen, ?_⟩
          intro i hi
          have hmem : false ∈ List.map (fun _ => true) rv := by
            rw [List.mem_iff_getElem?]; exact ⟨i, hi⟩
          simp at hmem
        · split at h <;> cases h

theorem scanLoop_sound {asserts : Bool} {module : ModuleInfo} {logBuf : List Char}
    (fuel : Nat) : ∀ (cur : List Char) (rv out : List Bool),
    cur <:+ logBuf → rv.length = module.blocks.length →
    (∀ i, rv[i]? = some false → HasOkRecord module logBuf i) →
    scanLoop asserts module fuel cur rv = some (.returned out) →
    out.length = module.blocks.length ∧
      ∀ i, out[i]? = some false → HasOkRecord module logBuf i := by
  induction fuel with
  | zero => intro cur rv out _ _ _ h; simp [scanLoop] at h
  | succ n ih =>
    intro cur rv out hcur hlen hrv h
    unfold scanLoop at h
    split at h
    · next o ho =>
      cases h
      exact loopBody_done_sound hlen hrv ho
    · next cur2 rv2 hn =>
      obtain ⟨a, b, c⟩ := loopBody_next_sound hcur hlen hrv hn
      exact ih cur2 rv2 out a b c h

/-- With `force_full = false`, whenever `GetBlockUpdateList` returns, the
result has one entry per block, and an entry `false` ("no transfer needed") for
block `i` is backed by a `#` of the report behind which `sscanf` reads
`i OK c c`, with `c` the CRC of block `i` computed from the file and the two
CRC items taken as stored, that is modulo 2^32; a block without such a record
is left `true`. -/
theorem GetBlockUpdateList_sound_as_scanned (asserts : Bool) (fuel : Nat) (module : ModuleInfo)
    (logBuf : List Char) (rv : List Bool)
    (h : GetBlockUpdateList asserts fuel module logBuf false = some (.returned rv)) :
    rv.length = module.blocks.length ∧
      ∀ i, rv[i]? = some false → HasOkRecord module logBuf i := by
  unfold GetBlockUpdateList at h
  simp only [Bool.false_or] at h
  split at h
  · cases h
    refine ⟨by simp, ?_⟩
    intro i hi
    have hmem : false ∈ List.replicate module.blocks.length true := by
      rw [List.mem_iff_getElem?]; exact ⟨i, hi⟩
    simp at hmem
  · refine scanLoop_sound fuel _ _ rv (scanStart_suffix logBuf) (by simp) ?_ h
    intro i hi
    have hmem : false ∈ List.replicate module.blocks.length true := by
      rw [List.mem_iff_getElem?]; exact ⟨i, hi⟩
    simp at hmem

theorem GetBlockUpdateList_sound_as_scanned_sample :
    GetBlockUpdateList true 5 (moduleOfCrcs [0xb9fa1f11, 0xfae50cb5])
        "#0   OK    b9fa1f11 b9fa1f11\n#1   BAD   fae50cb5 fae50cb5\n".toList false
      = some (.returned [false, true]) ∧
    ([false, true].length = (moduleOfCrcs [0xb9fa1f11, 0xfae50cb5]).blocks.length ∧
      ∀ i, [false, true][i]? = some false →
        HasOkRecord (moduleOfCrcs [0xb9fa1f11, 0xfae50cb5])
          "#0   OK    b9fa1f11 b9fa1f11\n#1   BAD   fae50cb5 fae50cb5\n".toList i) :=
  ⟨by decide, GetBlockUpdateList_sound_as_scanned true 5 _ _ _ (by decide)⟩

theorem scanLoop_more_fuel {asserts : Bool} {module : ModuleInfo} {o : Outcome} (k : Nat) :
    ∀ (fuel : Nat) (cur : List Char) (rv : List Bool),
      scanLoop asserts module fuel cur rv = some o →
      scanLoop asserts module (fuel + k) cur rv = some o := by
  intro fuel
  induction fuel with
  | zero => intro cur rv h; simp [scanLoop] at h
  | succ n ih =>
    intro cur rv h
    have hk : n + 1 + k = (n + k) + 1 := by omega
    rw [hk]
    unfold scanLoop at h ⊢
    split at h
    · exact h
    · next cur2 rv2 hn => exact ih cur2 rv2 h

theorem GetBlockUpdateList_more_fuel {asserts : Bool} {module : ModuleInfo}
    {logBuf : List Char} {force_full : Bool} {o : Outcome} {fuel fuel2 : Nat}
    (h : GetBlockUpdateList asserts fuel module logBuf force_full = some o)
    (hle : fuel ≤ fuel2) :
    GetBlockUpdateList asserts fuel2 module logBuf force_full = some o := by
  obtain ⟨k, rfl⟩ : ∃ k, fuel2 = fuel + k := ⟨fuel2 - fuel, by omega⟩
  unfold GetBlockUpdateList at h ⊢
  split
  · next hc => rw [if_pos hc] at h; exact h
  · next hc => rw [if_neg hc] at h; exact scanLoop_more_fuel k _ _ _ h

/-- C1 (the code diverges from the claim): for a module whose block 0 has the
CRC `b9fa1f11` and the report `#0   OK    1b9fa1f11 1b9fa1f11`, the call
returns `false` ("no transfer needed") for block 0, in either build and given
fuel for two iterations, although the one record of the report carries the
CRC `1b9fa1f11` in both columns and no record `#0 OK b9fa1f11 b9fa1f11` is
written anywhere in it: `sscanf` stores the low 32 bits of each CRC item. -/
theorem GetBlockUpdateList_long_crc_counts_as_match :
    (∀ (asserts : Bool) (fuel : Nat), 2 ≤ fuel →
      GetBlockUpdateList asserts fuel (moduleOfCrcs [0xb9fa1f11])
        "#0   OK    1b9fa1f11 1b9fa1f11\n".toList false = some (.returned [false])) ∧
    writtenRecord "0   OK    1b9fa1f11 1b9fa1f11\n".toList
      = some (0, okStr, 0x1b9fa1f11, 0x1b9fa1f11) ∧
    ¬ HasWrittenOkRecord (moduleOfCrcs [0xb9fa1f11])
        "#0   OK    1b9fa1f11 1b9fa1f11\n".toList 0 ∧
    sscanfRecord "0   OK    1b9fa1f11 1b9fa1f11\n".toList
      = .full 0 okStr 0xb9fa1f11 0xb9fa1f11 := by
  refine ⟨?_, by decide, by decide, by decide⟩
  intro asserts fuel hfuel
  refine GetBlockUpdateList_more_fuel ?_ hfuel
  cases asserts <;> decide

/-- C3: when `force_full` is set or the report contains `"empty"`,
`GetBlockUpdateList` returns, for every report text and without entering the
record loop (any fuel, even 0), the all-`true` vector with one entry per block. -/
theorem GetBlockUpdateList_force_full (asserts : Bool) (fuel : Nat) (module : ModuleInfo)
    (logBuf : List Char) (force_full : Bool)
    (h : force_full = true ∨ emptyStr <:+: logBuf) :
    GetBlockUpdateList asserts fuel module logBuf force_full
      = some (.returned (List.replicate module.blocks.length true)) := by
  unfold GetBlockUpdateList
  have hc : (force_full || (strstr logBuf emptyStr).isSome) = true := by
    rcases h with h | h
    · simp [h]
    · simp [(strstr_isSome_iff logBuf emptyStr).mpr h]
  simp only [hc, if_true]

theorem GetBlockUpdateList_force_full_witness :
    (false = true ∨ emptyStr <:+: "FW is empty\n".toList) ∧
    GetBlockUpdateList true 0 (moduleOfCrcs [0xb9fa1f11, 0xfae50cb5]) "FW is empty\n".toList false
      = some (.returned [true, true]) :=
  ⟨Or.inr ⟨"FW is ".toList, "\n".toList, rfl⟩,
   GetBlockUpdateList_force_full true 0 _ _ false (Or.inr ⟨"FW is ".toList, "\n".toList, rfl⟩)⟩

theorem scanLoop_stuck {asserts : Bool} {module : ModuleInfo} {cur : List Char}
    {rv : List Bool} (h : loopBody asserts module cur rv = .next cur rv) (fuel : Nat) :
    scanLoop asserts module fuel cur rv = none := by
  induction fuel with
  | zero => rfl
  | succ n ih => unfold scanLoop; rw [h]; exact ih

theorem GetBlockUpdateList_stuck (asserts : Bool) (module : ModuleInfo) (logBuf p : List Char)
    (hempty : (strstr logBuf emptyStr).isSome = false)
    (hp : strchr (scanStart logBuf) '#' = some p)
    (hscan : sscanfRecord (p.drop 1) = .fewer) (fuel : Nat) :
    GetBlockUpdateList asserts fuel module logBuf false = none := by
  unfold GetBlockUpdateList
  simp only [hempty, Bool.or_self, Bool.false_eq_true, if_false]
  apply scanLoop_stuck
  unfold loopBody
  rw [hp]
  simp only [hscan]

/-- C5 (the code diverges from the claim): on a report whose first `#` is not
followed by a record, the loop never leaves that `#`: whatever the fuel, the
call has not returned, and the well-formed record on the next line is never
applied. -/
theorem GetBlockUpdateList_malformed_never_returns :
    ∀ (asserts : Bool) (fuel : Nat),
      GetBlockUpdateList asserts fuel (moduleOfCrcs [0xb9fa1f11])
        "# header\n#0   OK    b9fa1f11 b9fa1f11\n".toList false = none := by
  intro asserts fuel
  have hb : loopBody asserts (moduleOfCrcs [0xb9fa1f11])
      "# header\n#0   OK    b9fa1f11 b9fa1f11\n".toList [true]
      = .next "# header\n#0   OK    b9fa1f11 b9fa1f11\n".toList [true] := by
    cases asserts <;> decide
  have hg : GetBlockUpdateList asserts fuel (moduleOfCrcs [0xb9fa1f11])
      "# header\n#0   OK    b9fa1f11 b9fa1f11\n".toList false
      = scanLoop asserts (moduleOfCrcs [0xb9fa1f11]) fuel
          "# header\n#0   OK    b9fa1f11 b9fa1f11\n".toList [true] := by
    unfold GetBlockUpdateList
    have h1 : (strstr "# header\n#0   OK    b9fa1f11 b9fa1f11\n".toList emptyStr).isSome = false := by
      decide
    have h2 : scanStart "# header\n#0   OK    b9fa1f11 b9fa1f11\n".toList
        = "# header\n#0   OK    b9fa1f11 b9fa1f11\n".toList := by decide
    simp only [h1, h2, Bool.or_self, Bool.false_eq_true, if_false]
    rfl
  rw [hg]
  exact scanLoop_stuck hb fuel

/-! ## Character classes -/

theorem isxdigit_of_isdigit {c : Char} (h : isdigit c = true) : isxdigit c = true := by
  simp [isxdigit, h]

theorem isxdigit_toNat {c : Char} (h : isxdigit c = true) :
    (48 ≤ c.toNat ∧ c.toNat ≤ 57) ∨ (97 ≤ c.toNat ∧ c.toNat ≤ 102) ∨
      (65 ≤ c.toNat ∧ c.toNat ≤ 70) := by
  simp only [isxdigit, isdigit, Bool.or_eq_true, Bool.and_eq_true, decide_eq_true_eq] at h
  tauto

theorem isxdigit_not_space {c : Char} (h : isxdigit c = true) : isspace c = false := by
  have := isxdigit_toNat h
  simp only [isspace, Bool.or_eq_false_iff, beq_eq_false_iff_ne, ne_eq,
    Bool.and_eq_false_iff, decide_eq_false_iff_not]
  omega

theorem ne_of_isxdigit {c d : Char} (h : isxdigit c = true) (hd : isxdigit d = false) :
    c ≠ d := by
  rintro rfl
  rw [h] at hd
  cases hd

theorem ne_of_not_space {c d : Char} (h : isspace c = false) (hd : isspace d = true) :
    c ≠ d := by
  rintro rfl
  rw [h] at hd
  cases hd

/-! ## `takeWhile` / `dropWhile` up to a stop character -/

theorem takeWhile_append_stop {p : Char → Bool} {xs : List Char} {c : Char} (rest : List Char)
    (hx : ∀ x ∈ xs, p x = true) (hc : p c = false) :
    (xs ++ c :: rest).takeWhile p = xs := by
  induction xs with
  | nil => simp [List.takeWhile, hc]
  | cons a as ih =>
    have ha : p a = true := hx a (List.mem_cons_self _ _)
    simp only [List.cons_append, List.takeWhile_cons, ha, if_true]
    rw [ih (fun x hx2 => hx x (List.mem_cons_of_mem _ hx2))]

theorem dropWhile_append_stop {p : Char → Bool} {xs : List Char} {c : Char} (rest : List Char)
    (hx : ∀ x ∈ xs, p x = true) (hc : p c = false) :
    (xs ++ c :: rest).dropWhile p = c :: rest := by
  induction xs with
  | nil => simp [List.dropWhile, hc]
  | cons a as ih =>
    have ha : p a = true := hx a (List.mem_cons_self _ _)
    simp only [List.cons_append, List.dropWhile_cons, ha, if_true]
    rw [ih (fun x hx2 => hx x (List.mem_cons_of_mem _ hx2))]

theorem skipSpace_spaces (k : Nat) {c : Char} (rest : List Char) (hc : isspace c = false) :
    skipSpace (List.replicate k ' ' ++ c :: rest) = c :: rest := by
  unfold skipSpace
  apply dropWhile_append_stop rest _ hc
  intro x hx
  rw [List.eq_of_mem_replicate hx]
  decide

/-! ## `sscanf` on a record in the documented format -/

theorem stripSign_of_xdigit {c : Char} (rest : List Char) (hc : isxdigit c = true) :
    stripSign (c :: rest) = (false, c :: rest) := by
  unfold stripSign
  have h1 : c ≠ '-' := ne_of_isxdigit hc (by decide)
  have h2 : c ≠ '+' := ne_of_isxdigit hc (by decide)
  simp [h1, h2]

theorem finishNum_small (v : Nat) (rest : List Char) (h : v < 2 ^ 32) :
    finishNum false v rest = .value v rest := by
  have h1 : ¬ 2 ^ 64 ≤ v := by omega
  simp only [finishNum, h1, if_false, Bool.false_eq_true, Nat.mod_eq_of_lt h]

theorem scanDec_token {ds : List Char} (rest : List Char) (hne : ds ≠ [])
    (hd : ∀ c ∈ ds, isdigit c = true) (hv : numVal 10 ds < 2 ^ 32) :
    scanDec (ds ++ ' ' :: rest) = .value (numVal 10 ds) (' ' :: rest) := by
  obtain ⟨d, ds2, rfl⟩ := List.exists_cons_of_ne_nil hne
  have hd0 : isdigit d = true := hd d (List.mem_cons_self _ _)
  have hs : skipSpace ((d :: ds2) ++ ' ' :: rest) = (d :: ds2) ++ ' ' :: rest := by
    have := skipSpace_spaces 0 (ds2 ++ ' ' :: rest) (isxdigit_not_space (isxdigit_of_isdigit hd0))
    simpa using this
  unfold scanDec
  rw [hs]
  have hsg := stripSign_of_xdigit (ds2 ++ ' ' :: rest) (isxdigit_of_isdigit hd0)
  simp only [List.cons_append] at hsg ⊢
  rw [hsg]
  have ht := @takeWhile_append_stop isdigit (d :: ds2) ' ' rest hd (by decide)
  have hdr := @dropWhile_append_stop isdigit (d :: ds2) ' ' rest hd (by decide)
  simp only [List.cons_append] at ht hdr
  simp only [ht, hdr, List.isEmpty_cons, Bool.false_eq_true, if_false]
  exact finishNum_small _ _ hv

theorem stripHexPrefix_token {ds : List Char} {c : Char} (rest : List Char) (hne : ds ≠ [])
    (hd : ∀ x ∈ ds, isxdigit x = true) (hx : c ≠ 'x') (hX : c ≠ 'X') :
    stripHexPrefix (ds ++ c :: rest) = ds ++ c :: rest := by
  obtain ⟨d, ds2, rfl⟩ := List.exists_cons_of_ne_nil hne
  cases ds2 with
  | nil => simp [stripHexPrefix, hx, hX]
  | cons e es =>
    have he : isxdigit e = true := hd e (by simp)
    have h1 : e ≠ 'x' := ne_of_isxdigit he (by decide)
    have h2 : e ≠ 'X' := ne_of_isxdigit he (by decide)
    simp [stripHexPrefix, h1, h2]

theorem scanHex_token {ds : List Char} {c : Char} (k : Nat) (rest : List Char) (hne : ds ≠ [])
    (hd : ∀ x ∈ ds, isxdigit x = true) (hv : numVal 16 ds < 2 ^ 32)
    (hc : isxdigit c = false) (hx : c ≠ 'x') (hX : c ≠ 'X') :
    scanHex (List.replicate k ' ' ++ (ds ++ c :: rest)) = .value (numVal 16 ds) (c :: rest) := by
  obtain ⟨d, ds2, rfl⟩ := List.exists_cons_of_ne_nil hne
  have hd0 : isxdigit d = true := hd d (List.mem_cons_self _ _)
  have hs : skipSpace (List.replicate k ' ' ++ ((d :: ds2) ++ c :: rest))
      = (d :: ds2) ++ c :: rest := by
    have := skipSpace_spaces k (ds2 ++ c :: rest) (isxdigit_not_space hd0)
    simpa using this
  unfold scanHex
  rw [hs]
  have hsg := stripSign_of_xdigit (ds2 ++ c :: rest) hd0
  simp only [List.cons_append] at hsg ⊢
  rw [hsg]
  have hp := @stripHexPrefix_token (d :: ds2) c rest (by simp) hd hx hX
  have ht := @takeWhile_append_stop isxdigit (d :: ds2) c rest hd hc
  have hdr := @dropWhile_append_stop isxdigit (d :: ds2) c rest hd hc
  simp only [List.cons_append] at ht hdr hp
  simp only [hp, ht, hdr, List.isEmpty_cons, Bool.false_and, Bool.false_eq_true, if_false]
  exact finishNum_small _ _ hv


theorem BlockRecord.wellFormed_iff (r : BlockRecord) :
    r.wellFormed = true ↔
      (r.index ≠ [] ∧ (∀ c ∈ r.index, isdigit c = true) ∧ r.blockNumber < 2 ^ 32) ∧
      (r.status ≠ [] ∧ r.status.length ≤ 15 ∧
        ∀ c ∈ r.status, isspace c = false ∧ c ≠ '#') ∧
      (r.hdrCrc ≠ [] ∧ (∀ c ∈ r.hdrCrc, isxdigit c = true) ∧ r.hdrVal < 2 ^ 32) ∧
      (r.realCrc ≠ [] ∧ (∀ c ∈ r.realCrc, isxdigit c = true) ∧ r.realVal < 2 ^ 32) := by
  simp only [BlockRecord.wellFormed, Bool.and_eq_true, Bool.not_eq_true', List.isEmpty_eq_false,
    List.all_eq_true, decide_eq_true_eq, bne_iff_ne, ne_eq, List.isEmpty_iff]
  tauto

theorem BlockRecord.body_append (r : BlockRecord) (more : List Char) :
    r.body ++ more = r.index ++ ' ' :: (List.replicate r.pad1 ' ' ++ (r.status ++
      ' ' :: (List.replicate r.pad2 ' ' ++ (r.hdrCrc ++
        ' ' :: (List.replicate r.pad3 ' ' ++ (r.realCrc ++ '\n' :: more)))))) := by
  simp [BlockRecord.body, List.replicate_succ]

theorem sscanfRecord_body (r : BlockRecord) (hwf : r.wellFormed = true) (more : List Char) :
    sscanfRecord (r.body ++ more) = .full r.blockNumber r.status r.hdrVal r.realVal := by
  obtain ⟨⟨hi1, hi2, hi3⟩, ⟨hs1, hs2, hs3⟩, ⟨hh1, hh2, hh3⟩, ⟨hr1, hr2, hr3⟩⟩ :=
    (BlockRecord.wellFormed_iff r).mp hwf
  rw [BlockRecord.body_append]
  unfold sscanfRecord
  rw [scanDec_token _ hi1 hi2 hi3]
  obtain ⟨s0, st, hst⟩ := List.exists_cons_of_ne_nil hs1
  have hs0 : isspace s0 = false := (hs3 s0 (by simp [hst])).1
  have hskip : ∀ X, skipSpace (' ' :: (List.replicate r.pad1 ' ' ++ (r.status ++ X)))
      = r.status ++ X := by
    intro X
    have := skipSpace_spaces (r.pad1 + 1) (st ++ X) hs0
    simpa [hst, List.replicate_succ] using this
  have htake : ∀ X, (r.status ++ ' ' :: X).takeWhile (fun c => !isspace c) = r.status := by
    intro X
    apply takeWhile_append_stop X
    · intro x hx; simp [(hs3 x hx).1]
    · decide
  simp only [hskip, htake]
  have h15 : r.status.take 15 = r.status := List.take_of_length_le hs2
  rw [h15]
  have hne : r.status.isEmpty = false := by simp [hst]
  simp only [hne, Bool.false_eq_true, if_false, List.drop_left]
  have e1 : ∀ X, ' ' :: (List.replicate r.pad2 ' ' ++ X) = List.replicate (r.pad2 + 1) ' ' ++ X := by
    intro X; simp [List.replicate_succ]
  have e2 : ∀ X, ' ' :: (List.replicate r.pad3 ' ' ++ X) = List.replicate (r.pad3 + 1) ' ' ++ X := by
    intro X; simp [List.replicate_succ]
  rw [e1, scanHex_token (r.pad2 + 1) _ hh1 hh2 hh3 (by decide) (by decide) (by decide)]
  simp only
  rw [e2, scanHex_token (r.pad3 + 1) _ hr1 hr2 hr3 (by decide) (by decide) (by decide)]
  rfl

/-! ## The loop on records in the documented format -/

theorem BlockRecord.hash_not_mem_body (r : BlockRecord) (hwf : r.wellFormed = true) :
    '#' ∉ r.body := by
  obtain ⟨⟨_, hi2, _⟩, ⟨_, _, hs3⟩, ⟨_, hh2, _⟩, ⟨_, hr2, _⟩⟩ :=
    (BlockRecord.wellFormed_iff r).mp hwf
  have hx : ∀ l : List Char, (∀ c ∈ l, isxdigit c = true) → '#' ∉ l := by
    intro l hl hm
    exact absurd (hl _ hm) (by decide)
  have hsp : ∀ k, '#' ∉ List.replicate k ' ' := by
    intro k hm
    exact absurd (List.eq_of_mem_replicate hm) (by decide)
  have hst : '#' ∉ r.status := fun hm => (hs3 _ hm).2 rfl
  have hidx : '#' ∉ r.index := hx _ (fun c hc => isxdigit_of_isdigit (hi2 c hc))
  simp only [BlockRecord.body, List.mem_append, List.mem_singleton, not_or]
  exact ⟨hidx, hsp _, hst, hsp _, hx _ hh2, hsp _, hx _ hr2, by decide⟩

theorem BlockRecord.body_length (r : BlockRecord) (hwf : r.wellFormed = true) :
    8 ≤ r.body.length := by
  obtain ⟨⟨hi1, _, _⟩, ⟨hs1, _, _⟩, ⟨hh1, _, _⟩, ⟨hr1, _, _⟩⟩ :=
    (BlockRecord.wellFormed_iff r).mp hwf
  have h1 := List.length_pos.mpr hi1
  have h2 := List.length_pos.mpr hs1
  have h3 := List.length_pos.mpr hh1
  have h4 := List.length_pos.mpr hr1
  simp only [BlockRecord.body, List.length_append, List.length_replicate, List.length_singleton]
  omega

theorem loopBody_record (asserts : Bool) (module : ModuleInfo) (junk : List Char)
    (r : BlockRecord) (more : List Char) (rv : List Bool) (hj : '#' ∉ junk)
    (hwf : r.wellFormed = true) (hin : r.blockNumber < module.blocks.length)
    (ha : r.passesAsserts asserts) :
    loopBody asserts module (junk ++ (r.line ++ more)) rv
      = .next (r.body.drop 8 ++ more) (applyRecord module rv r) := by
  have hlen := BlockRecord.body_length r hwf
  have hs1 : r.status ≠ [] := ((BlockRecord.wellFormed_iff r).mp hwf).2.1.1
  unfold loopBody
  have hp : strchr (junk ++ (r.line ++ more)) '#' = some ('#' :: (r.body ++ more)) := by
    simpa [BlockRecord.line] using @strchr_append junk (r.body ++ more) '#' hj
  rw [hp]
  simp only [List.drop_succ_cons, List.drop_zero]
  rw [sscanfRecord_body r hwf more]
  have hassert : (asserts && (r.status.length == 0 || r.hdrVal == 0 || r.realVal == 0)) = false := by
    cases asserts with
    | false => rfl
    | true =>
      obtain ⟨h1, h2⟩ := ha rfl
      have h3 : r.status.length ≠ 0 := fun h => hs1 (List.length_eq_zero.mp h)
      simp [h1, h2, h3]
  simp only [hassert, Bool.false_eq_true, if_false]
  rw [dif_neg (by omega)]
  have hlen9 : ¬ ('#' :: (r.body ++ more)).length < 9 := by
    simp only [List.length_cons, List.length_append]; omega
  simp only [hlen9, if_false]
  have hdrop : (r.body ++ more).drop 8 = r.body.drop 8 ++ more :=
    List.drop_append_of_le_length hlen
  rw [hdrop]
  have hup : (decide (r.status ≠ okStr) || decide (r.hdrVal ≠ r.realVal) ||
      decide (r.hdrVal ≠ (module.blocks.get ⟨r.blockNumber, hin⟩).crc))
      = decide (¬ r.upToDate module) := by
    have hget : module.blocks[r.blockNumber]? = some (module.blocks.get ⟨r.blockNumber, hin⟩) := by
      simp
    rw [Bool.eq_iff_iff]
    simp only [BlockRecord.upToDate, hget, Option.map_some', Option.some.injEq,
      Bool.or_eq_true, decide_eq_true_eq, ne_eq]
    constructor
    · rintro ((h | h) | h) ⟨h1, h2, h3⟩
      · exact h h1
      · exact h h2
      · exact h h3.symm
    · intro h
      by_contra hc
      simp only [not_or, not_not] at hc
      exact h ⟨hc.1.1, hc.1.2, hc.2.symm⟩
  simp only [applyRecord, hup]

theorem scanLoop_succ (asserts : Bool) (module : ModuleInfo) (fuel : Nat) (cur : List Char)
    (rv : List Bool) :
    scanLoop asserts module (fuel + 1) cur rv =
      match loopBody asserts module cur rv with
      | .done o => some o
      | .next cur2 rv2 => scanLoop asserts module fuel cur2 rv2 := rfl

theorem scanLoop_records (asserts : Bool) (module : ModuleInfo) (more : List Char) :
    ∀ (rs : List BlockRecord),
      (∀ r ∈ rs, r.wellFormed = true ∧ r.blockNumber < module.blocks.length ∧
        r.passesAsserts asserts) →
      ∀ (junk : List Char) (rv : List Bool), '#' ∉ junk →
        ∃ junk2, '#' ∉ junk2 ∧ ∀ fuel,
          scanLoop asserts module (rs.length + fuel) (junk ++ (report rs ++ more)) rv
            = scanLoop asserts module fuel (junk2 ++ more) (rs.foldl (applyRecord module) rv) := by
  intro rs
  induction rs with
  | nil =>
    intro _ junk rv hj
    exact ⟨junk, hj, fun fuel => by simp [report]⟩
  | cons r rest ih =>
    intro h junk rv hj
    obtain ⟨hwf, hin, ha⟩ := h r (List.mem_cons_self _ _)
    have hj2 : '#' ∉ r.body.drop 8 :=
      fun hm => BlockRecord.hash_not_mem_body r hwf (List.mem_of_mem_drop hm)
    obtain ⟨junk2, hj3, hrun⟩ :=
      ih (fun x hx => h x (List.mem_cons_of_mem _ hx)) (r.body.drop 8) (applyRecord module rv r) hj2
    refine ⟨junk2, hj3, fun fuel => ?_⟩
    have hf : (r :: rest).length + fuel = (rest.length + fuel) + 1 := by
      simp only [List.length_cons]; omega
    rw [hf, scanLoop_succ]
    have hrep : report (r :: rest) ++ more = r.line ++ (report rest ++ more) := by
      simp [report]
    rw [hrep, loopBody_record asserts module junk r _ rv hj hwf hin ha]
    simpa using hrun fuel

/-! ## A report of documented records has no `"SCRAP info"` marker -/

theorem strstr_cons_of_not_isPrefixOf {c : Char} {cs needle : List Char}
    (h : ¬ needle.isPrefixOf (c :: cs) = true) :
    strstr (c :: cs) needle = strstr cs needle := by
  rw [strstr, if_neg h]

theorem strstr_scrap_skip {A : List Char} (B : List Char) (hA : ∀ c ∈ A, c ≠ 'S') :
    strstr (A ++ B) scrapInfoStr = strstr B scrapInfoStr := by
  induction A with
  | nil => rfl
  | cons a as ih =>
    have hp : ¬ scrapInfoStr.isPrefixOf (a :: (as ++ B)) = true := by
      intro hpre
      have h1 : 'S' :: [ 'C', 'R', 'A', 'P', ' ', 'i', 'n', 'f', 'o'] <+: a :: (as ++ B) :=
        List.isPrefixOf_iff_prefix.mp hpre
      exact hA a (List.mem_cons_self _ _) (List.cons_prefix_cons.mp h1).1.symm
    rw [List.cons_append, strstr_cons_of_not_isPrefixOf hp]
    exact ih (fun c hc => hA c (List.mem_cons_of_mem _ hc))

theorem eq_of_space_delimited {u : List Char} : ∀ {X : List Char} {v T : List Char},
    ' ' ∉ u → ' ' ∉ X → u ++ ' ' :: v <+: X ++ ' ' :: T → u = X ∧ v <+: T := by
  induction u with
  | nil =>
    intro X v T _ hX h
    cases X with
    | nil =>
      simp only [List.nil_append] at h
      exact ⟨rfl, (List.cons_prefix_cons.mp h).2⟩
    | cons x xs =>
      simp only [List.nil_append, List.cons_append] at h
      exact absurd (List.cons_prefix_cons.mp h).1 (fun e => hX (List.mem_cons.mpr (Or.inl e)))
  | cons a as ih =>
    intro X v T hu hX h
    cases X with
    | nil =>
      simp only [List.nil_append, List.cons_append] at h
      exact absurd (List.cons_prefix_cons.mp h).1
        (fun e => hu (List.mem_cons.mpr (Or.inl e.symm)))
    | cons x xs =>
      simp only [List.cons_append] at h
      obtain ⟨e, h2⟩ := List.cons_prefix_cons.mp h
      obtain ⟨e2, h3⟩ := ih (fun hm => hu (List.mem_cons_of_mem _ hm))
        (fun hm => hX (List.mem_cons_of_mem _ hm)) h2
      exact ⟨by rw [e, e2], h3⟩

theorem strstr_scrap_status {X : List Char} (t0 : Char) (T : List Char)
    (hX : ∀ c ∈ X, isspace c = false) (ht : t0 ≠ 'i') :
    strstr (X ++ ' ' :: t0 :: T) scrapInfoStr = strstr (' ' :: t0 :: T) scrapInfoStr := by
  induction X with
  | nil => rfl
  | cons x xs ih =>
    have hno : ∀ Y : List Char, (∀ c ∈ Y, isspace c = false) → ' ' ∉ Y := by
      intro Y hY hm
      exact absurd (hY _ hm) (by decide)
    have hp : ¬ scrapInfoStr.isPrefixOf ((x :: xs) ++ ' ' :: t0 :: T) = true := by
      intro hpre
      have h1 : [ 'S', 'C', 'R', 'A', 'P'] ++ ' ' :: [ 'i', 'n', 'f', 'o']
          <+: (x :: xs) ++ ' ' :: t0 :: T := List.isPrefixOf_iff_prefix.mp hpre
      obtain ⟨_, h2⟩ := eq_of_space_delimited (by decide) (hno _ hX) h1
      exact ht (List.cons_prefix_cons.mp h2).1.symm
    have hstep : strstr ((x :: xs) ++ ' ' :: t0 :: T) scrapInfoStr
        = strstr (xs ++ ' ' :: t0 :: T) scrapInfoStr := by
      simp only [List.cons_append] at hp ⊢
      exact strstr_cons_of_not_isPrefixOf hp
    rw [hstep]
    exact ih (fun c hc => hX c (List.mem_cons_of_mem _ hc))

theorem strstr_scrap_line (r : BlockRecord) (hwf : r.wellFormed = true) (more : List Char) :
    strstr (r.line ++ more) scrapInfoStr = strstr more scrapInfoStr := by
  obtain ⟨⟨_, hi2, _⟩, ⟨_, _, hs3⟩, ⟨hh1, hh2, _⟩, ⟨_, hr2, _⟩⟩ :=
    (BlockRecord.wellFormed_iff r).mp hwf
  have hx : ∀ l : List Char, (∀ c ∈ l, isxdigit c = true) → ∀ c ∈ l, c ≠ 'S' := by
    intro l hl c hc
    exact ne_of_isxdigit (hl c hc) (by decide)
  have hsp : ∀ k, ∀ c ∈ List.replicate k ' ', c ≠ 'S' := by
    intro k c hc
    rw [List.eq_of_mem_replicate hc]
    decide
  -- the tail of the line behind the status starts with a space or a hex digit
  obtain ⟨t0, T, hT, ht0, htS⟩ : ∃ t0 T, List.replicate r.pad2 ' ' ++ (r.hdrCrc ++
      (List.replicate (r.pad3 + 1) ' ' ++ (r.realCrc ++ [ '\n']))) = t0 :: T ∧ t0 ≠ 'i' ∧
      ∀ c ∈ t0 :: T, c ≠ 'S' := by
    have hall : ∀ c ∈ List.replicate r.pad2 ' ' ++ (r.hdrCrc ++
        (List.replicate (r.pad3 + 1) ' ' ++ (r.realCrc ++ [ '\n']))), c ≠ 'S' ∧ c ≠ 'i' := by
      intro c hc
      simp only [List.mem_append, List.mem_singleton] at hc
      rcases hc with hc | hc | hc | hc | hc
      · rw [List.eq_of_mem_replicate hc]; decide
      · exact ⟨ne_of_isxdigit (hh2 c hc) (by decide), ne_of_isxdigit (hh2 c hc) (by decide)⟩
      · rw [List.eq_of_mem_replicate hc]; decide
      · exact ⟨ne_of_isxdigit (hr2 c hc) (by decide), ne_of_isxdigit (hr2 c hc) (by decide)⟩
      · rw [hc]; decide
    have hne : List.replicate r.pad2 ' ' ++ (r.hdrCrc ++
        (List.replicate (r.pad3 + 1) ' ' ++ (r.realCrc ++ [ '\n']))) ≠ [] := by
      simp [hh1]
    generalize List.replicate r.pad2 ' ' ++ (r.hdrCrc ++
        (List.replicate (r.pad3 + 1) ' ' ++ (r.realCrc ++ [ '\n']))) = L at hall hne
    cases L with
    | nil => exact absurd rfl hne
    | cons t0 T =>
      exact ⟨t0, T, rfl, (hall t0 (List.mem_cons_self _ _)).2, fun c hc => (hall c hc).1⟩
  have hline : r.line ++ more = ('#' :: (r.index ++ List.replicate (r.pad1 + 1) ' ')) ++
      (r.status ++ ' ' :: t0 :: (T ++ more)) := by
    have : ' ' :: t0 :: (T ++ more) = List.replicate (r.pad2 + 1) ' ' ++ (r.hdrCrc ++
        (List.replicate (r.pad3 + 1) ' ' ++ (r.realCrc ++ [ '\n']))) ++ more := by
      rw [List.replicate_succ, List.cons_append, List.cons_append, hT]
      simp
    rw [this]
    simp [BlockRecord.line, BlockRecord.body]
  rw [hline, strstr_scrap_skip, strstr_scrap_status _ _ (fun c hc => (hs3 c hc).1) ht0]
  · have h2 : ' ' :: t0 :: (T ++ more) = (' ' :: t0 :: T) ++ more := by simp
    rw [h2]
    apply strstr_scrap_skip
    intro c hc
    rcases List.mem_cons.mp hc with hc | hc
    · rw [hc]; decide
    · exact htS c hc
  · intro c hc
    rcases List.mem_cons.mp hc with hc | hc
    · rw [hc]; decide
    · rcases List.mem_append.mp hc with hc | hc
      · exact hx _ (fun c hc => isxdigit_of_isdigit (hi2 c hc)) c hc
      · exact hsp _ c hc

theorem scanStart_report (rs : List BlockRecord) (hwf : ∀ r ∈ rs, r.wellFormed = true) :
    scanStart (report rs) = report rs := by
  have h : strstr (report rs) scrapInfoStr = none := by
    induction rs with
    | nil => rfl
    | cons r rest ih =>
      simp only [report]
      rw [strstr_scrap_line r (hwf r (List.mem_cons_self _ _))]
      exact ih (fun x hx => hwf x (List.mem_cons_of_mem _ hx))
  simp [scanStart, h]

/-! ## The vector left by a sequence of in-range records -/

theorem foldl_applyRecord_length (module : ModuleInfo) (rs : List BlockRecord) :
    ∀ rv : List Bool, (rs.foldl (applyRecord module) rv).length = rv.length := by
  induction rs with
  | nil => intro rv; rfl
  | cons r rest ih =>
    intro rv
    rw [List.foldl_cons, ih]
    simp [applyRecord]

theorem foldl_applyRecord_getElem_of_not_mem (module : ModuleInfo) (rs : List BlockRecord)
    (i : Nat) (hi : i ∉ rs.map BlockRecord.blockNumber) :
    ∀ rv : List Bool, (rs.foldl (applyRecord module) rv)[i]? = rv[i]? := by
  induction rs with
  | nil => intro rv; rfl
  | cons r rest ih =>
    intro rv
    simp only [List.map_cons, List.mem_cons, not_or] at hi
    rw [List.foldl_cons, ih hi.2]
    simp only [applyRecord]
    rw [List.getElem?_set_ne (fun e => hi.1 e.symm)]

theorem foldl_applyRecord_getElem (module : ModuleInfo) (rs : List BlockRecord)
    (hnodup : (rs.map BlockRecord.blockNumber).Nodup) (r : BlockRecord) (hr : r ∈ rs) :
    ∀ rv : List Bool, r.blockNumber < rv.length →
      (rs.foldl (applyRecord module) rv)[r.blockNumber]? = some (decide (¬ r.upToDate module)) := by
  induction rs with
  | nil => cases hr
  | cons r0 rest ih =>
    intro rv hlt
    rw [List.map_cons, List.nodup_cons] at hnodup
    rw [List.foldl_cons]
    by_cases h0 : r0.blockNumber = r.blockNumber
    · rw [foldl_applyRecord_getElem_of_not_mem module rest _ (h0 ▸ hnodup.1)]
      simp only [applyRecord]
      by_cases hr0 : r = r0
      · subst hr0
        rw [List.getElem?_set_self hlt]
      · have hmem : r ∈ rest := by
          rcases List.mem_cons.mp hr with h | h
          · exact absurd h hr0
          · exact h
        exact absurd (List.mem_map_of_mem _ hmem) (h0 ▸ hnodup.1)
    · have hmem : r ∈ rest := by
        rcases List.mem_cons.mp hr with h | h
        · exact absurd (by rw [h]) h0
        · exact h
      exact ih hnodup.2 hmem _ (by simpa [applyRecord] using hlt)

theorem mem_of_nodup_of_lt {l : List Nat} {n : Nat} (hnodup : l.Nodup)
    (hlt : ∀ x ∈ l, x < n) (hlen : l.length = n) : ∀ i, i < n → i ∈ l := by
  intro i hi
  have hsub : l.toFinset ⊆ Finset.range n := by
    intro x hx
    exact Finset.mem_range.mpr (hlt x (List.mem_toFinset.mp hx))
  have hcard : (Finset.range n).card ≤ l.toFinset.card := by
    rw [List.toFinset_card_of_nodup hnodup, Finset.card_range, hlen]
  have heq := Finset.eq_of_subset_of_card_le hsub hcard
  exact List.mem_toFinset.mp (heq ▸ Finset.mem_range.mpr hi)

theorem scanLoop_no_hash {asserts : Bool} {module : ModuleInfo} {cur : List Char}
    (rv : List Bool) (fuel : Nat) (h : '#' ∉ cur) :
    scanLoop asserts module (fuel + 1) cur rv = some (.returned rv) := by
  rw [scanLoop_succ]
  unfold loopBody
  rw [strchr_none h]

/-- C2 (as amended): for a report made of one well-formed record per block
index, each on its own line in the documented format, and without `"empty"` in
it, where no record has a zero `hdrCRC` or `realCRC` if the asserts are
compiled in, `GetBlockUpdateList` (with `force_full = false`) returns, given
fuel for one iteration per record plus one, a vector with one entry per block
in which the entry of block `i` is `true` iff the record of block `i` does NOT
show (status `OK` and `hdrCRC = realCRC =` the CRC of block `i`). Each entry
depends on the record of its own block only. -/
theorem GetBlockUpdateList_documented_report (asserts : Bool) (module : ModuleInfo)
    (rs : List BlockRecord)
    (hwf : ∀ r ∈ rs, r.wellFormed = true)
    (hidx : ∀ r ∈ rs, r.blockNumber < module.blocks.length)
    (hnodup : (rs.map BlockRecord.blockNumber).Nodup)
    (hlen : rs.length = module.blocks.length)
    (hasserts : ∀ r ∈ rs, r.passesAsserts asserts)
    (hempty : ¬ emptyStr <:+: report rs) :
    ∃ rv : List Bool,
      (∀ fuel, rs.length < fuel →
        GetBlockUpdateList asserts fuel module (report rs) false = some (.returned rv)) ∧
      rv.length = module.blocks.length ∧
      ∀ i, i < module.blocks.length →
        ∃ r ∈ rs, r.blockNumber = i ∧ rv[i]? = some (decide (¬ r.upToDate module)) := by
  refine ⟨rs.foldl (applyRecord module) (List.replicate module.blocks.length true), ?_, ?_, ?_⟩
  · intro fuel hfuel
    have he : (strstr (report rs) emptyStr).isSome = false := by
      rw [Bool.eq_false_iff]
      exact fun h => hempty ((strstr_isSome_iff _ _).mp h)
    unfold GetBlockUpdateList
    simp only [he, Bool.or_self, Bool.false_eq_true, if_false]
    rw [scanStart_report rs hwf]
    obtain ⟨junk2, hj2, hrun⟩ := scanLoop_records asserts module [] rs
      (fun r hr => ⟨hwf r hr, hidx r hr, hasserts r hr⟩) []
      (List.replicate module.blocks.length true) (by simp)
    obtain ⟨k, rfl⟩ : ∃ k, fuel = rs.length + (k + 1) := ⟨fuel - rs.length - 1, by omega⟩
    have := hrun (k + 1)
    simp only [List.append_nil, List.nil_append] at this
    rw [this]
    exact scanLoop_no_hash _ k hj2
  · rw [foldl_applyRecord_length]; simp
  · intro i hi
    have hmem : i ∈ rs.map BlockRecord.blockNumber :=
      mem_of_nodup_of_lt hnodup (by
        intro x hx
        obtain ⟨r, hr, rfl⟩ := List.mem_map.mp hx
        exact hidx r hr) (by simpa using hlen) i hi
    obtain ⟨r, hr, rfl⟩ := List.mem_map.mp hmem
    exact ⟨r, hr, rfl, foldl_applyRecord_getElem module rs hnodup r hr _ (by simpa using hi)⟩

theorem GetBlockUpdateList_documented_report_witness :
    report [sampleRecord "1" "BAD" "fae50cb5", sampleRecord "0" "OK" "b9fa1f11"]
      = "#1   BAD   fae50cb5 fae50cb5\n#0   OK    b9fa1f11 b9fa1f11\n".toList ∧
    ∃ rv : List Bool,
      (∀ fuel, 2 < fuel →
        GetBlockUpdateList true fuel sampleModule
          (report [sampleRecord "1" "BAD" "fae50cb5", sampleRecord "0" "OK" "b9fa1f11"]) false
          = some (.returned rv)) ∧
      rv.length = sampleModule.blocks.length ∧
      ∀ i, i < sampleModule.blocks.length →
        ∃ r ∈ [sampleRecord "1" "BAD" "fae50cb5", sampleRecord "0" "OK" "b9fa1f11"],
          r.blockNumber = i ∧ rv[i]? = some (decide (¬ r.upToDate sampleModule)) :=
  ⟨by decide,
   GetBlockUpdateList_documented_report true sampleModule
    [sampleRecord "1" "BAD" "fae50cb5", sampleRecord "0" "OK" "b9fa1f11"]
    (by decide) (by decide) (by decide) (by decide) (by decide)
    (fun h => absurd ((strstr_isSome_iff _ _).mpr h) (by decide))⟩

/-- C2 fails as stated: the report `#0   OK    00000000 00000000` is one
well-formed record in the documented format for the one block of the module,
and the claim lets the call return `true` for block 0 (the CRC differs from
the expected `b9fa1f11`); with the asserts compiled in, `assert(hdrCrc != 0)`
aborts the call, which returns no vector for any fuel. -/
theorem GetBlockUpdateList_documented_report_counterexample :
    (∀ r ∈ [sampleRecord "0" "OK" "00000000"], r.wellFormed = true) ∧
    [sampleRecord "0" "OK" "00000000"].map BlockRecord.blockNumber
      = List.range (moduleOfCrcs [0xb9fa1f11]).blocks.length ∧
    report [sampleRecord "0" "OK" "00000000"] = "#0   OK    00000000 00000000\n".toList ∧
    ¬ emptyStr <:+: report [sampleRecord "0" "OK" "00000000"] ∧
    (∀ fuel, 1 ≤ fuel →
      GetBlockUpdateList true fuel (moduleOfCrcs [0xb9fa1f11])
        (report [sampleRecord "0" "OK" "00000000"]) false = some .assertFailed) ∧
    ∀ fuel rv, GetBlockUpdateList true fuel (moduleOfCrcs [0xb9fa1f11])
      (report [sampleRecord "0" "OK" "00000000"]) false ≠ some (.returned rv) := by
  have h1 : GetBlockUpdateList true 1 (moduleOfCrcs [0xb9fa1f11])
      (report [sampleRecord "0" "OK" "00000000"]) false = some .assertFailed := by decide
  refine ⟨by decide, by decide, by decide,
    fun h => absurd ((strstr_isSome_iff _ _).mpr h) (by decide),
    fun fuel hfuel => GetBlockUpdateList_more_fuel h1 hfuel, ?_⟩
  intro fuel rv h
  cases fuel with
  | zero =>
    have h0 : GetBlockUpdateList true 0 (moduleOfCrcs [0xb9fa1f11])
        (report [sampleRecord "0" "OK" "00000000"]) false = none := by decide
    rw [h0] at h
    cases h
  | succ n =>
    rw [GetBlockUpdateList_more_fuel h1 (Nat.succ_le_succ (Nat.zero_le n))] at h
    cases h

/-! ## A record whose index is out of range -/

theorem loopBody_record_out_of_range (asserts : Bool) (module : ModuleInfo) (junk : List Char)
    (r : BlockRecord) (more : List Char) (rv : List Bool) (hj : '#' ∉ junk)
    (hwf : r.wellFormed = true) (hout : module.blocks.length ≤ r.blockNumber)
    (ha : r.passesAsserts asserts) :
    loopBody asserts module (junk ++ (r.line ++ more)) rv
      = .done (.returned (List.replicate rv.length true)) := by
  have hs1 : r.status ≠ [] := ((BlockRecord.wellFormed_iff r).mp hwf).2.1.1
  unfold loopBody
  have hp : strchr (junk ++ (r.line ++ more)) '#' = some ('#' :: (r.body ++ more)) := by
    simpa [BlockRecord.line] using @strchr_append junk (r.body ++ more) '#' hj
  rw [hp]
  simp only [List.drop_succ_cons, List.drop_zero]
  rw [sscanfRecord_body r hwf more]
  have hassert : (asserts && (r.status.length == 0 || r.hdrVal == 0 || r.realVal == 0)) = false := by
    cases asserts with
    | false => rfl
    | true =>
      obtain ⟨h1, h2⟩ := ha rfl
      have h3 : r.status.length ≠ 0 := fun h => hs1 (List.length_eq_zero.mp h)
      simp [h1, h2, h3]
  simp only [hassert, Bool.false_eq_true, if_false]
  rw [dif_pos hout]
  simp

/-- When the region of the report that the loop scans consists of text
without `#`, then well-formed in-range records of the documented format, then
such a record whose index is at least the module's number of blocks (followed
by anything), all passing the asserts, `GetBlockUpdateList` (with
`force_full = false`, no `"empty"` in the report) returns the all-`true`
vector. -/
theorem GetBlockUpdateList_documented_out_of_range (asserts : Bool) (module : ModuleInfo)
    (logBuf junk : List Char) (rs : List BlockRecord) (bad : BlockRecord) (post : List Char)
    (hempty : ¬ emptyStr <:+: logBuf)
    (hscan : scanStart logBuf = junk ++ (report rs ++ (bad.line ++ post)))
    (hj : '#' ∉ junk)
    (hrs : ∀ r ∈ rs, r.wellFormed = true ∧ r.blockNumber < module.blocks.length ∧
      r.passesAsserts asserts)
    (hbad : bad.wellFormed = true) (hout : module.blocks.length ≤ bad.blockNumber)
    (hbada : bad.passesAsserts asserts) :
    ∀ fuel, rs.length < fuel →
      GetBlockUpdateList asserts fuel module logBuf false
        = some (.returned (List.replicate module.blocks.length true)) := by
  intro fuel hfuel
  have he : (strstr logBuf emptyStr).isSome = false := by
    rw [Bool.eq_false_iff]
    exact fun h => hempty ((strstr_isSome_iff _ _).mp h)
  unfold GetBlockUpdateList
  simp only [he, Bool.or_self, Bool.false_eq_true, if_false]
  rw [hscan]
  obtain ⟨junk2, hj2, hrun⟩ := scanLoop_records asserts module (bad.line ++ post) rs hrs junk
    (List.replicate module.blocks.length true) hj
  obtain ⟨k, rfl⟩ : ∃ k, fuel = rs.length + (k + 1) := ⟨fuel - rs.length - 1, by omega⟩
  rw [hrun (k + 1), scanLoop_succ,
    loopBody_record_out_of_range asserts module junk2 bad post _ hj2 hbad hout hbada]
  simp [foldl_applyRecord_length]

theorem GetBlockUpdateList_documented_out_of_range_sample :
    (∀ fuel, 1 < fuel →
      GetBlockUpdateList true fuel sampleModule
        ("dlinfo ack\n".toList ++ (report [sampleRecord "0" "OK" "b9fa1f11"] ++
          ((sampleRecord "7" "OK" "fae50cb5").line ++ "dlinfo end\n".toList))) false
        = some (.returned (List.replicate sampleModule.blocks.length true))) ∧
    GetBlockUpdateList true 2 sampleModule
      "dlinfo ack\n#0   OK    b9fa1f11 b9fa1f11\n#7   OK    fae50cb5 fae50cb5\ndlinfo end\n".toList
      false = some (.returned [true, true]) :=
  ⟨GetBlockUpdateList_documented_out_of_range true sampleModule _ "dlinfo ack\n".toList
    [sampleRecord "0" "OK" "b9fa1f11"] (sampleRecord "7" "OK" "fae50cb5") "dlinfo end\n".toList
    (fun h => absurd ((strstr_isSome_iff _ _).mpr h) (by decide))
    (by decide) (by decide) (by decide) (by decide) (by decide) (by decide),
   by decide⟩

/-! ## A scanned record whose index is out of range -/

theorem sscanfRecord_state_ne_nil {s : List Char} {b : Nat} {st : List Char} {h f : Nat}
    (hs : sscanfRecord s = .full b st h f) : st ≠ [] := by
  unfold sscanfRecord at hs
  split at hs
  · cases hs
  · simp only at hs
    split at hs
    · cases hs
    · next hne =>
      split at hs
      · cases hs
      · split at hs
        · cases hs
        · simp only [ScanResult.full.injEq] at hs
          obtain ⟨_, hst, _, _⟩ := hs
          intro he
          rw [← hst] at he
          exact hne (by simp [he])

theorem loopBody_scanned (asserts : Bool) (module : ModuleInfo) {cur p : List Char}
    {b : Nat} {st : List Char} {h f : Nat} (rv : List Bool)
    (hp : strchr cur '#' = some p) (hs : sscanfRecord (p.drop 1) = .full b st h f)
    (ha : asserts = true → h ≠ 0 ∧ f ≠ 0) :
    (module.blocks.length ≤ b →
      loopBody asserts module cur rv = .done (.returned (List.replicate rv.length true))) ∧
    (b < module.blocks.length → ¬ p.length < 9 →
      ∃ rv2, rv2.length = rv.length ∧ loopBody asserts module cur rv = .next (p.drop 9) rv2) := by
  have hst : st.length ≠ 0 := fun h0 => sscanfRecord_state_ne_nil hs (List.length_eq_zero.mp h0)
  have hassert : (asserts && (st.length == 0 || h == 0 || f == 0)) = false := by
    cases asserts with
    | false => rfl
    | true =>
      obtain ⟨h1, h2⟩ := ha rfl
      simp [h1, h2, hst]
  constructor
  · intro hout
    unfold loopBody
    rw [hp]
    simp only [hs, hassert, Bool.false_eq_true, if_false]
    rw [dif_pos hout]
    simp
  · intro hin hlen
    unfold loopBody
    rw [hp]
    simp only [hs, hassert, Bool.false_eq_true, if_false]
    rw [dif_neg (by omega)]
    simp only [hlen, if_false]
    exact ⟨_, by simp, rfl⟩

theorem scanRecords_succ (F : Nat) (cur : List Char) :
    scanRecords (F + 1) cur =
      match strchr cur '#' with
      | none => []
      | some p =>
        match sscanfRecord (p.drop 1) with
        | .fewer => []
        | .full block_number state_str hdrCrc fwCrc =>
          { block_number := block_number, state_str := state_str, hdrCrc := hdrCrc,
            fwCrc := fwCrc } ::
            (if p.length < 9 then [] else scanRecords F (p.drop 9)) := rfl

theorem scanRecords_fuel : ∀ (F : Nat) (cur : List Char) (G : Nat),
    cur.length ≤ F → cur.length ≤ G → scanRecords F cur = scanRecords G cur := by
  intro F
  induction F with
  | zero =>
    intro cur G hF _
    have hc : cur = [] := List.length_eq_zero.mp (by omega)
    subst hc
    cases G with
    | zero => rfl
    | succ G => simp [scanRecords, strchr]
  | succ F ih =>
    intro cur G hF hG
    cases G with
    | zero =>
      have hc : cur = [] := List.length_eq_zero.mp (by omega)
      subst hc
      simp [scanRecords, strchr]
    | succ G =>
      rw [scanRecords_succ, scanRecords_succ]
      cases hp : strchr cur '#' with
      | none => rfl
      | some p =>
        simp only
        obtain ⟨pre, rest, h1, h2, _⟩ := strchr_some hp
        have hpl : p.length ≤ cur.length := by
          rw [h1, h2]; simp
        cases hs : sscanfRecord (p.drop 1) with
        | fewer => rfl
        | full b st h f =>
          simp only
          by_cases hlen : p.length < 9
          · rw [if_pos hlen, if_pos hlen]
          · rw [if_neg hlen, if_neg hlen]
            have hd : (p.drop 9).length = p.length - 9 := List.length_drop 9 p
            rw [ih (p.drop 9) G (by omega) (by omega)]

/-- The list `scannedRecords` leaves no scanned record out: more fuel lists
the same records. -/
theorem scannedRecords_complete (logBuf : List Char) (F : Nat) (h : logBuf.length ≤ F) :
    scanRecords F (scanStart logBuf) = scannedRecords logBuf := by
  have hs : (scanStart logBuf).length ≤ logBuf.length :=
    (scanStart_suffix logBuf).length_le
  exact scanRecords_fuel F _ _ (by omega) hs

theorem scanLoop_out_of_range (asserts : Bool) (module : ModuleInfo) :
    ∀ (k F : Nat) (cur : List Char) (rv : List Bool) (bad : ScannedRecord),
      (scanRecords F cur)[k]? = some bad → module.blocks.length ≤ bad.block_number →
      (∀ r ∈ (scanRecords F cur).take (k + 1), r.passesAsserts asserts) →
      ∀ fuel, k < fuel →
        scanLoop asserts module fuel cur rv
          = some (.returned (List.replicate rv.length true)) := by
  intro k
  induction k with
  | zero =>
    intro F cur rv bad hk hout ha fuel hfuel
    obtain ⟨n, rfl⟩ : ∃ n, fuel = n + 1 := ⟨fuel - 1, by omega⟩
    cases F with
    | zero => simp [scanRecords] at hk
    | succ F =>
      rw [scanRecords_succ] at hk ha
      cases hp : strchr cur '#' with
      | none => rw [hp] at hk; simp at hk
      | some p =>
        rw [hp] at hk ha
        simp only at hk ha
        cases hs : sscanfRecord (p.drop 1) with
        | fewer => rw [hs] at hk; simp at hk
        | full b st h f =>
          rw [hs] at hk ha
          simp only [List.getElem?_cons_zero, Option.some.injEq] at hk
          simp only [List.take_succ_cons, List.mem_cons, forall_eq_or_imp] at ha
          subst hk
          rw [scanLoop_succ, (loopBody_scanned asserts module rv hp hs ha.1).1 hout]
  | succ k ih =>
    intro F cur rv bad hk hout ha fuel hfuel
    obtain ⟨n, rfl⟩ : ∃ n, fuel = n + 1 := ⟨fuel - 1, by omega⟩
    cases F with
    | zero => simp [scanRecords] at hk
    | succ F =>
      rw [scanRecords_succ] at hk ha
      cases hp : strchr cur '#' with
      | none => rw [hp] at hk; simp at hk
      | some p =>
        rw [hp] at hk ha
        simp only at hk ha
        cases hs : sscanfRecord (p.drop 1) with
        | fewer => rw [hs] at hk; simp at hk
        | full b st h f =>
          rw [hs] at hk ha
          simp only [List.getElem?_cons_succ] at hk
          simp only [List.take_succ_cons, List.mem_cons, forall_eq_or_imp] at ha
          by_cases hb : module.blocks.length ≤ b
          · rw [scanLoop_succ, (loopBody_scanned asserts module rv hp hs ha.1).1 hb]
          · by_cases hlen : p.length < 9
            · rw [if_pos hlen] at hk; simp at hk
            · rw [if_neg hlen] at hk ha
              obtain ⟨rv2, hrv2, hstep⟩ :=
                (loopBody_scanned asserts module rv hp hs ha.1).2 (by omega) hlen
              rw [scanLoop_succ, hstep]
              simp only
              rw [ih F (p.drop 9) rv2 bad hk hout ha.2 n (by omega), hrv2]

/-- C4 (as amended): for every module with `n` blocks and every report without
`"empty"` (with `force_full = false`) whose scanned records include, as record
number `k`, a record with index at least `n`, where no record scanned up to
and including that one has a zero `hdrCRC` or `realCRC` if the asserts are
compiled in, `GetBlockUpdateList` returns, given fuel for `k + 1` iterations,
the all-`true` vector, whatever the earlier records had marked; the call
returns normally. -/
theorem GetBlockUpdateList_index_out_of_range (asserts : Bool) (module : ModuleInfo)
    (logBuf : List Char) (k : Nat) (bad : ScannedRecord)
    (hempty : ¬ emptyStr <:+: logBuf)
    (hk : (scannedRecords logBuf)[k]? = some bad)
    (hout : module.blocks.length ≤ bad.block_number)
    (hasserts : ∀ r ∈ (scannedRecords logBuf).take (k + 1), r.passesAsserts asserts) :
    ∀ fuel, k < fuel →
      GetBlockUpdateList asserts fuel module logBuf false
        = some (.returned (List.replicate module.blocks.length true)) := by
  intro fuel hfuel
  have he : (strstr logBuf emptyStr).isSome = false := by
    rw [Bool.eq_false_iff]
    exact fun h => hempty ((strstr_isSome_iff _ _).mp h)
  unfold GetBlockUpdateList
  simp only [he, Bool.or_self, Bool.false_eq_true, if_false]
  rw [scanLoop_out_of_range asserts module k logBuf.length (scanStart logBuf) _ bad hk hout
    hasserts fuel hfuel]
  simp

theorem GetBlockUpdateList_index_out_of_range_witness :
    scannedRecords ("dlinfo ack\n#0   OK    b9fa1f11 b9fa1f11\nblk  state HDR CRC  Real CRC\n" ++
        "#7   OK    fae50cb5 fae50cb5\ndlinfo end\n").toList
      = [⟨0, okStr, 0xb9fa1f11, 0xb9fa1f11⟩, ⟨7, okStr, 0xfae50cb5, 0xfae50cb5⟩] ∧
    GetBlockUpdateList true 2 sampleModule "dlinfo ack\n#0   OK    b9fa1f11 b9fa1f11\n".toList
      false = some (.returned [false, true]) ∧
    ∀ fuel, 1 < fuel →
      GetBlockUpdateList true fuel sampleModule
        ("dlinfo ack\n#0   OK    b9fa1f11 b9fa1f11\nblk  state HDR CRC  Real CRC\n" ++
          "#7   OK    fae50cb5 fae50cb5\ndlinfo end\n").toList false
        = some (.returned (List.replicate sampleModule.blocks.length true)) :=
  ⟨by decide, by decide,
   GetBlockUpdateList_index_out_of_range true sampleModule
    ("dlinfo ack\n#0   OK    b9fa1f11 b9fa1f11\nblk  state HDR CRC  Real CRC\n" ++
      "#7   OK    fae50cb5 fae50cb5\ndlinfo end\n").toList 1
    ⟨7, okStr, 0xfae50cb5, 0xfae50cb5⟩
    (fun h => absurd ((strstr_isSome_iff _ _).mpr h) (by decide))
    (by decide) (by decide) (by decide)⟩

/-- C4 fails as stated: in the report `#0   OK    b9fa1f11 b9fa1f11`,
`#7   OK    00000000 00000000` the second scanned record is well formed and
has an index beyond the two blocks of the module, so the claim lets the call
return the all-`true` vector without being aborted; with the asserts compiled
in, `assert(hdrCrc != 0)` aborts the call at that record, and no vector is
returned for any fuel. -/
theorem GetBlockUpdateList_index_out_of_range_counterexample :
    report [sampleRecord "0" "OK" "b9fa1f11", sampleRecord "7" "OK" "00000000"]
      = "#0   OK    b9fa1f11 b9fa1f11\n#7   OK    00000000 00000000\n".toList ∧
    (sampleRecord "7" "OK" "00000000").wellFormed = true ∧
    scannedRecords "#0   OK    b9fa1f11 b9fa1f11\n#7   OK    00000000 00000000\n".toList
      = [⟨0, okStr, 0xb9fa1f11, 0xb9fa1f11⟩, ⟨7, okStr, 0, 0⟩] ∧
    sampleModule.blocks.length ≤ 7 ∧
    ¬ emptyStr <:+: "#0   OK    b9fa1f11 b9fa1f11\n#7   OK    00000000 00000000\n".toList ∧
    (∀ fuel, 2 ≤ fuel →
      GetBlockUpdateList true fuel sampleModule
        "#0   OK    b9fa1f11 b9fa1f11\n#7   OK    00000000 00000000\n".toList false
        = some .assertFailed) ∧
    ∀ fuel rv, GetBlockUpdateList true fuel sampleModule
      "#0   OK    b9fa1f11 b9fa1f11\n#7   OK    00000000 00000000\n".toList false
        ≠ some (.returned rv) := by
  have h2 : GetBlockUpdateList true 2 sampleModule
      "#0   OK    b9fa1f11 b9fa1f11\n#7   OK    00000000 00000000\n".toList false
      = some .assertFailed := by decide
  refine ⟨by decide, by decide, by decide, by decide,
    fun h => absurd ((strstr_isSome_iff _ _).mpr h) (by decide),
    fun fuel hfuel => GetBlockUpdateList_more_fuel h2 hfuel, ?_⟩
  intro fuel rv h
  by_cases hf : 2 ≤ fuel
  · rw [GetBlockUpdateList_more_fuel h2 hf] at h
    cases h
  · have h0 : GetBlockUpdateList true 0 sampleModule
        "#0   OK    b9fa1f11 b9fa1f11\n#7   OK    00000000 00000000\n".toList false
        = none := by decide
    have h1 : GetBlockUpdateList true 1 sampleModule
        "#0   OK    b9fa1f11 b9fa1f11\n#7   OK    00000000 00000000\n".toList false
        = none := by decide
    have : fuel = 0 ∨ fuel = 1 := by omega
    rcases this with rfl | rfl
    · rw [h0] at h; cases h
    · rw [h1] at h; cases h

/-! ## What a successful pass of the entry loop establishes -/

theorem parseEntry_ok {crc : Nat → List UInt8 → Nat} {path : String} {file : List UInt8}
    {block_size pos : Nat} {entry : UfifEntry} {m : ModuleInfo} {pos2 : Nat}
    (h : parseEntry crc path file block_size pos entry = .ok (m, pos2)) :
    block_size ≠ 0 ∧ entry.size ≤ alignedBufferSize entry.size ∧
    alignOffset pos + entry.size ≤ file.length ∧ pos2 = alignOffset pos + entry.size ∧
    crc 0 (slice (paddedPayload file (alignOffset pos) entry.size) 0
      (crcAlignedDataSize entry.size)) = entry.crc32 ∧
    m.crc = entry.crc32 ∧ m.size = entry.size ∧
    m.aligned_size = alignedBufferSize entry.size ∧ m.file_offset = alignOffset pos ∧
    m.filename = path ∧
    m.blocks = makeBlocks crc (paddedPayload file (alignOffset pos) entry.size) block_size
      (blockCount (alignedBufferSize entry.size) block_size) 0 (crcAlignedDataSize entry.size) ∧
    ∃ hdr, readAt file (alignOffset pos) sizeofDigestHeader = some hdr ∧
      digestVer hdr >>> 16 = DIGEST_HEADER_VERSION >>> 16 ∧
      (digestId hdr).getD 7 0 = 0 ∧
      firstDotOrNul (digestBinVerTail hdr) = some 46 ∧
      m.name = toStdString (cstring (digestId hdr)) ∧
      m.version = toStdString (cstring (digestBinVerTail hdr)) := by
  unfold parseEntry at h
  simp only at h
  split at h
  · cases h
  · next hdr hhdr =>
    split at h
    · cases h
    · next hver =>
      split at h
      · cases h
      · next hid =>
        split at h
        · cases h
        · next found hfound =>
          split at h
          · cases h
          · next hnz =>
            split at h
            · cases h
            · next hbs =>
              split at h
              · cases h
              · next hsz =>
                split at h
                · cases h
                · next data hdata =>
                  split at h
                  · cases h
                  · next hcrc =>
                    split at h
                    · cases h
                    · have hd : data = slice file (alignOffset pos) entry.size := by
                        unfold readAt at hdata
                        split at hdata
                        · cases hdata; rfl
                        · cases hdata
                      have hlen : alignOffset pos + entry.size ≤ file.length := by
                        unfold readAt at hdata
                        split at hdata
                        · assumption
                        · cases hdata
                      have hfd : found = 46 := by
                        have := List.find?_some hfound
                        simp only [Bool.or_eq_true, beq_iff_eq] at this
                        rcases this with h0 | h1
                        · exact absurd h0 hnz
                        · exact h1
                      simp only [Except.ok.injEq, Prod.mk.injEq] at h
                      obtain ⟨hm, hp⟩ := h
                      subst hm
                      subst hd
                      refine ⟨hbs, Nat.le_of_not_lt hsz, hlen, hp.symm, ?_, ?_, rfl, rfl, rfl, rfl,
                        rfl, hdr, hhdr, not_not.mp hver, not_not.mp hid, hfd ▸ hfound, rfl, rfl⟩
                      · exact not_not.mp hcrc
                      · exact not_not.mp hcrc

/-! ## The size computations -/

theorem land_high_mask (x k : Nat) (hk : k ≤ 32) (hx : x < 2 ^ 32) :
    x &&& ((2 ^ (32 - k) - 1) <<< k) = x / 2 ^ k * 2 ^ k := by
  rw [← Nat.shiftRight_eq_div_pow, ← Nat.shiftLeft_eq]
  apply Nat.eq_of_testBit_eq
  intro i
  simp only [Nat.testBit_land, Nat.testBit_shiftLeft, Nat.testBit_shiftRight,
    Nat.testBit_two_pow_sub_one]
  by_cases h : k ≤ i
  · have e : k + (i - k) = i := by omega
    simp only [ge_iff_le, h, decide_True, Bool.true_and, e]
    by_cases h2 : i - k < 32 - k
    · simp [h2]
    · have : x < 2 ^ i := lt_of_lt_of_le hx (Nat.pow_le_pow_right (by norm_num) (by omega))
      simp [h2, Nat.testBit_lt_two_pow this]
  · simp [h]

theorem alignedBufferSize_eq (size : Nat) :
    alignedBufferSize size = (size + 4095) % 2 ^ 32 / 4096 * 4096 := by
  have := land_high_mask ((size + 4095) % 2 ^ 32) 12 (by norm_num)
    (Nat.mod_lt _ (by norm_num))
  simpa [alignedBufferSize] using this

theorem crcAlignedDataSize_eq (size : Nat) :
    crcAlignedDataSize size = (size + 3) % 2 ^ 32 / 4 * 4 := by
  have := land_high_mask ((size + 3) % 2 ^ 32) 2 (by norm_num)
    (Nat.mod_lt _ (by norm_num))
  simpa [crcAlignedDataSize] using this

theorem size_le_of_le_alignedBufferSize {size : Nat} (hlt : size < 2 ^ 32)
    (h : size ≤ alignedBufferSize size) : size ≤ 0xFFFFF000 := by
  rw [alignedBufferSize_eq] at h
  by_contra hc
  have h1 : (size + 4095) % 2 ^ 32 = size + 4095 - 2 ^ 32 := by
    rw [Nat.mod_eq_sub_mod (by omega), Nat.mod_eq_of_lt (by omega)]
  rw [h1] at h
  omega

theorem alignedBufferSize_of_le {size : Nat} (h : size ≤ 0xFFFFF000) :
    alignedBufferSize size = (size + 4095) / 4096 * 4096 := by
  rw [alignedBufferSize_eq, Nat.mod_eq_of_lt (by omega)]

theorem crcAlignedDataSize_of_le {size : Nat} (h : size ≤ 0xFFFFF000) :
    crcAlignedDataSize size = roundUp size 4 := by
  rw [crcAlignedDataSize_eq, Nat.mod_eq_of_lt (by omega)]
  rfl

theorem roundUp4_le_alignedBufferSize {size : Nat} (h : size ≤ 0xFFFFF000) :
    roundUp size 4 ≤ alignedBufferSize size := by
  rw [alignedBufferSize_of_le h]
  unfold roundUp
  omega

theorem alignedBufferSize_least {size : Nat} (h : size ≤ 0xFFFFF000) :
    size ≤ alignedBufferSize size ∧ 4096 ∣ alignedBufferSize size ∧
      ∀ k, 4096 ∣ k → size ≤ k → alignedBufferSize size ≤ k := by
  rw [alignedBufferSize_of_le h]
  refine ⟨by omega, Nat.dvd_mul_left _ _, ?_⟩
  rintro k ⟨q, rfl⟩ hk
  omega

theorem le_blockCount_mul (aligned block_size : Nat) (hbs : block_size ≠ 0) :
    aligned ≤ blockCount aligned block_size * block_size := by
  unfold blockCount
  have h1 := Nat.div_add_mod aligned block_size
  have h2 := Nat.mod_lt aligned (Nat.pos_of_ne_zero hbs)
  have h3 : block_size * (aligned / block_size) = aligned / block_size * block_size :=
    Nat.mul_comm _ _
  split
  · rw [Nat.add_mul]; omega
  · omega

/-! ## The block loop -/

theorem makeBlocks_length (crc : Nat → List UInt8 → Nat) (buf : List UInt8) (bs : Nat) :
    ∀ todo i rem, (makeBlocks crc buf bs todo i rem).length = todo := by
  intro todo
  induction todo with
  | zero => intro i rem; rfl
  | succ n ih => intro i rem; simp [makeBlocks, ih]

theorem makeBlocks_getElem (crc : Nat → List UInt8 → Nat) (buf : List UInt8) (bs : Nat) :
    ∀ todo i rem j, j < todo →
      (makeBlocks crc buf bs todo i rem)[j]? =
        some { offset := (i + j) * bs, size := min (rem - j * bs) bs,
               crc := crc (i + j) (slice buf ((i + j) * bs) (min (rem - j * bs) bs)) } := by
  intro todo
  induction todo with
  | zero => intro i rem j hj; omega
  | succ n ih =>
    intro i rem j hj
    cases j with
    | zero => simp [makeBlocks]
    | succ j =>
      have hsz : min (rem - min rem bs - j * bs) bs = min (rem - (j + 1) * bs) bs := by
        rw [Nat.add_mul]
        simp only [Nat.min_def]
        split_ifs <;> omega
      have hi : i + 1 + j = i + (j + 1) := by omega
      simp only [makeBlocks, List.getElem?_cons_succ]
      rw [ih (i + 1) _ j (by omega), hsz, hi]

theorem makeBlocks_sum (crc : Nat → List UInt8 → Nat) (buf : List UInt8) (bs : Nat) :
    ∀ todo i rem,
      ((makeBlocks crc buf bs todo i rem).map BlockInfo.size).sum = min rem (todo * bs) := by
  intro todo
  induction todo with
  | zero => intro i rem; simp [makeBlocks]
  | succ n ih =>
    intro i rem
    simp only [makeBlocks, List.map_cons, List.sum_cons, ih]
    rw [Nat.add_mul]
    simp only [Nat.min_def]
    split_ifs <;> omega

/-! ## The entry loop and the whole parse -/

theorem leValue_lt (bs : List UInt8) : leValue bs < 256 ^ bs.length := by
  induction bs with
  | nil => simp [leValue]
  | cons b rest ih =>
    have hb : b.toNat < 256 := b.val.isLt
    have e : leValue (b :: rest) = b.toNat + 256 * leValue rest := rfl
    rw [e, List.length_cons, Nat.pow_succ]
    omega

theorem slice_length_le (bs : List UInt8) (ofs len : Nat) : (slice bs ofs len).length ≤ len := by
  simp [slice, List.length_take]

theorem decodeUfifEntry_size_lt (bs : List UInt8) : (decodeUfifEntry bs).size < 2 ^ 32 := by
  have h1 := leValue_lt (slice bs 64 4)
  have h2 := slice_length_le bs 64 4
  have h3 : 256 ^ (slice bs 64 4).length ≤ 256 ^ 4 := Nat.pow_le_pow_right (by norm_num) h2
  have h4 : (256 : Nat) ^ 4 = 2 ^ 32 := by norm_num
  simp only [decodeUfifEntry]
  omega

theorem readAt_eq_some {file : List UInt8} {pos len : Nat} {bs : List UInt8}
    (h : readAt file pos len = some bs) : pos + len ≤ file.length ∧ bs = slice file pos len := by
  unfold readAt at h
  split at h
  · cases h; exact ⟨by assumption, rfl⟩
  · cases h

theorem UfifReadHeader_ok {file : List UInt8} {header : UfifFile}
    {entries : List UfifEntry} {pos : Nat}
    (h : UfifReadHeader file = .ok (header, entries, pos)) :
    header = decodeUfifFile (slice file 0 sizeofUfifFile) ∧
    UfifCheckHeader header = true ∧
    sizeofUfifFile + header.entryN * sizeofUfifEntry ≤ file.length ∧
    entries = (List.range header.entryN).map (fun i => decodeUfifEntry
      (slice (slice file sizeofUfifFile (header.entryN * sizeofUfifEntry))
        (i * sizeofUfifEntry) sizeofUfifEntry)) ∧
    pos = sizeofUfifFile + header.entryN * sizeofUfifEntry := by
  unfold UfifReadHeader at h
  split at h
  · cases h
  · next hbytes hh =>
    obtain ⟨_, rfl⟩ := readAt_eq_some hh
    simp only at h
    split at h
    · cases h
    · next hchk =>
      split at h
      · cases h
      · next ebytes he =>
        obtain ⟨hlen, rfl⟩ := readAt_eq_some he
        simp only [Except.ok.injEq, Prod.mk.injEq] at h
        obtain ⟨h1, h2, h3⟩ := h
        subst h1
        exact ⟨rfl, by simpa using hchk, hlen, h2.symm, h3.symm⟩

theorem UfifReadHeader_size_lt {file : List UInt8} {header : UfifFile}
    {entries : List UfifEntry} {pos : Nat}
    (h : UfifReadHeader file = .ok (header, entries, pos)) :
    ∀ e ∈ entries, e.size < 2 ^ 32 := by
  obtain ⟨_, _, _, he, _⟩ := UfifReadHeader_ok h
  intro e hmem
  rw [he] at hmem
  obtain ⟨i, _, rfl⟩ := List.mem_map.mp hmem
  exact decodeUfifEntry_size_lt _

theorem parseEntries_ok (crc : Nat → List UInt8 → Nat) (path : String) (file : List UInt8)
    (block_size : Nat) : ∀ (entries : List UfifEntry) (pos : Nat) (ms : List ModuleInfo),
    parseEntries crc path file block_size pos entries = .ok ms →
    ms.length = entries.length ∧
    ∀ i e m, entries[i]? = some e → ms[i]? = some m →
      ∃ p p2, parseEntry crc path file block_size p e = .ok (m, p2) ∧
        alignOffset p = payloadOffset pos entries i := by
  intro entries
  induction entries with
  | nil =>
    intro pos ms h
    simp only [parseEntries, Except.ok.injEq] at h
    subst h
    exact ⟨rfl, fun i e m he => by simp at he⟩
  | cons e0 es ih =>
    intro pos ms h
    unfold parseEntries at h
    split at h
    · cases h
    · next m0 pos2 h0 =>
      split at h
      · cases h
      · next result hrest =>
        simp only [Except.ok.injEq] at h
        subst h
        obtain ⟨hlen, hall⟩ := ih pos2 result hrest
        refine ⟨by simp [hlen], ?_⟩
        intro i e m he hm
        cases i with
        | zero =>
          simp only [List.getElem?_cons_zero, Option.some.injEq] at he hm
          subst he hm
          exact ⟨pos, pos2, h0, rfl⟩
        | succ i =>
          simp only [List.getElem?_cons_succ] at he hm
          obtain ⟨p, p2, hp, hofs⟩ := hall i e m he hm
          refine ⟨p, p2, hp, ?_⟩
          rw [hofs, (parseEntry_ok h0).2.2.2.1]
          rfl

theorem ParseUfifToModules_ok {crc : Nat → List UInt8 → Nat} {path : String}
    {file : Option (List UInt8)} {block_size : Nat} {ms : List ModuleInfo}
    (h : ParseUfifToModules crc path file block_size = .ok ms) :
    ∃ content header entries pos, file = some content ∧
      UfifReadHeader content = .ok (header, entries, pos) ∧
      parseEntries crc path content block_size pos entries = .ok ms := by
  unfold ParseUfifToModules at h
  split at h
  · cases h
  · next content =>
    split at h
    · cases h
    · next header entries pos hread =>
      exact ⟨content, header, entries, pos, rfl, hread, h⟩

theorem ParseUfifToModules_mem {crc : Nat → List UInt8 → Nat} {path : String}
    {file : Option (List UInt8)} {block_size : Nat} {ms : List ModuleInfo}
    (h : ParseUfifToModules crc path file block_size = .ok ms) {m : ModuleInfo} (hm : m ∈ ms) :
    ∃ content e p p2, file = some content ∧ e.size < 2 ^ 32 ∧
      parseEntry crc path content block_size p e = .ok (m, p2) := by
  obtain ⟨content, header, entries, pos, hf, hread, hloop⟩ := ParseUfifToModules_ok h
  obtain ⟨hlen, hall⟩ := parseEntries_ok crc path content block_size entries pos ms hloop
  obtain ⟨i, hi⟩ := List.mem_iff_getElem?.mp hm
  have hlt : i < entries.length := by
    have := (List.getElem?_eq_some_iff.mp hi).1
    omega
  have he : entries[i]? = some entries[i] := List.getElem?_eq_getElem hlt
  obtain ⟨p, p2, hp, _⟩ := hall i _ m he hi
  exact ⟨content, entries[i], p, p2, hf,
    UfifReadHeader_size_lt hread _ (List.getElem_mem _), hp⟩

/-! ## Block sizes of a parsed module -/

/-- C6 (as stated, refuted): a module of 513 bytes parsed with the protocol
block size has `aligned_size = 4096` and a single block of size 516: the block
sizes do not add up to `aligned_size`, and the last block's size is not
`aligned_size - block_size * (n_blocks - 1)`. -/
theorem ParseUfifToModules_block_sum_counterexample :
    ParseUfifToModules sampleCrc "fw.bin" (some (sampleContainer "OPFW" "OPFW" [0xAB])) BlockSize
      = .ok sampleParsed ∧
    ¬ (∀ m ∈ sampleParsed, (m.blocks.map BlockInfo.size).sum = m.aligned_size) ∧
    ¬ (∀ m ∈ sampleParsed, ∀ last, m.blocks.getLast? = some last →
        last.size = m.aligned_size - BlockSize * (m.blocks.length - 1)) := by
  refine ⟨by decide, by decide, ?_⟩
  intro h
  have := h _ (List.mem_singleton.mpr rfl) { offset := 0, size := 516, crc := 968002330 } rfl
  revert this
  decide

/-- C6 (amended): for every module that `ParseUfifToModules` returns, whatever
the block size (it is positive when a module is returned) and the payload
length, the block sizes add up to `round_up(size, 4)`, which is at most
`aligned_size`; there are `ceil(aligned_size / block_size)` blocks; and the
last block's size is `round_up(size, 4) - block_size * (n_blocks - 1)`, read as
0 when that difference is negative. -/
theorem ParseUfifToModules_block_sizes (crc : Nat → List UInt8 → Nat) (path : String)
    (file : Option (List UInt8)) (block_size : Nat) (ms : List ModuleInfo)
    (h : ParseUfifToModules crc path file block_size = .ok ms) :
    ∀ m ∈ ms, 0 < block_size ∧
      m.blocks.length = blockCount m.aligned_size block_size ∧
      (m.blocks.map BlockInfo.size).sum = roundUp m.size 4 ∧
      roundUp m.size 4 ≤ m.aligned_size ∧
      ∀ last, m.blocks.getLast? = some last →
        last.size = roundUp m.size 4 - block_size * (m.blocks.length - 1) := by
  intro m hm
  obtain ⟨content, e, p, p2, _, hlt, hp⟩ := ParseUfifToModules_mem h hm
  obtain ⟨hbs, hle, _, _, _, _, hsize, halign, _, _, hblocks, _⟩ := parseEntry_ok hp
  have h1 : e.size ≤ 0xFFFFF000 := size_le_of_le_alignedBufferSize hlt hle
  have h2 := roundUp4_le_alignedBufferSize h1
  have h3 := le_blockCount_mul (alignedBufferSize e.size) block_size hbs
  have hn : m.blocks.length = blockCount (alignedBufferSize e.size) block_size := by
    rw [hblocks, makeBlocks_length]
  rw [crcAlignedDataSize_of_le h1] at hblocks
  rw [hsize, halign]
  refine ⟨Nat.pos_of_ne_zero hbs, hn, ?_, h2, ?_⟩
  · rw [hblocks, makeBlocks_sum]
    exact Nat.min_eq_left (le_trans h2 h3)
  · intro last hlast
    rw [List.getLast?_eq_getElem?] at hlast
    have hpos : 0 < m.blocks.length := by
      by_contra hc
      have hz : m.blocks.length = 0 := by omega
      rw [hz] at hlast
      simp [List.length_eq_zero.mp hz] at hlast
    rw [hn]
    rw [hblocks, makeBlocks_length,
      makeBlocks_getElem _ _ _ _ _ _ _ (by omega)] at hlast
    simp only [Option.some.injEq] at hlast
    subst hlast
    simp only
    have h4 : (blockCount (alignedBufferSize e.size) block_size - 1) * block_size + block_size
        = blockCount (alignedBufferSize e.size) block_size * block_size := by
      have : blockCount (alignedBufferSize e.size) block_size
          = (blockCount (alignedBufferSize e.size) block_size - 1) + 1 := by omega
      conv_rhs => rw [this, Nat.add_mul, Nat.one_mul]
    rw [Nat.mul_comm block_size]
    apply Nat.min_eq_left
    omega

theorem ParseUfifToModules_block_sizes_witness :
    ParseUfifToModules sampleCrc "fw.bin" (some (sampleContainer "OPFW" "OPFW" [0xAB])) BlockSize
      = .ok sampleParsed ∧
    ∀ m ∈ sampleParsed, 0 < BlockSize ∧
      m.blocks.length = blockCount m.aligned_size BlockSize ∧
      (m.blocks.map BlockInfo.size).sum = roundUp m.size 4 ∧
      roundUp m.size 4 ≤ m.aligned_size ∧
      ∀ last, m.blocks.getLast? = some last →
        last.size = roundUp m.size 4 - BlockSize * (m.blocks.length - 1) :=
  ⟨by decide, ParseUfifToModules_block_sizes sampleCrc "fw.bin"
    (some (sampleContainer "OPFW" "OPFW" [0xAB])) BlockSize sampleParsed (by decide)⟩

/-! ## The 4 KiB rounding wraps around -/

/-- C7 (the code diverges from the claim): for the 32-bit entry size
`0xFFFFFFFF` the code computes `aligned_size = 0`, which is neither at least
the size nor the smallest multiple of 4096 above it; the parser then reads the
payload into a buffer that is too small. The same happens from `0xFFFFF001` on. -/
theorem alignedBufferSize_wraps :
    alignedBufferSize 0xFFFFFFFF = 0 ∧ ¬ (0xFFFFFFFF ≤ alignedBufferSize 0xFFFFFFFF) ∧
    alignedBufferSize 0xFFFFF001 = 0 ∧
    parseEntry sampleCrc "fw.bin" (sampleContainer "OPFW" "OPFW" [0xAB]) BlockSize 112
      { name := [], size := 0xFFFFFFFF, crc32 := 0, rsv := [] } = .error .undefinedBehaviour := by
  refine ⟨by decide, by decide, by decide, by decide⟩

/-! ## The whole-module CRC check -/

/-- C8: with the directory `entries` read from the container, (1) if for some
entry the CRC (seed 0) over the first `round_up(entry.size, 4)` bytes of its
zero-padded payload buffer differs from the declared `crc32`, then
`ParseUfifToModules` returns no module list at all; (2) when it returns a
list, that list has one module per entry, in order, and each module's `crc` is
its entry's declared `crc32` and its `size` the entry's declared size. -/
theorem ParseUfifToModules_crc_check (crc : Nat → List UInt8 → Nat) (path : String)
    (content : List UInt8) (block_size : Nat) (header : UfifFile) (entries : List UfifEntry)
    (pos : Nat) (hread : UfifReadHeader content = .ok (header, entries, pos)) :
    ((∃ i e, entries[i]? = some e ∧
        crc 0 (slice (paddedPayload content (payloadOffset pos entries i) e.size) 0
          (roundUp e.size 4)) ≠ e.crc32) →
      ∀ ms, ParseUfifToModules crc path (some content) block_size ≠ .ok ms) ∧
    (∀ ms, ParseUfifToModules crc path (some content) block_size = .ok ms →
      ms.length = entries.length ∧
      ∀ (i : Nat) (e : UfifEntry) (m : ModuleInfo), entries[i]? = some e → ms[i]? = some m →
        m.crc = e.crc32 ∧ m.size = e.size) := by
  have hloop : ∀ ms, ParseUfifToModules crc path (some content) block_size = .ok ms →
      parseEntries crc path content block_size pos entries = .ok ms := by
    intro ms h
    obtain ⟨c2, h2, e2, p2, hc, hr, hl⟩ := ParseUfifToModules_ok h
    cases hc
    rw [hread] at hr
    simp only [Except.ok.injEq, Prod.mk.injEq] at hr
    obtain ⟨_, he, hp⟩ := hr
    rw [he, hp]
    exact hl
  constructor
  · rintro ⟨i, e, he, hne⟩ ms h
    obtain ⟨hlen, hall⟩ := parseEntries_ok crc path content block_size entries pos ms (hloop ms h)
    have hi : i < ms.length := by
      rw [hlen]
      exact (List.getElem?_eq_some_iff.mp he).1
    obtain ⟨p, p2, hp, hofs⟩ := hall i e ms[i] he (List.getElem?_eq_getElem hi)
    obtain ⟨_, hle, _, _, hcrc, _⟩ := parseEntry_ok hp
    have hlt : e.size < 2 ^ 32 := UfifReadHeader_size_lt hread e (List.mem_iff_getElem?.mpr ⟨i, he⟩)
    rw [crcAlignedDataSize_of_le (size_le_of_le_alignedBufferSize hlt hle), hofs] at hcrc
    exact hne hcrc
  · intro ms h
    obtain ⟨hlen, hall⟩ := parseEntries_ok crc path content block_size entries pos ms (hloop ms h)
    refine ⟨hlen, ?_⟩
    intro i e m he hm
    obtain ⟨p, p2, hp, _⟩ := hall i e m he hm
    obtain ⟨_, _, _, _, _, hc, hs, _⟩ := parseEntry_ok hp
    exact ⟨hc, hs⟩

theorem ParseUfifToModules_crc_check_witness :
    (UfifReadHeader tamperedContainer = .ok (sampleHeader, sampleEntries "OPFW", 112) ∧
      (∃ i e, (sampleEntries "OPFW")[i]? = some e ∧
        sampleCrc 0 (slice (paddedPayload tamperedContainer
          (payloadOffset 112 (sampleEntries "OPFW") i) e.size) 0 (roundUp e.size 4)) ≠ e.crc32) ∧
      (∀ ms, ParseUfifToModules sampleCrc "fw.bin" (some tamperedContainer) BlockSize ≠ .ok ms) ∧
      ParseUfifToModules sampleCrc "fw.bin" (some tamperedContainer) BlockSize
        = .error (.invalidCrc "OPFW")) ∧
    (UfifReadHeader (sampleContainer "OPFW" "OPFW" [0xAB])
      = .ok (sampleHeader, sampleEntries "OPFW", 112) ∧
    ParseUfifToModules sampleCrc "fw.bin" (some (sampleContainer "OPFW" "OPFW" [0xAB])) BlockSize
      = .ok sampleParsed ∧
    (∀ ms, ParseUfifToModules sampleCrc "fw.bin"
        (some (sampleContainer "OPFW" "OPFW" [0xAB])) BlockSize = .ok ms →
      ms.length = (sampleEntries "OPFW").length ∧
      ∀ (i : Nat) (e : UfifEntry) (m : ModuleInfo),
        (sampleEntries "OPFW")[i]? = some e → ms[i]? = some m →
        m.crc = e.crc32 ∧ m.size = e.size)) :=
  ⟨⟨by decide, ⟨0, _, rfl, by decide⟩,
    (ParseUfifToModules_crc_check sampleCrc "fw.bin" tamperedContainer BlockSize sampleHeader
      (sampleEntries "OPFW") 112 (by decide)).1 ⟨0, _, rfl, by decide⟩,
    by decide⟩,
   ⟨by decide, by decide,
    (ParseUfifToModules_crc_check sampleCrc "fw.bin" (sampleContainer "OPFW" "OPFW" [0xAB])
      BlockSize sampleHeader (sampleEntries "OPFW") 112 (by decide)).2⟩⟩

/-! ## `ModulesFromFile`: validation of the module names -/

theorem verifyAll_cases (ms : List ModuleInfo) :
    (verifyAll ms = .ok () ∧ ∀ m ∈ ms, m.name ∈ AllowedModules) ∨
    (∃ m ∈ ms, m.name ∉ AllowedModules ∧ verifyAll ms = .error (.invalidModuleName m.name)) := by
  induction ms with
  | nil => exact Or.inl ⟨rfl, fun m hm => by cases hm⟩
  | cons m0 rest ih =>
    by_cases h0 : m0.name ∈ AllowedModules
    · have hv : verifyAll (m0 :: rest) = verifyAll rest := by
        simp [verifyAll, VerifyAllowed, h0]
      rcases ih with ⟨hok, hall⟩ | ⟨m, hm, hbad, herr⟩
      · left
        refine ⟨hv.trans hok, ?_⟩
        intro m hm
        rcases List.mem_cons.mp hm with rfl | hm
        · exact h0
        · exact hall m hm
      · right
        exact ⟨m, List.mem_cons_of_mem _ hm, hbad, hv.trans herr⟩
    · right
      refine ⟨m0, List.mem_cons_self _ _, h0, ?_⟩
      simp [verifyAll, VerifyAllowed, h0]

/-- C10: when the parser returns the modules `ms`, `ModulesFromFile` returns
exactly `ms` (unchanged, in file order) iff every module name is one of the 12
allowed names; it never returns another list; and if some module has another
name it fails with the validation error naming such a module. -/
theorem ModulesFromFile_allowed (crc : Nat → List UInt8 → Nat) (path : String)
    (file : Option (List UInt8)) (ms : List ModuleInfo)
    (h : ParseUfifToModules crc path file BlockSize = .ok ms) :
    (ModulesFromFile crc path file = .ok ms ↔
      ∀ m ∈ ms, m.name ∈ ["OPFW", "NNLED", "DNET", "RECOG", "YOLO", "AS2DLR",
        "NNLAS", "NNLEDR", "SPOOFS", "ASDISP", "ACCNET", "ASVIS"]) ∧
    (∀ ms2, ModulesFromFile crc path file = .ok ms2 → ms2 = ms) ∧
    ((∃ m ∈ ms, m.name ∉ ["OPFW", "NNLED", "DNET", "RECOG", "YOLO", "AS2DLR",
        "NNLAS", "NNLEDR", "SPOOFS", "ASDISP", "ACCNET", "ASVIS"]) →
      ∃ m ∈ ms, m.name ∉ ["OPFW", "NNLED", "DNET", "RECOG", "YOLO", "AS2DLR",
        "NNLAS", "NNLEDR", "SPOOFS", "ASDISP", "ACCNET", "ASVIS"] ∧
        ModulesFromFile crc path file = .error (.invalidModuleName m.name)) := by
  have hA : AllowedModules = ["OPFW", "NNLED", "DNET", "RECOG", "YOLO", "AS2DLR",
      "NNLAS", "NNLEDR", "SPOOFS", "ASDISP", "ACCNET", "ASVIS"] := rfl
  rw [← hA]
  have hM : ModulesFromFile crc path file =
      match verifyAll ms with
      | .error e => .error e
      | .ok () => .ok ms := by
    unfold ModulesFromFile
    rw [h]
  rcases verifyAll_cases ms with ⟨hok, hall⟩ | ⟨m, hm, hbad, herr⟩
  · rw [hok] at hM
    refine ⟨⟨fun _ => hall, fun _ => hM⟩, ?_, ?_⟩
    · intro ms2 h2
      rw [hM] at h2
      cases h2
      rfl
    · rintro ⟨m, hm, hbad⟩
      exact absurd (hall m hm) hbad
  · rw [herr] at hM
    refine ⟨⟨fun h2 => ?_, fun hall => absurd (hall m hm) hbad⟩, ?_, ?_⟩
    · rw [hM] at h2
      cases h2
    · intro ms2 h2
      rw [hM] at h2
      cases h2
    · intro _
      exact ⟨m, hm, hbad, hM⟩

theorem ModulesFromFile_allowed_witness :
    ParseUfifToModules sampleCrc "fw.bin" (some (sampleContainer "OPFW" "OPFW" [0xAB])) BlockSize
      = .ok sampleParsed ∧
    ModulesFromFile sampleCrc "fw.bin" (some (sampleContainer "OPFW" "OPFW" [0xAB]))
      = .ok sampleParsed ∧
    ModulesFromFile sampleCrc "fw.bin" (some (sampleContainer "OPFW" "BOGUS" [0xAB]))
      = .error (.invalidModuleName "BOGUS") :=
  ⟨by decide,
   (ModulesFromFile_allowed sampleCrc "fw.bin" (some (sampleContainer "OPFW" "OPFW" [0xAB]))
    sampleParsed (by decide)).1.mpr (by decide),
   by decide⟩

/-! ## The name field of a directory entry is not read -/

theorem slice_getElem? (l : List UInt8) (p n i : Nat) :
    (slice l p n)[i]? = if i < n then l[p + i]? else none := by
  simp only [slice, List.getElem?_take, List.getElem?_drop]

theorem slice_slice (l : List UInt8) (a n b m : Nat) (h : b + m ≤ n) :
    slice (slice l a n) b m = slice l (a + b) m := by
  apply List.ext_getElem?
  intro i
  simp only [slice_getElem?]
  by_cases hi : i < m
  · have h2 : b + i < n := by omega
    simp only [hi, h2, if_true, Nat.add_assoc]
  · simp only [hi, if_false]

theorem setEntryName_length (file : List UInt8) (k : Nat) (name : List UInt8)
    (hname : name.length = UFIF_NAME_MAX)
    (hlen : sizeofUfifFile + k * sizeofUfifEntry + UFIF_NAME_MAX ≤ file.length) :
    (setEntryName file k name).length = file.length := by
  simp only [setEntryName, List.length_append, List.length_take, List.length_drop, hname]
  omega

theorem setEntryName_getElem? (file : List UInt8) (k : Nat) (name : List UInt8)
    (hname : name.length = UFIF_NAME_MAX)
    (hlen : sizeofUfifFile + k * sizeofUfifEntry + UFIF_NAME_MAX ≤ file.length) (j : Nat)
    (hj : j < sizeofUfifFile + k * sizeofUfifEntry ∨
      sizeofUfifFile + k * sizeofUfifEntry + UFIF_NAME_MAX ≤ j) :
    (setEntryName file k name)[j]? = file[j]? := by
  unfold setEntryName
  have hl1 : (file.take (sizeofUfifFile + k * sizeofUfifEntry)).length
      = sizeofUfifFile + k * sizeofUfifEntry := by
    rw [List.length_take]; omega
  rcases hj with hj | hj
  · rw [List.append_assoc, List.getElem?_append_left (by omega), List.getElem?_take_of_lt hj]
  · rw [List.getElem?_append_right (by simp only [List.length_append, hl1, hname]; omega)]
    simp only [List.length_append, hl1, hname, List.getElem?_drop]
    congr 1
    omega

theorem setEntryName_slice (file : List UInt8) (k : Nat) (name : List UInt8)
    (hname : name.length = UFIF_NAME_MAX)
    (hlen : sizeofUfifFile + k * sizeofUfifEntry + UFIF_NAME_MAX ≤ file.length) (p n : Nat)
    (hp : p + n ≤ sizeofUfifFile + k * sizeofUfifEntry ∨
      sizeofUfifFile + k * sizeofUfifEntry + UFIF_NAME_MAX ≤ p) :
    slice (setEntryName file k name) p n = slice file p n := by
  apply List.ext_getElem?
  intro i
  simp only [slice_getElem?]
  by_cases hi : i < n
  · simp only [hi, if_true]
    exact setEntryName_getElem? file k name hname hlen _ (by omega)
  · simp only [hi, if_false]

theorem setEntryName_readAt (file : List UInt8) (k : Nat) (name : List UInt8)
    (hname : name.length = UFIF_NAME_MAX)
    (hlen : sizeofUfifFile + k * sizeofUfifEntry + UFIF_NAME_MAX ≤ file.length) (p n : Nat)
    (hp : p + n ≤ sizeofUfifFile + k * sizeofUfifEntry ∨
      sizeofUfifFile + k * sizeofUfifEntry + UFIF_NAME_MAX ≤ p) :
    readAt (setEntryName file k name) p n = readAt file p n := by
  unfold readAt
  rw [setEntryName_length file k name hname hlen, setEntryName_slice file k name hname hlen p n hp]

theorem parseEntry_congr (crc : Nat → List UInt8 → Nat) (path : String)
    (file2 file : List UInt8) (block_size D pos : Nat) (e2 e : UfifEntry)
    (hfile : ∀ p n, D ≤ p → readAt file2 p n = readAt file p n) (hpos : D ≤ pos)
    (hsize : e2.size = e.size) (hcrc : e2.crc32 = e.crc32) :
    parseEntry crc path file2 block_size pos e2 = parseEntry crc path file block_size pos e := by
  have hofs : D ≤ alignOffset pos := by
    unfold alignOffset
    split <;> omega
  unfold parseEntry
  simp only [hfile _ _ hofs, hsize, hcrc]

theorem le_alignOffset (pos : Nat) : pos ≤ alignOffset pos := by
  unfold alignOffset
  split <;> omega

theorem parseEntries_congr (crc : Nat → List UInt8 → Nat) (path : String)
    (file2 file : List UInt8) (block_size D : Nat)
    (hfile : ∀ p n, D ≤ p → readAt file2 p n = readAt file p n) :
    ∀ (es2 es : List UfifEntry),
      List.Forall₂ (fun e2 e => e2.size = e.size ∧ e2.crc32 = e.crc32) es2 es →
      ∀ pos, D ≤ pos →
        parseEntries crc path file2 block_size pos es2
          = parseEntries crc path file block_size pos es := by
  intro es2 es hrel
  induction hrel with
  | nil => intro pos _; rfl
  | cons hhead _ ih =>
    intro pos hpos
    unfold parseEntries
    rw [parseEntry_congr crc path file2 file block_size D pos _ _ hfile hpos hhead.1 hhead.2]
    split
    · rfl
    · next m pos2 hok =>
      have h2 : pos2 = alignOffset pos + _ := (parseEntry_ok hok).2.2.2.1
      have h3 := le_alignOffset pos
      rw [ih pos2 (by omega)]

theorem decodeUfifEntry_setEntryName (file : List UInt8) (k : Nat) (name : List UInt8)
    (hname : name.length = UFIF_NAME_MAX)
    (hlen : sizeofUfifFile + k * sizeofUfifEntry + UFIF_NAME_MAX ≤ file.length)
    (N i : Nat) (hi : i < N) :
    (decodeUfifEntry (slice (slice (setEntryName file k name) sizeofUfifFile
        (N * sizeofUfifEntry)) (i * sizeofUfifEntry) sizeofUfifEntry)).size
      = (decodeUfifEntry (slice (slice file sizeofUfifFile (N * sizeofUfifEntry))
        (i * sizeofUfifEntry) sizeofUfifEntry)).size ∧
    (decodeUfifEntry (slice (slice (setEntryName file k name) sizeofUfifFile
        (N * sizeofUfifEntry)) (i * sizeofUfifEntry) sizeofUfifEntry)).crc32
      = (decodeUfifEntry (slice (slice file sizeofUfifFile (N * sizeofUfifEntry))
        (i * sizeofUfifEntry) sizeofUfifEntry)).crc32 := by
  have hin : i * sizeofUfifEntry + sizeofUfifEntry ≤ N * sizeofUfifEntry := by
    have : (i + 1) * sizeofUfifEntry ≤ N * sizeofUfifEntry := Nat.mul_le_mul_right _ hi
    rw [Nat.add_mul, Nat.one_mul] at this
    exact this
  have hfield : ∀ b m, b + m ≤ sizeofUfifEntry → UFIF_NAME_MAX ≤ b →
      slice (slice (slice (setEntryName file k name) sizeofUfifFile (N * sizeofUfifEntry))
        (i * sizeofUfifEntry) sizeofUfifEntry) b m
      = slice (slice (slice file sizeofUfifFile (N * sizeofUfifEntry))
        (i * sizeofUfifEntry) sizeofUfifEntry) b m := by
    intro b m hb hb2
    rw [slice_slice _ _ _ _ _ hb, slice_slice _ _ _ _ _ hb,
      slice_slice _ _ _ _ _ (by omega), slice_slice _ _ _ _ _ (by omega)]
    apply setEntryName_slice file k name hname hlen
    simp only [sizeofUfifEntry, UFIF_NAME_MAX, sizeofUfifFile] at hb hb2 ⊢
    by_cases hik : i < k
    · left; omega
    · right; omega
  simp only [decodeUfifEntry]
  rw [hfield 64 4 (by decide) (by decide), hfield 68 4 (by decide) (by decide)]
  exact ⟨rfl, rfl⟩

theorem ParseUfifToModules_setEntryName (crc : Nat → List UInt8 → Nat) (path : String)
    (file : List UInt8) (block_size k : Nat) (name : List UInt8)
    (hname : name.length = UFIF_NAME_MAX)
    (hk : k < (decodeUfifFile (slice file 0 sizeofUfifFile)).entryN)
    (hdir : sizeofUfifFile + (decodeUfifFile (slice file 0 sizeofUfifFile)).entryN
      * sizeofUfifEntry ≤ file.length) :
    ParseUfifToModules crc path (some (setEntryName file k name)) block_size
      = ParseUfifToModules crc path (some file) block_size := by
  have hin : k * sizeofUfifEntry + sizeofUfifEntry
      ≤ (decodeUfifFile (slice file 0 sizeofUfifFile)).entryN * sizeofUfifEntry := by
    have : (k + 1) * sizeofUfifEntry
        ≤ (decodeUfifFile (slice file 0 sizeofUfifFile)).entryN * sizeofUfifEntry :=
      Nat.mul_le_mul_right _ hk
    rw [Nat.add_mul, Nat.one_mul] at this
    exact this
  have hlen : sizeofUfifFile + k * sizeofUfifEntry + UFIF_NAME_MAX ≤ file.length := by
    simp only [sizeofUfifEntry, UFIF_NAME_MAX, sizeofUfifFile] at hin hdir ⊢
    omega
  have hl2 := setEntryName_length file k name hname hlen
  have hhead : readAt (setEntryName file k name) 0 sizeofUfifFile = readAt file 0 sizeofUfifFile :=
    setEntryName_readAt file k name hname hlen 0 _ (Or.inl (by omega))
  have hfile : ∀ p n, sizeofUfifFile + (decodeUfifFile (slice file 0 sizeofUfifFile)).entryN
      * sizeofUfifEntry ≤ p → readAt (setEntryName file k name) p n = readAt file p n := by
    intro p n hp
    apply setEntryName_readAt file k name hname hlen
    right
    simp only [sizeofUfifEntry, UFIF_NAME_MAX, sizeofUfifFile] at hin hp ⊢
    omega
  have h0 : readAt file 0 sizeofUfifFile = some (slice file 0 sizeofUfifFile) := by
    unfold readAt
    rw [if_pos (by omega)]
  unfold ParseUfifToModules UfifReadHeader
  simp only [hhead, h0]
  split_ifs with hchk
  · rfl
  · unfold readAt
    rw [hl2]
    simp only [if_pos hdir]
    apply parseEntries_congr crc path _ file block_size _ hfile _ _ _ _ (le_refl _)
    rw [List.forall₂_map_left_iff, List.forall₂_map_right_iff, List.forall₂_same]
    intro i hi
    exact decodeUfifEntry_setEntryName file k name hname hlen _ i (List.mem_range.mp hi)

/-- C9 (as stated, refuted): `sampleContainer "OPFW" "OPFW" [0xAB]` is a
well-formed container that `ModulesFromFile` accepts; overwriting the name
field of its directory entry with `BOGUS`, which is not an allowed module name,
gives a container that `ModulesFromFile` accepts just the same: no validation
error is raised. -/
theorem ModulesFromFile_entry_name_counterexample :
    ModulesFromFile sampleCrc "fw.bin" (some (sampleContainer "OPFW" "OPFW" [0xAB]))
      = .ok sampleParsed ∧
    setEntryName (sampleContainer "OPFW" "OPFW" [0xAB]) 0 (asciiField "BOGUS" UFIF_NAME_MAX)
      = sampleContainer "BOGUS" "OPFW" [0xAB] ∧
    UfifReadHeader (sampleContainer "BOGUS" "OPFW" [0xAB])
      = .ok (sampleHeader, sampleEntries "BOGUS", 112) ∧
    "BOGUS" ∉ AllowedModules ∧
    ModulesFromFile sampleCrc "fw.bin" (some (sampleContainer "BOGUS" "OPFW" [0xAB]))
      = .ok sampleParsed := by
  refine ⟨by decide, rfl, by decide, by decide, by decide⟩

/-- C9 (amended): for every container whose directory lies inside the file,
overwriting the name field of a directory entry with any 64 bytes leaves the
result of `ModulesFromFile` unchanged: the parser never reads that field (the
name that is validated is the identifier of the module's digest header). -/
theorem ModulesFromFile_ignores_entry_name (crc : Nat → List UInt8 → Nat) (path : String)
    (file : List UInt8) (k : Nat) (name : List UInt8)
    (hname : name.length = UFIF_NAME_MAX)
    (hk : k < (decodeUfifFile (slice file 0 sizeofUfifFile)).entryN)
    (hdir : sizeofUfifFile + (decodeUfifFile (slice file 0 sizeofUfifFile)).entryN
      * sizeofUfifEntry ≤ file.length) :
    ModulesFromFile crc path (some (setEntryName file k name))
      = ModulesFromFile crc path (some file) := by
  unfold ModulesFromFile
  rw [ParseUfifToModules_setEntryName crc path file BlockSize k name hname hk hdir]

theorem ModulesFromFile_ignores_entry_name_witness :
    setEntryName (sampleContainer "OPFW" "OPFW" [0xAB]) 0 (asciiField "BOGUS" UFIF_NAME_MAX)
      = sampleContainer "BOGUS" "OPFW" [0xAB] ∧
    ModulesFromFile sampleCrc "fw.bin" (some (setEntryName (sampleContainer "OPFW" "OPFW" [0xAB]) 0
        (asciiField "BOGUS" UFIF_NAME_MAX)))
      = ModulesFromFile sampleCrc "fw.bin" (some (sampleContainer "OPFW" "OPFW" [0xAB])) :=
  ⟨rfl,
   ModulesFromFile_ignores_entry_name sampleCrc "fw.bin" (sampleContainer "OPFW" "OPFW" [0xAB]) 0
    (asciiField "BOGUS" UFIF_NAME_MAX) (by decide) (by decide) (by decide)⟩

/-! ## The container header check -/

theorem UfifCheckHeader_iff (header : UfifFile) :
    UfifCheckHeader header = true ↔ header.sig = 0x46484655 ∧ header.ver / 256 = 1 := by
  unfold UfifCheckHeader
  simp only [UFIF_SIG, UFIF_VER, Nat.shiftRight_eq_div_pow]
  split
  · next h =>
    constructor
    · intro h2; cases h2
    · rintro ⟨h1, h2⟩
      rcases h with h | h
      · exact absurd h1 h
      · exact absurd h2 h
  · next h =>
    simp only [not_or, not_not] at h
    exact ⟨fun _ => h, fun _ => rfl⟩

/-- C11: the 32 header bytes are accepted iff the signature they hold is
`0x46484655` and the high byte of the 16-bit version is `0x01` (the low byte is
free); for every other header `UfifReadHeader` fails with the validation error
whatever follows the header in the file (no directory entry is read), and so
does `ParseUfifToModules`: no module is parsed. -/
theorem UfifReadHeader_header_check (hbytes rest : List UInt8)
    (hlen : hbytes.length = sizeofUfifFile) :
    (UfifCheckHeader (decodeUfifFile hbytes) = true ↔
      (decodeUfifFile hbytes).sig = 0x46484655 ∧ (decodeUfifFile hbytes).ver / 256 = 0x01) ∧
    (UfifCheckHeader (decodeUfifFile hbytes) = true →
      ∀ e, UfifReadHeader (hbytes ++ rest) = .error e → e = .readEntriesFailed) ∧
    (¬ ((decodeUfifFile hbytes).sig = 0x46484655 ∧ (decodeUfifFile hbytes).ver / 256 = 0x01) →
      UfifReadHeader (hbytes ++ rest) = .error .invalidHeader ∧
      ∀ (crc : Nat → List UInt8 → Nat) (path : String) (block_size : Nat),
        ParseUfifToModules crc path (some (hbytes ++ rest)) block_size
          = .error .invalidHeader) := by
  have hread : readAt (hbytes ++ rest) 0 sizeofUfifFile = some hbytes := by
    unfold readAt slice
    rw [if_pos (by simp [hlen]), List.drop_zero, ← hlen, List.take_left]
  refine ⟨UfifCheckHeader_iff _, ?_, ?_⟩
  · intro hok e he
    unfold UfifReadHeader at he
    simp only [hread, hok, Bool.not_true, Bool.false_eq_true, if_false] at he
    split at he
    · cases he; rfl
    · cases he
  · intro hbad
    have hchk : UfifCheckHeader (decodeUfifFile hbytes) = false := by
      rw [Bool.eq_false_iff]
      exact fun h => hbad ((UfifCheckHeader_iff _).mp h)
    have h1 : UfifReadHeader (hbytes ++ rest) = .error .invalidHeader := by
      unfold UfifReadHeader
      simp only [hread, hchk, Bool.not_false, if_true]
    refine ⟨h1, ?_⟩
    intro crc path block_size
    unfold ParseUfifToModules
    simp only [h1]

theorem UfifReadHeader_header_check_witness :
    (UfifCheckHeader (decodeUfifFile (le32 0x46484655 ++ [0x7f, 0x02] ++ List.replicate 26 0))
        = true ↔
      (decodeUfifFile (le32 0x46484655 ++ [0x7f, 0x02] ++ List.replicate 26 0)).sig = 0x46484655 ∧
      (decodeUfifFile (le32 0x46484655 ++ [0x7f, 0x02] ++ List.replicate 26 0)).ver / 256
        = 0x01) ∧
    UfifReadHeader ((le32 0x46484655 ++ [0x7f, 0x02] ++ List.replicate 26 0) ++
      (sampleContainer "OPFW" "OPFW" [0xAB]).drop 32) = .error .invalidHeader ∧
    UfifCheckHeader (decodeUfifFile (le32 0x46484655 ++ [0x7f, 0x01] ++ List.replicate 26 0))
      = true :=
  ⟨(UfifReadHeader_header_check (le32 0x46484655 ++ [0x7f, 0x02] ++ List.replicate 26 0)
      ((sampleContainer "OPFW" "OPFW" [0xAB]).drop 32) (by decide)).1,
   ((UfifReadHeader_header_check (le32 0x46484655 ++ [0x7f, 0x02] ++ List.replicate 26 0)
      ((sampleContainer "OPFW" "OPFW" [0xAB]).drop 32) (by decide)).2.2 (by decide)).1,
   by decide⟩

/-! ## The digest header checks -/

theorem cstring_length_le (l : List UInt8) : ∀ n, l.getD n 0 = 0 → (cstring l).length ≤ n := by
  induction l with
  | nil => intro n _; simp [cstring]
  | cons b rest ih =>
    intro n h
    by_cases hb : b = 0
    · simp [cstring, hb]
    · cases n with
      | zero => simp at h; exact absurd h hb
      | succ n =>
        have hr : rest.getD n 0 = 0 := by simpa using h
        have := ih n hr
        have hb2 : (b != 0) = true := by simpa using hb
        simp only [cstring, List.takeWhile_cons, hb2, if_true, List.length_cons] at this ⊢
        omega

theorem mem_cstring_of_firstDotOrNul {l : List UInt8} (h : firstDotOrNul l = some 46) :
    (46 : UInt8) ∈ cstring l := by
  induction l with
  | nil => simp [firstDotOrNul] at h
  | cons b rest ih =>
    unfold firstDotOrNul at h
    rw [List.find?_cons] at h
    by_cases hb0 : b = 0
    · simp [hb0] at h
    · by_cases hb : b = 46
      · subst hb
        simp [cstring]
      · have hp : (b == 0 || b == 46) = false := by simp [hb0, hb]
        rw [hp] at h
        have := ih h
        have hb2 : (b != 0) = true := by simpa using hb0
        simp only [cstring, List.takeWhile_cons, hb2, if_true, List.mem_cons] at this ⊢
        exact Or.inr this

theorem toStdString_length (bs : List UInt8) : (toStdString bs).length = bs.length := by
  simp [toStdString, String.length]

theorem dot_mem_toStdString {bs : List UInt8} (h : (46 : UInt8) ∈ bs) :
    '.' ∈ (toStdString bs).toList := by
  simp only [toStdString, String.toList]
  exact List.mem_map.mpr ⟨46, h, by decide⟩

theorem parseEntries_getElem {crc : Nat → List UInt8 → Nat} {path : String}
    {content : List UInt8} {block_size pos : Nat} {entries : List UfifEntry}
    {ms : List ModuleInfo}
    (h : parseEntries crc path content block_size pos entries = .ok ms)
    {i : Nat} {m : ModuleInfo} (hm : ms[i]? = some m) :
    ∃ e p p2, entries[i]? = some e ∧
      parseEntry crc path content block_size p e = .ok (m, p2) ∧
      alignOffset p = payloadOffset pos entries i := by
  obtain ⟨hlen, hall⟩ := parseEntries_ok crc path content block_size entries pos ms h
  have hi : i < entries.length := by
    have := (List.getElem?_eq_some_iff.mp hm).1
    omega
  obtain ⟨p, p2, hp, hofs⟩ := hall i _ m (List.getElem?_eq_getElem hi) hm
  exact ⟨_, p, p2, List.getElem?_eq_getElem hi, hp, hofs⟩

/-- C12: with the directory `entries` read from the container, every module
that `ParseUfifToModules` returns comes from a digest header (the 512 bytes at
the entry's payload offset) whose 32-bit version has its high 16 bits equal to
0, whose identifier up to the first NUL is the module name and has at most 7
bytes, and whose version string holds a `.`; and a digest header whose 8th
identifier byte is not NUL, whose version high half is not 0, or whose version
string has no `.`, makes the parse return no module list. -/
theorem ParseUfifToModules_digest_checks (crc : Nat → List UInt8 → Nat) (path : String)
    (content : List UInt8) (block_size : Nat) (header : UfifFile) (entries : List UfifEntry)
    (pos : Nat) (hread : UfifReadHeader content = .ok (header, entries, pos)) :
    (∀ ms, ParseUfifToModules crc path (some content) block_size = .ok ms →
      ∀ (i : Nat) (m : ModuleInfo), ms[i]? = some m →
        digestVer (slice content (payloadOffset pos entries i) sizeofDigestHeader) >>> 16 = 0 ∧
        m.name = toStdString (cstring (digestId
          (slice content (payloadOffset pos entries i) sizeofDigestHeader))) ∧
        m.name.length ≤ 7 ∧
        m.version = toStdString (cstring (digestBinVerTail
          (slice content (payloadOffset pos entries i) sizeofDigestHeader))) ∧
        '.' ∈ m.version.toList) ∧
    ((∃ i, i < entries.length ∧
        ((digestId (slice content (payloadOffset pos entries i) sizeofDigestHeader)).getD 7 0 ≠ 0 ∨
         digestVer (slice content (payloadOffset pos entries i) sizeofDigestHeader) >>> 16 ≠ 0 ∨
         (46 : UInt8) ∉ cstring (digestBinVerTail
           (slice content (payloadOffset pos entries i) sizeofDigestHeader)))) →
      ∀ ms, ParseUfifToModules crc path (some content) block_size ≠ .ok ms) := by
  have hloop : ∀ ms, ParseUfifToModules crc path (some content) block_size = .ok ms →
      parseEntries crc path content block_size pos entries = .ok ms := by
    intro ms h
    obtain ⟨c2, h2, e2, p2, hc, hr, hl⟩ := ParseUfifToModules_ok h
    cases hc
    rw [hread] at hr
    simp only [Except.ok.injEq, Prod.mk.injEq] at hr
    obtain ⟨_, he, hp⟩ := hr
    rw [he, hp]
    exact hl
  have hfacts : ∀ ms, ParseUfifToModules crc path (some content) block_size = .ok ms →
      ∀ (i : Nat) (m : ModuleInfo), ms[i]? = some m →
        digestVer (slice content (payloadOffset pos entries i) sizeofDigestHeader) >>> 16 = 0 ∧
        (digestId (slice content (payloadOffset pos entries i) sizeofDigestHeader)).getD 7 0 = 0 ∧
        firstDotOrNul (digestBinVerTail
          (slice content (payloadOffset pos entries i) sizeofDigestHeader)) = some 46 ∧
        m.name = toStdString (cstring (digestId
          (slice content (payloadOffset pos entries i) sizeofDigestHeader))) ∧
        m.version = toStdString (cstring (digestBinVerTail
          (slice content (payloadOffset pos entries i) sizeofDigestHeader))) := by
    intro ms h i m hm
    obtain ⟨e, p, p2, _, hp, hofs⟩ := parseEntries_getElem (hloop ms h) hm
    obtain ⟨_, _, _, _, _, _, _, _, _, _, _, hdr, hhdr, hver, hid, hdot, hname, hversion⟩ :=
      parseEntry_ok hp
    obtain ⟨_, rfl⟩ := readAt_eq_some hhdr
    rw [hofs] at hver hid hdot hname hversion
    exact ⟨hver, hid, hdot, hname, hversion⟩
  constructor
  · intro ms h i m hm
    obtain ⟨hver, hid, hdot, hname, hversion⟩ := hfacts ms h i m hm
    refine ⟨hver, hname, ?_, hversion, ?_⟩
    · rw [hname, toStdString_length]
      exact cstring_length_le _ 7 hid
    · rw [hversion]
      exact dot_mem_toStdString (mem_cstring_of_firstDotOrNul hdot)
  · rintro ⟨i, hi, hbad⟩ ms h
    have hlen : ms.length = entries.length :=
      (parseEntries_ok crc path content block_size entries pos ms (hloop ms h)).1
    obtain ⟨hver, hid, hdot, _, _⟩ :=
      hfacts ms h i ms[i] (List.getElem?_eq_getElem (by omega))
    rcases hbad with hb | hb | hb
    · exact hb hid
    · exact hb hver
    · exact hb (mem_cstring_of_firstDotOrNul hdot)

theorem ParseUfifToModules_digest_checks_witness :
    UfifReadHeader (sampleContainer "OPFW" "OPFW" [0xAB])
      = .ok (sampleHeader, sampleEntries "OPFW", 112) ∧
    ParseUfifToModules sampleCrc "fw.bin" (some (sampleContainer "OPFW" "OPFW" [0xAB])) BlockSize
      = .ok sampleParsed ∧
    ("OPFW".length ≤ 7 ∧ '.' ∈ "0.0.0.1".toList) ∧
    ParseUfifToModules sampleCrc "fw.bin" (some (sampleContainer "OPFW" "OPFWOPFW" [0xAB]))
      BlockSize = .error .idNotTerminated :=
  ⟨by decide, by decide,
   ⟨((ParseUfifToModules_digest_checks sampleCrc "fw.bin" (sampleContainer "OPFW" "OPFW" [0xAB])
      BlockSize sampleHeader (sampleEntries "OPFW") 112 (by decide)).1 sampleParsed (by decide) 0
      _ rfl).2.2.1,
    ((ParseUfifToModules_digest_checks sampleCrc "fw.bin" (sampleContainer "OPFW" "OPFW" [0xAB])
      BlockSize sampleHeader (sampleEntries "OPFW") 112 (by decide)).1 sampleParsed (by decide) 0
      _ rfl).2.2.2.2⟩,
   by decide⟩

/-! ## `StateFromString` -/

/-- C13: `StateFromString` maps `"empty"`, `"active"`, `"active-updating"` and
`"pending"` to `Empty`, `Active`, `ActiveUpdating` and `Pending`, and throws for
every other string, such as another capitalisation or surrounding white space. -/
theorem StateFromString_spec :
    StateFromString "empty" = .ok .Empty ∧ StateFromString "active" = .ok .Active ∧
    StateFromString "active-updating" = .ok .ActiveUpdating ∧
    StateFromString "pending" = .ok .Pending ∧
    (∀ str : String, str ≠ "empty" → str ≠ "active" → str ≠ "active-updating" →
      str ≠ "pending" → StateFromString str = .error (.invalidInfoState str)) ∧
    StateFromString "Active" = .error (.invalidInfoState "Active") ∧
    StateFromString " empty" = .error (.invalidInfoState " empty") ∧
    StateFromString "pending\r" = .error (.invalidInfoState "pending\r") := by
  refine ⟨by decide, by decide, by decide, by decide, ?_, by decide, by decide, by decide⟩
  intro str h1 h2 h3 h4
  simp [StateFromString, h1, h2, h3, h4]

/-! ## `ModulesFromDevice` -/

theorem StateFromString_of_recognised {l : VersionLine} (h : l.recognised) :
    ∃ state, StateFromString (String.mk l.state) = .ok state := by
  unfold VersionLine.recognised at h
  simp only [List.mem_cons, List.mem_singleton, List.not_mem_nil, or_false] at h
  rcases h with h | h | h | h <;> rw [h]
  · exact ⟨.Empty, by decide⟩
  · exact ⟨.Active, by decide⟩
  · exact ⟨.ActiveUpdating, by decide⟩
  · exact ⟨.Pending, by decide⟩

theorem parseDlVerLines_eq (asserts : Bool) : ∀ (lines : List (List Char))
    (results : List ModuleVersionInfo),
    (∀ l ∈ lines.filterMap lineMatch, l.recognised) →
    (asserts = true → ∀ l ∈ lines.filterMap lineMatch, l.name1 = l.name2) →
    parseDlVerLines asserts lines results
      = .ok (results ++ ((lines.filterMap lineMatch).filterMap VersionLine.entry).filter
          (fun e => e.name ≠ "SCRAP")) := by
  intro lines
  induction lines with
  | nil => intro results _ _; simp [parseDlVerLines]
  | cons line rest ih =>
    intro results hrec hnames
    cases hm : lineMatch line with
    | none =>
      have hstep : parseDlVerLines asserts (line :: rest) results
          = parseDlVerLines asserts rest results := by
        unfold lineMatch at hm
        rw [parseDlVerLines]
        split
        · next m1 m2 m3 m4 hs => rw [hs] at hm; cases hm
        · rfl
      rw [hstep]
      simp only [List.filterMap_cons, hm] at hrec hnames ⊢
      exact ih results hrec hnames
    | some l =>
      simp only [List.filterMap_cons, hm, List.mem_cons, forall_eq_or_imp] at hrec hnames
      obtain ⟨state, hstate⟩ := StateFromString_of_recognised hrec.1
      have hentry : l.entry = some ⟨String.mk l.name2, String.mk l.version, state⟩ := by
        simp [VersionLine.entry, hstate]
      have hassert : (asserts && decide (l.name1 ≠ l.name2)) = false := by
        cases asserts with
        | false => rfl
        | true => simp [(hnames rfl).1]
      unfold lineMatch at hm
      rw [parseDlVerLines]
      split
      · next m1 m2 m3 m4 hs =>
        rw [hs] at hm
        simp only [Option.some.injEq] at hm
        subst hm
        simp only at hassert hstate hentry
        simp only [hassert, Bool.false_eq_true, if_false, hstate]
        by_cases hscrap : String.mk m2 = "SCRAP"
        · have hne : ¬ (String.mk m2 ≠ SCRAP) := by simpa [SCRAP] using hscrap
          rw [if_neg hne]
          rw [ih results hrec.2 (fun ha => (hnames ha).2)]
          simp [List.filterMap_cons, hentry, List.filter_cons, hscrap, lineMatch, hs]
        · have hne : String.mk m2 ≠ SCRAP := by simpa [SCRAP] using hscrap
          rw [if_pos hne]
          rw [ih _ hrec.2 (fun ha => (hnames ha).2)]
          simp [List.filterMap_cons, hentry, List.filter_cons, hscrap, lineMatch, hs]
      · next hno =>
        exfalso
        cases hr : regex_search rgx line with
        | none => rw [hr] at hm; cases hm
        | some caps =>
          rw [hr] at hm
          split at hm
          · next m1 m2 m3 m4 hs =>
            cases hs
            exact hno _ _ _ _ hr
          · cases hm

theorem bind_eq {σ α β : Type} (m : M σ α) (f : α → M σ β) (w : World σ) :
    (m >>= f) w = match m w with
      | .ok a w2 => f a w2
      | .exit e w2 => .exit e w2 := rfl

/-- For a device response in which each line matching
`NAME1 : [NAME2] [VERSION] (STATE)` carries a recognised state and, when the
asserts are compiled in, the same name twice, `ModulesFromDevice` returns, in
response order, one entry per matching line whose bracketed name is not
`SCRAP`, and throws iff that list is empty. -/
theorem ModulesFromDevice_listed {σ : Type} (C : Comm σ) (asserts : Bool) (w : World σ)
    (hstate : ∀ l ∈ matchingLines (dlverResponse C w.comm), l.recognised)
    (hnames : asserts = true →
      ∀ l ∈ matchingLines (dlverResponse C w.comm), l.name1 = l.name2) :
    (∀ e ∈ listedModules (dlverResponse C w.comm), e.name ≠ "SCRAP") ∧
    (listedModules (dlverResponse C w.comm) = [] →
      ModulesFromDevice C asserts w = .exit (.thrown .noModuleList) (afterDlver C w)) ∧
    (listedModules (dlverResponse C w.comm) ≠ [] →
      ModulesFromDevice C asserts w
        = .ok (listedModules (dlverResponse C w.comm)) (afterDlver C w)) := by
  have hparse := parseDlVerLines_eq asserts (getlines (dlverResponse C w.comm) []) [] hstate hnames
  simp only [List.nil_append] at hparse
  have hrun : ModulesFromDevice C asserts w =
      if (listedModules (dlverResponse C w.comm)).isEmpty then
        .exit (.thrown .noModuleList) (afterDlver C w)
      else .ok (listedModules (dlverResponse C w.comm)) (afterDlver C w) := by
    unfold dlverResponse at hparse
    simp only [ModulesFromDevice, bind, WriteCmd, sleep_for, GetScanPtr, hparse, ConsumeScanned]
    simp only [listedModules, matchingLines, dlverResponse, afterDlver, List.append_assoc,
      List.singleton_append]
    split <;> rfl
  refine ⟨?_, ?_, ?_⟩
  · intro e he
    have := (List.mem_filter.mp he).2
    simpa using this
  · intro h
    rw [hrun, h]
    rfl
  · intro h
    rw [hrun]
    have : (listedModules (dlverResponse C w.comm)).isEmpty = false := by
      cases hl : listedModules (dlverResponse C w.comm) with
      | nil => exact absurd hl h
      | cons a b => rfl
    rw [this]
    rfl

theorem ModulesFromDevice_listed_sample :
    listedModules (dlverResponse scriptedComm (scripted sampleDlver).comm)
      = [⟨"OPFW", "0.0.0.1", .Active⟩, ⟨"NNLED", "1.2", .Pending⟩] ∧
    ModulesFromDevice scriptedComm true (scripted sampleDlver)
      = .ok (listedModules (dlverResponse scriptedComm (scripted sampleDlver).comm))
          (afterDlver scriptedComm (scripted sampleDlver)) ∧
    ModulesFromDevice scriptedComm true
        (scripted ["dlver ack\n", "SCRAP : [SCRAP] [0.0.0.0] (empty)\n"])
      = .exit (.thrown .noModuleList)
          (afterDlver scriptedComm
            (scripted ["dlver ack\n", "SCRAP : [SCRAP] [0.0.0.0] (empty)\n"])) :=
  ⟨by decide,
   (ModulesFromDevice_listed scriptedComm true (scripted sampleDlver) (by decide)
      (fun _ => by decide)).2.2 (by decide),
   (ModulesFromDevice_listed scriptedComm true
      (scripted ["dlver ack\n", "SCRAP : [SCRAP] [0.0.0.0] (empty)\n"]) (by decide)
      (fun _ => by decide)).2.1 (by decide)⟩


theorem agreeingModules_eq_listedModules (response : List Char)
    (h : ∀ l ∈ matchingLines response, l.name1 = l.name2) :
    agreeingModules response = listedModules response := by
  have hf : (matchingLines response).filter VersionLine.namesAgree = matchingLines response :=
    List.filter_eq_self.mpr (fun l hl => by simp [VersionLine.namesAgree, h l hl])
  unfold agreeingModules listedModules
  rw [hf]

/-- C14 (the code diverges from the claim): the response
`FOO : [OPFW] [1.0] (active)` has one matching line, with a recognised state
but two different names, so no line of it has the form
`NAME : [NAME] [VERSION] (STATE)` with the same name twice: the claim's list is
empty and the call should fail. Built without the asserts, `ModulesFromDevice`
returns an entry `OPFW` for that line; built with them, it is aborted by
`assert(match[1] == match[2])` instead of throwing. -/
theorem ModulesFromDevice_names_not_compared :
    String.mk (dlverResponse scriptedComm (scripted mismatchDlver).comm)
      = "dlver ack\nFOO : [OPFW] [1.0] (active)\ndlver end\n" ∧
    (∀ l ∈ matchingLines (dlverResponse scriptedComm (scripted mismatchDlver).comm),
      l.recognised) ∧
    agreeingModules (dlverResponse scriptedComm (scripted mismatchDlver).comm) = [] ∧
    ModulesFromDevice scriptedComm false (scripted mismatchDlver)
      = .ok [⟨"OPFW", "1.0", .Active⟩] (afterDlver scriptedComm (scripted mismatchDlver)) ∧
    (ModulesFromDevice scriptedComm true (scripted mismatchDlver)).exit?
      = some .assertFailed := by
  refine ⟨by decide, by decide, by decide, by decide, by decide⟩
/-! ## Routines only add to the trace -/

theorem appends_pure {σ α : Type} (a : α) : Appends (pure a : M σ α) :=
  fun w => ⟨[], by simp [Pure.pure, Res.world]⟩

theorem appends_exitWith {σ α : Type} (e : Exit) : Appends (exitWith e : M σ α) :=
  fun w => ⟨[], by simp [FwUpdateF45x.exitWith, Res.world]⟩

theorem appends_throwErr {σ α : Type} (e : EngineError) : Appends (throwErr e : M σ α) :=
  appends_exitWith _

theorem appends_bind {σ α β : Type} {m : M σ α} {f : α → M σ β} (hm : Appends m)
    (hf : ∀ a, Appends (f a)) : Appends (m >>= f) := by
  intro w
  obtain ⟨a1, h1⟩ := hm w
  rw [bind_eq]
  cases hr : m w with
  | ok a w2 =>
    rw [hr] at h1
    obtain ⟨a2, h2⟩ := hf a w2
    refine ⟨a1 ++ a2, ?_⟩
    simp only [Res.world] at h1
    simp only [h2, h1, List.append_assoc]
  | exit e w2 =>
    rw [hr] at h1
    exact ⟨a1, h1⟩

theorem appends_WriteCmd {σ : Type} (C : Comm σ) (cmd : Cmd) (wr : Option Bool) :
    Appends (WriteCmd C cmd wr) := fun _ => ⟨_, rfl⟩

theorem appends_WriteBinary {σ : Type} (C : Comm σ) (bytes : List UInt8) :
    Appends (WriteBinary C bytes) := fun _ => ⟨_, rfl⟩

theorem appends_WaitForStr {σ : Type} (C : Comm σ) (str : String) (ms : Nat) :
    Appends (WaitForStr C str ms) := by
  intro w
  refine ⟨[.waitForStr str ms], ?_⟩
  unfold FwUpdateF45x.WaitForStr
  split <;> rfl

theorem appends_WaitForIdle {σ : Type} (C : Comm σ) : Appends (WaitForIdle C) :=
  fun _ => ⟨_, rfl⟩

theorem appends_GetScanPtr {σ : Type} (C : Comm σ) : Appends (GetScanPtr C) :=
  fun w => ⟨[], by simp [FwUpdateF45x.GetScanPtr, Res.world]⟩

theorem appends_ConsumeScanned {σ : Type} (C : Comm σ) : Appends (ConsumeScanned C) :=
  fun _ => ⟨_, rfl⟩

theorem appends_StopReaderThread {σ : Type} (C : Comm σ) : Appends (StopReaderThread C) :=
  fun _ => ⟨_, rfl⟩

theorem appends_sleep_for {σ : Type} (C : Comm σ) (ms : Nat) : Appends (sleep_for C ms) :=
  fun _ => ⟨_, rfl⟩

theorem appends_tick {σ : Type} : Appends (tick : M σ Unit) := fun _ => ⟨_, rfl⟩

theorem appends_callGetBlockUpdateList {σ : Type} (C : Comm σ) (asserts : Bool) (fuel : Nat)
    (module : ModuleInfo) (force_full : Bool) :
    Appends (callGetBlockUpdateList C asserts fuel module force_full) := by
  unfold FwUpdateF45x.callGetBlockUpdateList
  refine appends_bind (appends_GetScanPtr C) (fun logBuf => ?_)
  split
  · exact appends_exitWith _
  · exact appends_exitWith _
  · exact appends_exitWith _
  · exact appends_bind (appends_ConsumeScanned C) (fun _ => appends_pure _)

theorem appends_ParseDlResponse {σ : Type} (C : Comm σ) (name : String) (blkNo sz : Nat) :
    Appends (ParseDlResponse C name blkNo sz) := by
  unfold FwUpdateF45x.ParseDlResponse
  exact appends_bind (appends_GetScanPtr C) (fun _ =>
    appends_bind (appends_ConsumeScanned C) (fun _ => appends_pure _))

theorem appends_ParseDlBlockResult {σ : Type} (C : Comm σ) : Appends (ParseDlBlockResult C) := by
  unfold FwUpdateF45x.ParseDlBlockResult
  refine appends_bind (appends_GetScanPtr C) (fun logBuf => ?_)
  split
  · exact appends_bind (appends_ConsumeScanned C) (fun _ => appends_pure _)
  · split
    · exact appends_bind (appends_ConsumeScanned C) (fun _ => appends_pure _)
    · exact appends_bind (appends_ConsumeScanned C) (fun _ => appends_pure _)

theorem appends_burnBlock {σ : Type} (C : Comm σ) (module : ModuleInfo) (buffer : List UInt8)
    (i : Nat) (block : BlockInfo) : Appends (burnBlock C module buffer i block) := by
  unfold FwUpdateF45x.burnBlock
  refine appends_bind (appends_WriteCmd C _ _) (fun _ =>
    appends_bind (appends_WaitForIdle C) (fun _ =>
      appends_bind (appends_ParseDlResponse C _ _ _) (fun dlAck => ?_)))
  split
  · exact appends_throwErr _
  · split
    · exact appends_exitWith _
    · refine appends_bind (appends_WriteBinary C _) (fun _ =>
        appends_bind (appends_WaitForStr C _ _) (fun _ =>
          appends_bind (appends_ParseDlBlockResult C) (fun dlErr => ?_)))
      split
      · exact appends_throwErr _
      · exact appends_tick

theorem appends_burnBlocks {σ : Type} (C : Comm σ) (module : ModuleInfo) (buffer : List UInt8)
    (block_update_list : List Bool) :
    ∀ todo i, Appends (burnBlocks C module buffer block_update_list todo i) := by
  intro todo
  induction todo with
  | zero => intro i; exact appends_pure _
  | succ n ih =>
    intro i
    unfold FwUpdateF45x.burnBlocks
    split
    · split
      · exact ih _
      · exact appends_bind (appends_burnBlock C _ _ _ _) (fun _ => ih _)
    · exact appends_exitWith _

theorem appends_burnVerify {σ : Type} (C : Comm σ) (asserts : Bool) (fuel : Nat)
    (module : ModuleInfo) (is_last : Bool) :
    Appends (burnVerify C asserts fuel module is_last) := by
  unfold FwUpdateF45x.burnVerify
  refine appends_bind (appends_WriteCmd C _ _) (fun _ =>
    appends_bind (appends_WaitForStr C _ _) (fun _ =>
      appends_bind (appends_callGetBlockUpdateList C _ _ _ _) (fun l => ?_)))
  split
  · exact appends_throwErr _
  · split
    · exact appends_bind (appends_StopReaderThread C) (fun _ => appends_WriteCmd C _ _)
    · exact appends_bind (appends_WriteCmd C _ _) (fun _ => appends_WaitForStr C _ _)

/-! ## The phases of `BurnModule` -/

theorem GetBlockUpdateList_length {asserts : Bool} {fuel : Nat} {module : ModuleInfo}
    {logBuf : List Char} {force_full : Bool} {rv : List Bool}
    (h : GetBlockUpdateList asserts fuel module logBuf force_full = some (.returned rv)) :
    rv.length = module.blocks.length := by
  unfold GetBlockUpdateList at h
  split at h
  · cases h
    simp
  · exact (scanLoop_sound fuel _ _ rv (scanStart_suffix logBuf) (by simp)
      (fun i hi => by
        have hmem : false ∈ List.replicate module.blocks.length true := by
          rw [List.mem_iff_getElem?]; exact ⟨i, hi⟩
        simp at hmem) h).1

theorem callGetBlockUpdateList_length {σ : Type} {C : Comm σ} {asserts : Bool} {fuel : Nat}
    {module : ModuleInfo} {force_full : Bool} {w w2 : World σ} {rv : List Bool}
    (h : callGetBlockUpdateList C asserts fuel module force_full w = .ok rv w2) :
    rv.length = module.blocks.length := by
  unfold callGetBlockUpdateList at h
  rw [bind_eq] at h
  simp only [GetScanPtr] at h
  cases hg : GetBlockUpdateList asserts fuel module (C.GetScanPtr w.comm) force_full with
  | none => rw [hg] at h; cases h
  | some o =>
    rw [hg] at h
    cases o with
    | assertFailed => cases h
    | undefined => cases h
    | returned rv2 =>
      simp only [bind_eq, ConsumeScanned, Pure.pure] at h
      cases h
      exact GetBlockUpdateList_length hg

theorem burnQuery_length {σ : Type} {C : Comm σ} {asserts : Bool} {fuel : Nat}
    {module : ModuleInfo} {force_full : Bool} {w w1 : World σ} {version_info : ModuleVersionInfo}
    {block_update_list : List Bool}
    (h : burnQuery C asserts fuel module force_full w = .ok (version_info, block_update_list) w1) :
    block_update_list.length = module.blocks.length := by
  unfold burnQuery at h
  rw [bind_eq] at h
  split at h
  · rw [bind_eq] at h
    split at h
    · rw [bind_eq] at h
      split at h
      · rw [bind_eq] at h
        split at h
        · next rv w5 hc =>
          have hl := callGetBlockUpdateList_length hc
          split at h
          · cases h
          · simp only [Pure.pure] at h
            cases h
            exact hl
        · cases h
      · cases h
    · cases h
  · cases h

theorem tickTimes_eq {σ : Type} : ∀ (n : Nat) (w : World σ),
    (tickTimes n : M σ Unit) w
      = .ok () { comm := w.comm, trace := w.trace ++ List.replicate n .tick } := by
  intro n
  induction n with
  | zero => intro w; simp [tickTimes, Pure.pure]
  | succ k ih =>
    intro w
    unfold tickTimes
    rw [bind_eq]
    simp only [tick]
    rw [ih]
    simp [List.replicate_succ]

theorem burnSkip_eq {σ : Type} (C : Comm σ) (module : ModuleInfo) (is_last : Bool)
    (w : World σ) :
    burnSkip C module is_last w
      = .ok () { comm := if is_last then
                    C.WriteCmd (.dlact true) (some false) (C.StopReaderThread w.comm)
                  else w.comm,
                 trace := w.trace ++ List.replicate module.blocks.length .tick ++
                   if is_last then [.stopReaderThread, .writeCmd (.dlact true) (some false)]
                   else [] } := by
  unfold burnSkip
  rw [bind_eq, tickTimes_eq]
  cases is_last
  · simp [Pure.pure]
  · simp only [if_true]
    rw [bind_eq]
    simp [StopReaderThread, WriteCmd]

theorem BurnModule_eq {σ : Type} {C : Comm σ} {asserts : Bool} {fuel : Nat}
    {module : ModuleInfo} {force_full : Bool} {w w1 : World σ} {version_info : ModuleVersionInfo}
    {block_update_list : List Bool} (buffer : List UInt8) (is_first is_last : Bool)
    (h : burnQuery C asserts fuel module force_full w = .ok (version_info, block_update_list) w1) :
    BurnModule C asserts fuel module buffer is_first is_last force_full w
      = if true ∉ block_update_list ∧ version_info.state = .Active then
          burnSkip C module is_last w1
        else
          match burnTransfer C module buffer is_first
              (transferList version_info block_update_list) w1 with
          | .ok _ w2 => burnVerify C asserts fuel module is_last w2
          | .exit e w2 => .exit e w2 := by
  unfold BurnModule
  rw [bind_eq, h]
  simp only
  by_cases hc : true ∉ block_update_list ∧ version_info.state = .Active
  · rw [if_pos hc]
    have h0 : block_update_list.count true = 0 := List.count_eq_zero.mpr hc.1
    simp [h0, hc.2]
  · rw [if_neg hc]
    have hb : (!decide (block_update_list.count true > 0) && decide (version_info.state = .Active))
        = false := by
      by_cases h1 : true ∈ block_update_list
      · have : 0 < block_update_list.count true := List.count_pos_iff.mpr h1
        simp [this]
      · have h2 : version_info.state ≠ .Active := fun h2 => hc ⟨h1, h2⟩
        simp [h2]
    rw [hb]
    simp only [Bool.false_eq_true, if_false]
    rw [bind_eq]
    generalize burnTransfer C module buffer is_first
      (transferList version_info block_update_list) w1 = r
    cases r <;> rfl

theorem burnTransfer_starts {σ : Type} (C : Comm σ) (module : ModuleInfo) (buffer : List UInt8)
    (is_first : Bool) (block_update_list : List Bool) (w : World σ) :
    ∃ rest, (burnTransfer C module buffer is_first block_update_list w).world.trace
      = w.trace ++ .writeCmd
          (.dlinit module.name module.version module.size is_first module.crc BlockSize) none
          :: rest := by
  unfold burnTransfer
  rw [bind_eq]
  simp only [WriteCmd]
  have happ : Appends (do
      sleep_for C 50
      let logBuf ← GetScanPtr C
      ConsumeScanned C
      if (strstr logBuf "err ".toList).isSome then do
        WriteCmd C (.dlact true) (some false)
        throwErr .dlInitErr
      else do
        WriteBinary C (blkCrcBytes module)
        ConsumeScanned C
        burnBlocks C module buffer block_update_list module.blocks.length 0 : M σ Unit) := by
    refine appends_bind (appends_sleep_for C _) (fun _ =>
      appends_bind (appends_GetScanPtr C) (fun logBuf =>
        appends_bind (appends_ConsumeScanned C) (fun _ => ?_)))
    split
    · exact appends_bind (appends_WriteCmd C _ _) (fun _ => appends_throwErr _)
    · exact appends_bind (appends_WriteBinary C _) (fun _ =>
        appends_bind (appends_ConsumeScanned C) (fun _ => appends_burnBlocks C _ _ _ _ _))
  obtain ⟨added, hadd⟩ := happ
    { comm := C.WriteCmd
        (.dlinit module.name module.version module.size is_first module.crc BlockSize) none w.comm,
      trace := w.trace ++ [.writeCmd
        (.dlinit module.name module.version module.size is_first module.crc BlockSize) none] }
  refine ⟨added, ?_⟩
  rw [hadd]
  simp

/-! ## C15: the skip path of `BurnModule` -/

/-- C15: let the first part of `BurnModule` (module state and reconciler's
list) end in `w1` with `version_info` and `block_update_list`. If the list has
no `true` entry and the state is `Active`, `BurnModule` returns having added to
the trace exactly `module.blocks.size()` ticks and then, for the last module
only, the stop of the reader thread and the final activation command: no
session-open, no block-write, no binary payload. In every other case the next
event after the first part is the session-open command `dlinit`, so the skip
path is not taken. -/
theorem BurnModule_skip_path {σ : Type} (C : Comm σ) (asserts : Bool) (fuel : Nat)
    (module : ModuleInfo) (buffer : List UInt8) (is_first is_last force_full : Bool)
    (w w1 : World σ) (version_info : ModuleVersionInfo) (block_update_list : List Bool)
    (hq : burnQuery C asserts fuel module force_full w
      = .ok (version_info, block_update_list) w1) :
    ((true ∉ block_update_list ∧ version_info.state = .Active) →
      BurnModule C asserts fuel module buffer is_first is_last force_full w
        = .ok () { comm := if is_last then
                      C.WriteCmd (.dlact true) (some false) (C.StopReaderThread w1.comm)
                    else w1.comm,
                   trace := w1.trace ++ List.replicate module.blocks.length .tick ++
                     if is_last then [.stopReaderThread, .writeCmd (.dlact true) (some false)]
                     else [] }) ∧
    (¬(true ∉ block_update_list ∧ version_info.state = .Active) →
      ∃ rest, (BurnModule C asserts fuel module buffer is_first is_last force_full w).world.trace
        = w1.trace ++ .writeCmd
            (.dlinit module.name module.version module.size is_first module.crc BlockSize) none
            :: rest) := by
  constructor
  · intro hc
    rw [BurnModule_eq buffer is_first is_last hq, if_pos hc, burnSkip_eq]
  · intro hc
    rw [BurnModule_eq buffer is_first is_last hq, if_neg hc]
    obtain ⟨r1, h1⟩ := burnTransfer_starts C module buffer is_first
      (transferList version_info block_update_list) w1
    cases ht : burnTransfer C module buffer is_first
        (transferList version_info block_update_list) w1 with
    | ok a w2 =>
      rw [ht] at h1
      simp only [Res.world] at h1
      obtain ⟨r2, h2⟩ := appends_burnVerify C asserts fuel module is_last w2
      refine ⟨r1 ++ r2, ?_⟩
      simp only [h2, h1, List.append_assoc, List.cons_append]
    | exit e w2 =>
      rw [ht] at h1
      exact ⟨r1, h1⟩

theorem BurnModule_skip_path_witness :
    burnQuery scriptedComm true 10 sampleModule5 false
        (scripted (burnScript "active" tableAllOk [] tableAllOk))
      = .ok (⟨"OPFW", "0.0.0.1", .Active⟩, List.replicate 5 false)
          (burnQuery scriptedComm true 10 sampleModule5 false
            (scripted (burnScript "active" tableAllOk [] tableAllOk))).world ∧
    (true ∉ List.replicate 5 false ∧
      (⟨"OPFW", "0.0.0.1", .Active⟩ : ModuleVersionInfo).state = .Active) ∧
    BurnModule scriptedComm true 10 sampleModule5 sampleBuffer5 true true false
        (scripted (burnScript "active" tableAllOk [] tableAllOk))
      = .ok () { comm := if true then
                    scriptedComm.WriteCmd (.dlact true) (some false)
                      (scriptedComm.StopReaderThread
                        (burnQuery scriptedComm true 10 sampleModule5 false
                          (scripted (burnScript "active" tableAllOk [] tableAllOk))).world.comm)
                  else (burnQuery scriptedComm true 10 sampleModule5 false
                          (scripted (burnScript "active" tableAllOk [] tableAllOk))).world.comm,
                 trace := (burnQuery scriptedComm true 10 sampleModule5 false
                     (scripted (burnScript "active" tableAllOk [] tableAllOk))).world.trace ++
                   List.replicate sampleModule5.blocks.length .tick ++
                   if true then [.stopReaderThread, .writeCmd (.dlact true) (some false)]
                   else [] } ∧
    sentCmds (BurnModule scriptedComm true 10 sampleModule5 sampleBuffer5 true true false
        (scripted (burnScript "active" tableAllOk [] tableAllOk))).world.trace
      = [.dlver, .dlinfo "OPFW", .dlact true] ∧
    sentBinary (BurnModule scriptedComm true 10 sampleModule5 sampleBuffer5 true true false
        (scripted (burnScript "active" tableAllOk [] tableAllOk))).world.trace = [] ∧
    (BurnModule scriptedComm true 10 sampleModule5 sampleBuffer5 true true false
        (scripted (burnScript "active" tableAllOk [] tableAllOk))).world.trace.count .tick = 5 :=
  ⟨by rfl, by decide,
    (BurnModule_skip_path scriptedComm true 10 sampleModule5 sampleBuffer5 true true false
      _ _ _ _ (by rfl)).1 (by decide), by decide!, by decide!, by decide!⟩

/-! ## C20: `CleanObsoleteModules` -/

/-- C20: `CleanObsoleteModules` returns, and what it adds to the trace is, for
each device module `d` in device-list order whose state is not `Empty`, whose
name is not `"OPFW"` and whose name no file module has, the zero-size
declaration `dlsize(d.name, 0)` (sent without waiting for a response) followed
by a wait for idle, and nothing for any other module; so no `dlsize` for
`OPFW` is ever sent, whatever the file modules are. -/
theorem CleanObsoleteModules_spec {σ : Type} (C : Comm σ) (file_modules : List ModuleInfo)
    (device_modules : List ModuleVersionInfo) (w : World σ) :
    ∃ w2 added, CleanObsoleteModules C file_modules device_modules w = .ok () w2 ∧
      w2.trace = w.trace ++ added ∧
      added = (device_modules.filter fun d =>
          decide (d.state ≠ .Empty ∧ d.name ≠ "OPFW" ∧ ∀ f ∈ file_modules, f.name ≠ d.name)).flatMap
        (fun d => [.writeCmd (.dlsize d.name 0) (some false), .waitForIdle]) ∧
      ∀ size wait_response, Event.writeCmd (.dlsize "OPFW" size) wait_response ∉ added := by
  have key : ∀ (dm : List ModuleVersionInfo) (w : World σ),
      ∃ w2, CleanObsoleteModules C file_modules dm w = .ok () w2 ∧
        w2.trace = w.trace ++ (dm.filter fun d =>
          decide (d.state ≠ .Empty ∧ d.name ≠ "OPFW" ∧ ∀ f ∈ file_modules, f.name ≠ d.name)).flatMap
        (fun d => [.writeCmd (.dlsize d.name 0) (some false), .waitForIdle]) := by
    intro dm
    induction dm with
    | nil => intro w; exact ⟨w, rfl, by simp⟩
    | cons d rest ih =>
      intro w
      unfold CleanObsoleteModules
      by_cases h1 : d.state = .Empty ∨ d.name = OPFW
      · rw [if_pos h1]
        obtain ⟨w2, h2, h3⟩ := ih w
        refine ⟨w2, h2, ?_⟩
        have hf : decide (d.state ≠ .Empty ∧ d.name ≠ "OPFW" ∧
            ∀ f ∈ file_modules, f.name ≠ d.name) = false := by
          rw [decide_eq_false_iff_not]
          rintro ⟨a, b, _⟩
          rcases h1 with h1 | h1
          · exact a h1
          · exact b h1
        simp only [List.filter_cons, hf, Bool.false_eq_true, if_false]
        exact h3
      · rw [if_neg h1]
        have h1a : d.state ≠ .Empty := fun h => h1 (Or.inl h)
        have h1b : d.name ≠ "OPFW" := fun h => h1 (Or.inr h)
        by_cases h2 : ∀ f ∈ file_modules, f.name ≠ d.name
        · have hany : (file_modules.any fun file_module => file_module.name == d.name) = false := by
            rw [List.any_eq_false]
            intro f hf
            simpa using h2 f hf
          simp only [hany, Bool.not_false, if_true]
          rw [bind_eq]
          simp only [WriteCmd]
          rw [bind_eq]
          simp only [WaitForIdle]
          obtain ⟨w2, h3, h4⟩ := ih
            { comm := C.WaitForIdle (C.WriteCmd (.dlsize d.name 0) (some false) w.comm),
              trace := w.trace ++ [.writeCmd (.dlsize d.name 0) (some false)] ++ [.waitForIdle] }
          refine ⟨w2, h3, ?_⟩
          have ht : decide (d.state ≠ .Empty ∧ d.name ≠ "OPFW" ∧
              ∀ f ∈ file_modules, f.name ≠ d.name) = true :=
            decide_eq_true ⟨h1a, h1b, h2⟩
          simp only [List.filter_cons, ht, if_true]
          rw [h4]
          simp
        · have hany : (file_modules.any fun file_module => file_module.name == d.name) = true := by
            rw [List.any_eq_true]
            push_neg at h2
            obtain ⟨f, hf, hn⟩ := h2
            exact ⟨f, hf, by simpa using hn⟩
          simp only [hany, Bool.not_true, Bool.false_eq_true, if_false]
          obtain ⟨w2, h3, h4⟩ := ih w
          refine ⟨w2, h3, ?_⟩
          have hf : decide (d.state ≠ .Empty ∧ d.name ≠ "OPFW" ∧
              ∀ f ∈ file_modules, f.name ≠ d.name) = false := by
            rw [decide_eq_false_iff_not]
            rintro ⟨_, _, c⟩
            exact h2 c
          simp only [List.filter_cons, hf, Bool.false_eq_true, if_false]
          exact h4
  obtain ⟨w2, h2, h3⟩ := key device_modules w
  refine ⟨w2, _, h2, h3, rfl, ?_⟩
  intro size wait_response hmem
  rw [List.mem_flatMap] at hmem
  obtain ⟨d, hd, he⟩ := hmem
  rw [List.mem_filter] at hd
  have hname : d.name ≠ "OPFW" := (of_decide_eq_true hd.2).2.1
  simp only [List.mem_cons, Event.writeCmd.injEq, Cmd.dlsize.injEq, reduceCtorEq,
    List.not_mem_nil, or_false] at he
  exact hname he.1.1.symm

/-! ## The transfer loop -/

theorem sentCmds_append (a b : List Event) : sentCmds (a ++ b) = sentCmds a ++ sentCmds b := by
  simp [sentCmds, List.filterMap_append]

theorem sentBinary_append (a b : List Event) :
    sentBinary (a ++ b) = sentBinary a ++ sentBinary b := by
  simp [sentBinary, List.filterMap_append]

theorem blockWrites_append (a b : List Event) :
    blockWrites (a ++ b) = blockWrites a ++ blockWrites b := by
  simp [blockWrites, List.filterMap_append]

theorem ParseDlResponse_eq {σ : Type} (C : Comm σ) (name : String) (blkNo sz : Nat)
    (w : World σ) :
    ParseDlResponse C name blkNo sz w
      = .ok (strstr (C.GetScanPtr w.comm) (dlAckStr name blkNo sz)).isSome
          { comm := C.ConsumeScanned w.comm, trace := w.trace ++ [.consumeScanned] } := rfl

theorem ParseDlBlockResult_cases {σ : Type} (C : Comm σ) (w : World σ) :
    (∃ b, ParseDlBlockResult C w
      = .ok b { comm := C.ConsumeScanned w.comm, trace := w.trace ++ [.consumeScanned] }) ∨
    ParseDlBlockResult C w = .exit .undefined w := by
  unfold ParseDlBlockResult
  rw [bind_eq]
  simp only [GetScanPtr]
  cases strstr (C.GetScanPtr w.comm) "dl ret=".toList with
  | none => exact Or.inl ⟨false, rfl⟩
  | some p =>
    simp only
    cases scanInt (p.drop 7) with
    | noMatch => exact Or.inl ⟨false, rfl⟩
    | value result => exact Or.inl ⟨result == 0, rfl⟩

theorem burnBlock_cases {σ : Type} (C : Comm σ) (module : ModuleInfo) (buffer : List UInt8)
    (i : Nat) (block : BlockInfo) (w : World σ) :
    (∃ e w2, burnBlock C module buffer i block w = .exit e w2 ∧
      sentCmds w2.trace = sentCmds w.trace ++ [.dl i] ∧
      blockWrites w2.trace = blockWrites w.trace ++ [i]) ∨
    (∃ w2, burnBlock C module buffer i block w = .ok () w2 ∧
      sentCmds w2.trace = sentCmds w.trace ++ [.dl i] ∧
      blockWrites w2.trace = blockWrites w.trace ++ [i] ∧
      sentBinary w2.trace = sentBinary w.trace ++ [slice buffer block.offset block.size] ∧
      w2.trace.count .tick = w.trace.count .tick + 1) := by
  unfold burnBlock
  rw [bind_eq]
  simp only [WriteCmd]
  rw [bind_eq]
  simp only [WaitForIdle]
  rw [bind_eq, ParseDlResponse_eq]
  simp only
  split
  · left
    exact ⟨_, _, rfl, by simp [sentCmds_append, sentCmds], by simp [blockWrites_append, blockWrites]⟩
  · split
    · left
      exact ⟨_, _, rfl, by simp [sentCmds_append, sentCmds],
        by simp [blockWrites_append, blockWrites]⟩
    · rw [bind_eq]
      simp only [WriteBinary]
      rw [bind_eq]
      simp only [WaitForStr]
      cases C.WaitForStr "dl ret=" (2000 * BlockSize / (64 * 1024))
          (C.WriteBinary (slice buffer block.offset block.size)
            (C.ConsumeScanned (C.WaitForIdle (C.WriteCmd (.dl i) none w.comm)))) with
      | none =>
        left
        exact ⟨_, _, rfl, by simp [sentCmds_append, sentCmds],
          by simp [blockWrites_append, blockWrites]⟩
      | some c =>
        simp only
        rw [bind_eq]
        rcases ParseDlBlockResult_cases C
          { comm := c, trace := w.trace ++ [.writeCmd (.dl i) none] ++ [.waitForIdle] ++
              [.consumeScanned] ++ [.writeBinary (slice buffer block.offset block.size)] ++
              [.waitForStr "dl ret=" (2000 * BlockSize / (64 * 1024))] } with ⟨b, hb⟩ | hb
        · rw [hb]
          simp only
          split
          · left
            exact ⟨_, _, rfl, by simp [sentCmds_append, sentCmds],
              by simp [blockWrites_append, blockWrites]⟩
          · right
            refine ⟨_, rfl, by simp [sentCmds_append, sentCmds],
              by simp [blockWrites_append, blockWrites],
              by simp [sentBinary_append, sentBinary], ?_⟩
            simp [List.count_append]
        · rw [hb]
          left
          exact ⟨_, _, rfl, by simp [sentCmds_append, sentCmds],
            by simp [blockWrites_append, blockWrites]⟩

/-! ## Routines that transfer nothing -/

theorem quiet_pure {σ α : Type} (a : α) : Quiet (pure a : M σ α) :=
  fun w => ⟨[], by simp [Pure.pure, Res.world], by simp⟩

theorem quiet_exitWith {σ α : Type} (e : Exit) : Quiet (exitWith e : M σ α) :=
  fun w => ⟨[], by simp [FwUpdateF45x.exitWith, Res.world], by simp⟩

theorem quiet_throwErr {σ α : Type} (e : EngineError) : Quiet (throwErr e : M σ α) :=
  quiet_exitWith _

theorem quiet_bind {σ α β : Type} {m : M σ α} {f : α → M σ β} (hm : Quiet m)
    (hf : ∀ a, Quiet (f a)) : Quiet (m >>= f) := by
  intro w
  obtain ⟨a1, h1, p1⟩ := hm w
  rw [bind_eq]
  cases hr : m w with
  | ok a w2 =>
    rw [hr] at h1
    obtain ⟨a2, h2, p2⟩ := hf a w2
    refine ⟨a1 ++ a2, ?_, ?_⟩
    · simp only [Res.world] at h1
      simp only [h2, h1, List.append_assoc]
    · intro e he
      rcases List.mem_append.mp he with he | he
      · exact p1 e he
      · exact p2 e he
  | exit e w2 =>
    rw [hr] at h1
    exact ⟨a1, h1, p1⟩

theorem quiet_single {σ α : Type} {m : M σ α} (e : Event)
    (h : ∀ w, (m w).world.trace = w.trace ++ [e]) (he : e.isTransfer = false ∧ e ≠ .tick) :
    Quiet m := by
  intro w
  refine ⟨[e], h w, ?_⟩
  intro e2 h2
  rw [List.mem_singleton] at h2
  rw [h2]
  exact he

theorem quiet_WriteCmd {σ : Type} (C : Comm σ) (cmd : Cmd) (wr : Option Bool)
    (h : ∀ i, cmd ≠ .dl i) : Quiet (WriteCmd C cmd wr) := by
  refine quiet_single (.writeCmd cmd wr) (fun _ => rfl) ⟨?_, by simp⟩
  cases cmd <;> first | rfl | exact absurd rfl (h _)

theorem quiet_WaitForStr {σ : Type} (C : Comm σ) (str : String) (ms : Nat) :
    Quiet (WaitForStr C str ms) := by
  refine quiet_single (.waitForStr str ms) (fun w => ?_) ⟨rfl, by simp⟩
  unfold FwUpdateF45x.WaitForStr
  split <;> rfl

theorem quiet_GetScanPtr {σ : Type} (C : Comm σ) : Quiet (GetScanPtr C) :=
  fun w => ⟨[], by simp [FwUpdateF45x.GetScanPtr, Res.world], by simp⟩

theorem quiet_ConsumeScanned {σ : Type} (C : Comm σ) : Quiet (ConsumeScanned C) :=
  quiet_single .consumeScanned (fun _ => rfl) ⟨rfl, by simp⟩

theorem quiet_StopReaderThread {σ : Type} (C : Comm σ) : Quiet (StopReaderThread C) :=
  quiet_single .stopReaderThread (fun _ => rfl) ⟨rfl, by simp⟩

theorem quiet_callGetBlockUpdateList {σ : Type} (C : Comm σ) (asserts : Bool) (fuel : Nat)
    (module : ModuleInfo) (force_full : Bool) :
    Quiet (callGetBlockUpdateList C asserts fuel module force_full) := by
  unfold FwUpdateF45x.callGetBlockUpdateList
  refine quiet_bind (quiet_GetScanPtr C) (fun logBuf => ?_)
  split
  · exact quiet_exitWith _
  · exact quiet_exitWith _
  · exact quiet_exitWith _
  · exact quiet_bind (quiet_ConsumeScanned C) (fun _ => quiet_pure _)

theorem quiet_burnVerify {σ : Type} (C : Comm σ) (asserts : Bool) (fuel : Nat)
    (module : ModuleInfo) (is_last : Bool) :
    Quiet (burnVerify C asserts fuel module is_last) := by
  unfold FwUpdateF45x.burnVerify
  refine quiet_bind (quiet_WriteCmd C _ _ (by simp)) (fun _ =>
    quiet_bind (quiet_WaitForStr C _ _) (fun _ =>
      quiet_bind (quiet_callGetBlockUpdateList C _ _ _ _) (fun l => ?_)))
  split
  · exact quiet_throwErr _
  · split
    · exact quiet_bind (quiet_StopReaderThread C) (fun _ => quiet_WriteCmd C _ _ (by simp))
    · exact quiet_bind (quiet_WriteCmd C _ _ (by simp)) (fun _ => quiet_WaitForStr C _ _)

theorem quiet_traces {σ α : Type} {m : M σ α} (h : Quiet m) (w : World σ) :
    blockWrites (m w).world.trace = blockWrites w.trace ∧
    sentBinary (m w).world.trace = sentBinary w.trace ∧
    (m w).world.trace.count .tick = w.trace.count .tick := by
  obtain ⟨added, ha, hp⟩ := h w
  rw [ha, blockWrites_append, sentBinary_append, List.count_append]
  have h1 : blockWrites added = [] := by
    unfold blockWrites
    rw [List.filterMap_eq_nil_iff]
    intro e he
    have := (hp e he).1
    cases e with
    | writeCmd cmd wr => cases cmd <;> first | rfl | simp [Event.isTransfer] at this
    | _ => rfl
  have h2 : sentBinary added = [] := by
    unfold sentBinary
    rw [List.filterMap_eq_nil_iff]
    intro e he
    have := (hp e he).1
    cases e with
    | writeBinary b => simp [Event.isTransfer] at this
    | _ => rfl
  have h3 : added.count .tick = 0 := by
    rw [List.count_eq_zero]
    intro hmem
    exact (hp _ hmem).2 rfl
  rw [h1, h2, h3]
  simp

/-! ## The transfer loop as a whole -/

theorem flaggedFrom_succ_true {block_update_list : List Bool} {i : Nat} (todo : Nat)
    (h : block_update_list[i]? = some true) :
    flaggedFrom block_update_list i (todo + 1) = i :: flaggedFrom block_update_list (i + 1) todo := by
  unfold flaggedFrom
  rw [List.range'_succ, List.filter_cons]
  simp [h]

theorem flaggedFrom_succ_false {block_update_list : List Bool} {i : Nat} (todo : Nat)
    (h : block_update_list[i]? = some false) :
    flaggedFrom block_update_list i (todo + 1) = flaggedFrom block_update_list (i + 1) todo := by
  unfold flaggedFrom
  rw [List.range'_succ, List.filter_cons]
  simp [h]

theorem flaggedFrom_zero (block_update_list : List Bool) (n : Nat) :
    flaggedFrom block_update_list 0 n
      = (List.range n).filter fun j => block_update_list[j]? = some true := by
  unfold flaggedFrom
  rw [List.range_eq_range']

theorem burnBlocks_succ {σ : Type} (C : Comm σ) (module : ModuleInfo) (buffer : List UInt8)
    (block_update_list : List Bool) (todo i : Nat) :
    burnBlocks C module buffer block_update_list (todo + 1) i
      = match block_update_list[i]?, module.blocks[i]? with
        | some should_update_block, some block =>
          if !should_update_block then burnBlocks C module buffer block_update_list todo (i + 1)
          else do
            burnBlock C module buffer i block
            burnBlocks C module buffer block_update_list todo (i + 1)
        | _, _ => exitWith .undefined := rfl

theorem burnBlocks_trace {σ : Type} (C : Comm σ) (module : ModuleInfo) (buffer : List UInt8)
    (block_update_list : List Bool) : ∀ (todo i : Nat) (w : World σ),
    ∃ l, l <+: flaggedFrom block_update_list i todo ∧
      sentCmds (burnBlocks C module buffer block_update_list todo i w).world.trace
        = sentCmds w.trace ++ l.map .dl ∧
      blockWrites (burnBlocks C module buffer block_update_list todo i w).world.trace
        = blockWrites w.trace ++ l ∧
      ∀ w2, burnBlocks C module buffer block_update_list todo i w = .ok () w2 →
        l = flaggedFrom block_update_list i todo ∧
        sentBinary w2.trace = sentBinary w.trace ++
          (flaggedFrom block_update_list i todo).map (blockPayload module buffer) ∧
        w2.trace.count .tick
          = w.trace.count .tick + (flaggedFrom block_update_list i todo).length := by
  intro todo
  induction todo with
  | zero =>
    intro i w
    refine ⟨[], List.nil_prefix, by simp [burnBlocks, Pure.pure, Res.world],
      by simp [burnBlocks, Pure.pure, Res.world], ?_⟩
    intro w2 h
    simp only [burnBlocks, Pure.pure] at h
    cases h
    simp [flaggedFrom]
  | succ n ih =>
    intro i w
    rw [burnBlocks_succ]
    cases hL : block_update_list[i]? with
    | none =>
      refine ⟨[], List.nil_prefix, by simp [exitWith, Res.world], by simp [exitWith, Res.world], ?_⟩
      intro w2 h
      cases h
    | some flag =>
      cases hB : module.blocks[i]? with
      | none =>
        refine ⟨[], List.nil_prefix, by simp [exitWith, Res.world],
          by simp [exitWith, Res.world], ?_⟩
        intro w2 h
        cases h
      | some block =>
        simp only
        cases flag with
        | false =>
          simp only [Bool.not_false, if_true]
          rw [flaggedFrom_succ_false n hL]
          exact ih (i + 1) w
        | true =>
          simp only [Bool.not_true, Bool.false_eq_true, if_false]
          rw [flaggedFrom_succ_true n hL, bind_eq]
          have hpay : blockPayload module buffer i = slice buffer block.offset block.size := by
            simp [blockPayload, hB]
          rcases burnBlock_cases C module buffer i block w with
            ⟨e, w2, hr, hc, hb⟩ | ⟨w2, hr, hc, hb, hbin, htick⟩
          · rw [hr]
            refine ⟨[i], ⟨_, rfl⟩, by simpa [Res.world] using hc, by simpa [Res.world] using hb, ?_⟩
            intro w3 h
            cases h
          · rw [hr]
            simp only
            obtain ⟨l, hpre, h1, h2, h3⟩ := ih (i + 1) w2
            refine ⟨i :: l, (List.prefix_cons_inj i).mpr hpre, ?_, ?_, ?_⟩
            · rw [h1, hc]; simp
            · rw [h2, hb]; simp
            · intro w3 h
              obtain ⟨e1, e2, e3⟩ := h3 w3 h
              refine ⟨by rw [e1], ?_, ?_⟩
              · rw [e2, hbin, List.map_cons, hpay]; simp
              · rw [e3, htick, List.length_cons]; omega

theorem burnTransfer_trace {σ : Type} (C : Comm σ) (module : ModuleInfo) (buffer : List UInt8)
    (is_first : Bool) (block_update_list : List Bool) (w : World σ) :
    ∃ l, l <+: flaggedFrom block_update_list 0 module.blocks.length ∧
      blockWrites (burnTransfer C module buffer is_first block_update_list w).world.trace
        = blockWrites w.trace ++ l ∧
      ∀ w2, burnTransfer C module buffer is_first block_update_list w = .ok () w2 →
        l = flaggedFrom block_update_list 0 module.blocks.length ∧
        sentCmds w2.trace = sentCmds w.trace ++
          .dlinit module.name module.version module.size is_first module.crc BlockSize ::
            (flaggedFrom block_update_list 0 module.blocks.length).map .dl ∧
        sentBinary w2.trace = sentBinary w.trace ++ blkCrcBytes module ::
          (flaggedFrom block_update_list 0 module.blocks.length).map (blockPayload module buffer) ∧
        w2.trace.count .tick = w.trace.count .tick +
          (flaggedFrom block_update_list 0 module.blocks.length).length := by
  unfold burnTransfer
  rw [bind_eq]
  simp only [WriteCmd]
  rw [bind_eq]
  simp only [sleep_for]
  rw [bind_eq]
  simp only [GetScanPtr]
  rw [bind_eq]
  simp only [ConsumeScanned]
  split
  · refine ⟨[], List.nil_prefix, ?_, ?_⟩
    · rw [bind_eq]
      simp [FwUpdateF45x.WriteCmd, throwErr, exitWith, Res.world, blockWrites_append, blockWrites]
    · intro w2 h
      rw [bind_eq] at h
      simp only [FwUpdateF45x.WriteCmd, throwErr, exitWith] at h
      cases h
  · rw [bind_eq]
    simp only [WriteBinary]
    rw [bind_eq]
    simp only [ConsumeScanned]
    obtain ⟨l, hpre, h1, h2, h3⟩ := burnBlocks_trace C module buffer block_update_list
      module.blocks.length 0
      { comm := C.ConsumeScanned (C.WriteBinary (blkCrcBytes module)
          (C.ConsumeScanned (C.elapse 50 (C.WriteCmd
            (.dlinit module.name module.version module.size is_first module.crc BlockSize)
            none w.comm)))),
        trace := w.trace ++ [.writeCmd
            (.dlinit module.name module.version module.size is_first module.crc BlockSize) none]
          ++ [.sleep 50] ++ [.consumeScanned] ++ [.writeBinary (blkCrcBytes module)]
          ++ [.consumeScanned] }
    refine ⟨l, hpre, ?_, ?_⟩
    · rw [h2]
      simp [blockWrites_append, blockWrites]
    · intro w2 h
      obtain ⟨e1, e2, e3⟩ := h3 w2 h
      rw [h] at h1
      simp only [Res.world] at h1
      refine ⟨e1, ?_, ?_, ?_⟩
      · rw [h1, e1]
        simp [sentCmds_append, sentCmds]
      · rw [e2]
        simp [sentBinary_append, sentBinary]
      · rw [e3]
        simp [List.count_append]

theorem ModulesFromDevice_ok {σ : Type} {C : Comm σ} {asserts : Bool} {w w2 : World σ}
    {modules : List ModuleVersionInfo} (h : ModulesFromDevice C asserts w = .ok modules w2) :
    w2 = afterDlver C w := by
  unfold ModulesFromDevice at h
  rw [bind_eq] at h
  simp only [WriteCmd] at h
  rw [bind_eq] at h
  simp only [sleep_for] at h
  rw [bind_eq] at h
  simp only [GetScanPtr] at h
  cases hp : parseDlVerLines asserts (getlines (C.GetScanPtr (C.elapse 200
      (C.WriteCmd .dlver (some true) w.comm))) []) [] with
  | error e => rw [hp] at h; cases h
  | ok results =>
    rw [hp] at h
    simp only at h
    rw [bind_eq] at h
    simp only [ConsumeScanned] at h
    split at h
    · cases h
    · simp only [Pure.pure] at h
      cases h
      simp [afterDlver]

theorem ModuleFromDevice_ok {σ : Type} {C : Comm σ} {asserts : Bool} {module_name : String}
    {w w2 : World σ} {version_info : ModuleVersionInfo}
    (h : ModuleFromDevice C asserts module_name w = .ok version_info w2) :
    w2 = afterDlver C w := by
  unfold ModuleFromDevice at h
  rw [bind_eq] at h
  cases hm : ModulesFromDevice C asserts w with
  | exit e w3 => rw [hm] at h; cases h
  | ok modules w3 =>
    rw [hm] at h
    simp only at h
    have h3 := ModulesFromDevice_ok hm
    cases hf : modules.find? (fun module => module.name == module_name) with
    | none => rw [hf] at h; cases h
    | some module =>
      rw [hf] at h
      simp only [Pure.pure] at h
      cases h
      exact h3

theorem callGetBlockUpdateList_ok {σ : Type} {C : Comm σ} {asserts : Bool} {fuel : Nat}
    {module : ModuleInfo} {force_full : Bool} {w w2 : World σ} {rv : List Bool}
    (h : callGetBlockUpdateList C asserts fuel module force_full w = .ok rv w2) :
    GetBlockUpdateList asserts fuel module (C.GetScanPtr w.comm) force_full = some (.returned rv) ∧
    w2 = { comm := C.ConsumeScanned w.comm, trace := w.trace ++ [.consumeScanned] } := by
  unfold callGetBlockUpdateList at h
  rw [bind_eq] at h
  simp only [GetScanPtr] at h
  cases hg : GetBlockUpdateList asserts fuel module (C.GetScanPtr w.comm) force_full with
  | none => rw [hg] at h; cases h
  | some o =>
    rw [hg] at h
    cases o with
    | assertFailed => cases h
    | undefined => cases h
    | returned rv2 =>
      simp only [bind_eq, ConsumeScanned, Pure.pure] at h
      cases h
      exact ⟨rfl, rfl⟩

theorem burnQuery_ok {σ : Type} {C : Comm σ} {asserts : Bool} {fuel : Nat}
    {module : ModuleInfo} {force_full : Bool} {w w1 : World σ} {version_info : ModuleVersionInfo}
    {block_update_list : List Bool}
    (h : burnQuery C asserts fuel module force_full w = .ok (version_info, block_update_list) w1) :
    w1.trace = w.trace ++ [.writeCmd .dlver (some true), .sleep 200, .consumeScanned,
      .writeCmd (.dlinfo module.name) none, .waitForStr "dlinfo end" 1000, .consumeScanned] := by
  unfold burnQuery at h
  rw [bind_eq] at h
  cases hm : ModuleFromDevice C asserts module.name w with
  | exit e w3 => rw [hm] at h; cases h
  | ok vi w3 =>
    rw [hm] at h
    simp only at h
    have h3 := ModuleFromDevice_ok hm
    rw [bind_eq] at h
    simp only [WriteCmd] at h
    rw [bind_eq] at h
    cases hw : WaitForStr C "dlinfo end" 1000
        { comm := C.WriteCmd (.dlinfo module.name) none w3.comm,
          trace := w3.trace ++ [.writeCmd (.dlinfo module.name) none] } with
    | exit e w4 => rw [hw] at h; cases h
    | ok u w4 =>
      rw [hw] at h
      simp only at h
      have h4 : w4.trace = w3.trace ++ [.writeCmd (.dlinfo module.name) none] ++
          [.waitForStr "dlinfo end" 1000] := by
        unfold WaitForStr at hw
        split at hw
        · cases hw; rfl
        · cases hw
      rw [bind_eq] at h
      cases hc : callGetBlockUpdateList C asserts fuel module force_full w4 with
      | exit e w5 => rw [hc] at h; cases h
      | ok rv w5 =>
        rw [hc] at h
        simp only at h
        have h5 := (callGetBlockUpdateList_ok hc).2
        split at h
        · cases h
        · simp only [Pure.pure] at h
          cases h
          rw [h5]
          simp only [h4, h3, afterDlver]
          simp

/-! ## The update path of `BurnModule` -/

theorem flaggedFrom_replicate (n : Nat) :
    flaggedFrom (List.replicate n true) 0 n = List.range n := by
  rw [flaggedFrom_zero, List.filter_eq_self]
  intro j hj
  rw [List.mem_range] at hj
  simp [List.getElem?_replicate, hj]

theorem transferList_of_ne {version_info : ModuleVersionInfo} {block_update_list : List Bool}
    (n : Nat) (hlen : block_update_list.length = n) (h : version_info.state ≠ .ActiveUpdating) :
    transferList version_info block_update_list = List.replicate n true := by
  unfold transferList
  rw [if_pos h, ← hlen]
  exact List.map_const' block_update_list true

theorem transferList_of_eq {version_info : ModuleVersionInfo} {block_update_list : List Bool}
    (h : version_info.state = .ActiveUpdating) :
    transferList version_info block_update_list = block_update_list := by
  unfold transferList
  rw [if_neg (fun hn => hn h)]

theorem BurnModule_update {σ : Type} {C : Comm σ} {asserts : Bool} {fuel : Nat}
    {module : ModuleInfo} {force_full : Bool} {w w1 : World σ} {version_info : ModuleVersionInfo}
    {block_update_list : List Bool} (buffer : List UInt8) (is_first is_last : Bool)
    (hq : burnQuery C asserts fuel module force_full w = .ok (version_info, block_update_list) w1)
    (hskip : ¬(true ∉ block_update_list ∧ version_info.state = .Active)) :
    ∃ l, l <+: flaggedFrom (transferList version_info block_update_list) 0 module.blocks.length ∧
      blockWrites (BurnModule C asserts fuel module buffer is_first is_last force_full w).world.trace
        = blockWrites w.trace ++ l ∧
      ∀ w2, burnTransfer C module buffer is_first
          (transferList version_info block_update_list) w1 = .ok () w2 →
        l = flaggedFrom (transferList version_info block_update_list) 0 module.blocks.length ∧
        BurnModule C asserts fuel module buffer is_first is_last force_full w
          = burnVerify C asserts fuel module is_last w2 ∧
        sentCmds w2.trace = sentCmds w.trace ++ [.dlver, .dlinfo module.name,
            .dlinit module.name module.version module.size is_first module.crc BlockSize] ++
          l.map .dl ∧
        sentBinary
            (BurnModule C asserts fuel module buffer is_first is_last force_full w).world.trace
          = sentBinary w.trace ++ blkCrcBytes module :: l.map (blockPayload module buffer) ∧
        (BurnModule C asserts fuel module buffer is_first is_last force_full w).world.trace.count
            .tick
          = w.trace.count .tick + l.length := by
  have hw1 := burnQuery_ok hq
  have hb1 : blockWrites w1.trace = blockWrites w.trace := by
    rw [hw1]; simp [blockWrites_append, blockWrites]
  have hs1 : sentBinary w1.trace = sentBinary w.trace := by
    rw [hw1]; simp [sentBinary_append, sentBinary]
  have hc1 : sentCmds w1.trace = sentCmds w.trace ++ [.dlver, .dlinfo module.name] := by
    rw [hw1]; simp [sentCmds_append, sentCmds]
  have ht1 : w1.trace.count .tick = w.trace.count .tick := by
    rw [hw1]; simp [List.count_append]
  obtain ⟨l, hpre, h1, h2⟩ := burnTransfer_trace C module buffer is_first
    (transferList version_info block_update_list) w1
  refine ⟨l, hpre, ?_, ?_⟩
  · rw [BurnModule_eq buffer is_first is_last hq, if_neg hskip]
    cases ht : burnTransfer C module buffer is_first
        (transferList version_info block_update_list) w1 with
    | ok a w2 =>
      rw [ht] at h1
      simp only [Res.world] at h1
      simp only
      rw [(quiet_traces (quiet_burnVerify C asserts fuel module is_last) w2).1, h1, hb1]
    | exit e w2 =>
      rw [ht] at h1
      simp only [Res.world] at h1
      simp only [Res.world]
      rw [h1, hb1]
  · intro w2 ht
    obtain ⟨e1, e2, e3, e4⟩ := h2 w2 ht
    have hrun : BurnModule C asserts fuel module buffer is_first is_last force_full w
        = burnVerify C asserts fuel module is_last w2 := by
      rw [BurnModule_eq buffer is_first is_last hq, if_neg hskip, ht]
    have hv := quiet_traces (quiet_burnVerify C asserts fuel module is_last) w2
    refine ⟨e1, hrun, ?_, ?_, ?_⟩
    · rw [e2, hc1, e1]; simp
    · rw [hrun, hv.2.1, e3, hs1, e1]
    · rw [hrun, hv.2.2, e4, ht1, e1]

/-! ## C16: the full transfer for a module that is not mid-update -/

/-- C16, counterexample to the claim as worded: the module is reported
`pending`, the reconciler's list has `true` entries (no skip), the device
answers the session-open command with an error; `BurnModule` throws
"DL init returned err" and has issued no block-write at all, for a module of
five blocks. -/
theorem BurnModule_full_transfer_counterexample :
    (burnQuery scriptedComm true 10 sampleModule5 false dlinitErrRun).value?
      = some (⟨"OPFW", "0.0.0.1", .Pending⟩, [false, false, true, true, true]) ∧
    (BurnModule scriptedComm true 10 sampleModule5 sampleBuffer5 true true false
        dlinitErrRun).exit? = some (.thrown .dlInitErr) ∧
    blockWrites (BurnModule scriptedComm true 10 sampleModule5 sampleBuffer5 true true false
        dlinitErrRun).world.trace = [] ∧
    sampleModule5.blocks.length = 5 := by
  decide!

/-- C16, amended: when `BurnModule` does not skip and the device state of the
module is not `ActiveUpdating`, the transfer loop works with the all-`true`
list whatever the reconciler returned; the block-writes of the run are an
initial segment of `0, 1, ..., n-1`, and all of `0, ..., n-1`, each once and
in order, when the transfer phase is not aborted (the session is opened
without error and every block is acknowledged and accepted). -/
theorem BurnModule_full_transfer {σ : Type} (C : Comm σ) (asserts : Bool) (fuel : Nat)
    (module : ModuleInfo) (buffer : List UInt8) (is_first is_last force_full : Bool)
    (w w1 : World σ) (version_info : ModuleVersionInfo) (block_update_list : List Bool)
    (hq : burnQuery C asserts fuel module force_full w
      = .ok (version_info, block_update_list) w1)
    (hskip : ¬(true ∉ block_update_list ∧ version_info.state = .Active))
    (hstate : version_info.state ≠ .ActiveUpdating) :
    transferList version_info block_update_list = List.replicate module.blocks.length true ∧
    ∃ l, l <+: List.range module.blocks.length ∧
      blockWrites (BurnModule C asserts fuel module buffer is_first is_last force_full w).world.trace
        = blockWrites w.trace ++ l ∧
      ((∃ w2, burnTransfer C module buffer is_first
          (List.replicate module.blocks.length true) w1 = .ok () w2) →
        l = List.range module.blocks.length) := by
  have hT := transferList_of_ne module.blocks.length (burnQuery_length hq) hstate
  refine ⟨hT, ?_⟩
  obtain ⟨l, hpre, h1, h2⟩ := BurnModule_update buffer is_first is_last hq hskip
  rw [hT, flaggedFrom_replicate] at hpre
  refine ⟨l, hpre, h1, ?_⟩
  rintro ⟨w2, ht⟩
  rw [hT] at h2
  rw [(h2 w2 ht).1, flaggedFrom_replicate]

theorem BurnModule_full_transfer_witness :
    burnQuery scriptedComm true 10 sampleModule5 false pendingRun
      = .ok (⟨"OPFW", "0.0.0.1", .Pending⟩, [false, false, true, true, true])
          (burnQuery scriptedComm true 10 sampleModule5 false pendingRun).world ∧
    blockWrites (BurnModule scriptedComm true 10 sampleModule5 sampleBuffer5 true false false
        pendingRun).world.trace = [0, 1, 2, 3, 4] ∧
    (transferList ⟨"OPFW", "0.0.0.1", .Pending⟩ [false, false, true, true, true]
        = List.replicate sampleModule5.blocks.length true ∧
      ∃ l, l <+: List.range sampleModule5.blocks.length ∧
        blockWrites (BurnModule scriptedComm true 10 sampleModule5 sampleBuffer5 true false false
            pendingRun).world.trace = blockWrites pendingRun.trace ++ l ∧
        ((∃ w2, burnTransfer scriptedComm sampleModule5 sampleBuffer5 true
            (List.replicate sampleModule5.blocks.length true)
            (burnQuery scriptedComm true 10 sampleModule5 false pendingRun).world = .ok () w2) →
          l = List.range sampleModule5.blocks.length)) :=
  ⟨by decide!, by decide!,
    BurnModule_full_transfer scriptedComm true 10 sampleModule5 sampleBuffer5 true false false
      pendingRun (burnQuery scriptedComm true 10 sampleModule5 false pendingRun).world
      ⟨"OPFW", "0.0.0.1", .Pending⟩ [false, false, true, true, true] (by decide!)
      (by decide) (by decide)⟩

/-! ## C17: the partial transfer for a module that is mid-update -/

/-- C17: when the device reports the module `ActiveUpdating` and the transfer
phase is left normally (the session is opened without error and every block
written is acknowledged and accepted), the block-write commands of the whole
`BurnModule` run are exactly the indices `i < n` that the reconciler's list
flags, each once and in strictly ascending order, and the binary payloads of
the run are the table of block CRCs that opens the session followed by exactly
the bytes `buffer[offset .. offset + size)` of those blocks, in the same
order. -/
theorem BurnModule_partial_transfer {σ : Type} (C : Comm σ) (asserts : Bool) (fuel : Nat)
    (module : ModuleInfo) (buffer : List UInt8) (is_first is_last force_full : Bool)
    (w w1 w2 : World σ) (version_info : ModuleVersionInfo) (block_update_list : List Bool)
    (hq : burnQuery C asserts fuel module force_full w
      = .ok (version_info, block_update_list) w1)
    (hstate : version_info.state = .ActiveUpdating)
    (ht : burnTransfer C module buffer is_first block_update_list w1 = .ok () w2) :
    ((List.range module.blocks.length).filter
      (fun i => block_update_list[i]? = some true)).Pairwise (fun i j => i < j) ∧
    blockWrites (BurnModule C asserts fuel module buffer is_first is_last force_full w).world.trace
      = blockWrites w.trace ++ (List.range module.blocks.length).filter
          (fun i => block_update_list[i]? = some true) ∧
    sentBinary (BurnModule C asserts fuel module buffer is_first is_last force_full w).world.trace
      = sentBinary w.trace ++ blkCrcBytes module ::
          ((List.range module.blocks.length).filter
            (fun i => block_update_list[i]? = some true)).map (blockPayload module buffer) ∧
    ∀ i block, module.blocks[i]? = some block →
      blockPayload module buffer i = slice buffer block.offset block.size := by
  have hskip : ¬(true ∉ block_update_list ∧ version_info.state = .Active) := by
    rintro ⟨_, h⟩
    rw [hstate] at h
    cases h
  obtain ⟨l, _, h1, h2⟩ := BurnModule_update buffer is_first is_last hq hskip
  rw [transferList_of_eq hstate] at h2
  obtain ⟨e1, _, _, e4, _⟩ := h2 w2 ht
  rw [flaggedFrom_zero] at e1
  refine ⟨?_, ?_, ?_, ?_⟩
  · exact List.Pairwise.filter _ (List.pairwise_lt_range _)
  · rw [h1, e1]
  · rw [e4, e1]
  · intro i block hb
    simp [blockPayload, hb]

theorem BurnModule_partial_transfer_witness :
    burnQuery scriptedComm true 10 sampleModule5 false resumeRun
      = .ok (⟨"OPFW", "0.0.0.1", .ActiveUpdating⟩, [false, false, true, true, true])
          (burnQuery scriptedComm true 10 sampleModule5 false resumeRun).world ∧
    (List.range sampleModule5.blocks.length).filter
        (fun i => [false, false, true, true, true][i]? = some true) = [2, 3, 4] ∧
    (BurnModule scriptedComm true 10 sampleModule5 sampleBuffer5 true true false
        resumeRun).exit? = none ∧
    blockWrites (BurnModule scriptedComm true 10 sampleModule5 sampleBuffer5 true true false
        resumeRun).world.trace
      = blockWrites resumeRun.trace ++ (List.range sampleModule5.blocks.length).filter
          (fun i => [false, false, true, true, true][i]? = some true) ∧
    sentBinary (BurnModule scriptedComm true 10 sampleModule5 sampleBuffer5 true true false
        resumeRun).world.trace
      = sentBinary resumeRun.trace ++ blkCrcBytes sampleModule5 ::
          ((List.range sampleModule5.blocks.length).filter
            (fun i => [false, false, true, true, true][i]? = some true)).map
              (blockPayload sampleModule5 sampleBuffer5) :=
  have h := BurnModule_partial_transfer scriptedComm true 10 sampleModule5 sampleBuffer5
    true true false resumeRun (burnQuery scriptedComm true 10 sampleModule5 false resumeRun).world
    (burnTransfer scriptedComm sampleModule5 sampleBuffer5 true [false, false, true, true, true]
      (burnQuery scriptedComm true 10 sampleModule5 false resumeRun).world).world
    ⟨"OPFW", "0.0.0.1", .ActiveUpdating⟩ [false, false, true, true, true]
    (by decide!) (by decide) (by decide!)
  ⟨by decide!, by decide, by decide!, h.2.1, h.2.2.1⟩

/-! ## C18: the progress ticks of the update path -/

theorem BurnModule_tick_count {σ : Type} (C : Comm σ) (asserts : Bool) (fuel : Nat)
    (module : ModuleInfo) (buffer : List UInt8) (is_first is_last force_full : Bool)
    (w w1 w3 : World σ) (version_info : ModuleVersionInfo) (block_update_list : List Bool)
    (hq : burnQuery C asserts fuel module force_full w
      = .ok (version_info, block_update_list) w1)
    (hskip : ¬(true ∉ block_update_list ∧ version_info.state = .Active))
    (hrun : BurnModule C asserts fuel module buffer is_first is_last force_full w = .ok () w3) :
    w3.trace.count .tick = w.trace.count .tick +
      ((List.range module.blocks.length).filter
        (fun i => (transferList version_info block_update_list)[i]? = some true)).length := by
  obtain ⟨l, _, _, h2⟩ := BurnModule_update buffer is_first is_last hq hskip
  cases ht : burnTransfer C module buffer is_first
      (transferList version_info block_update_list) w1 with
  | exit e w2 =>
    rw [BurnModule_eq buffer is_first is_last hq, if_neg hskip, ht] at hrun
    cases hrun
  | ok a w2 =>
    obtain ⟨e1, _, _, _, e5⟩ := h2 w2 ht
    rw [hrun] at e5
    simp only [Res.world] at e5
    rw [e5, e1, flaggedFrom_zero]

/-- C18 fails on the update path: the device reports the module
`active-updating` with blocks 0 and 1 of its five blocks up to date, and
acknowledges and accepts blocks 2, 3 and 4; `BurnModule` returns without
error, having written exactly these three blocks, and the progress tick has
been called 3 times, not 5: the two blocks passed over as up to date get no
tick. -/
theorem BurnModule_ticks_transferred_only :
    (burnQuery scriptedComm true 10 sampleModule5 false resumeRun).value?
      = some (⟨"OPFW", "0.0.0.1", .ActiveUpdating⟩, [false, false, true, true, true]) ∧
    (BurnModule scriptedComm true 10 sampleModule5 sampleBuffer5 true true false
        resumeRun).exit? = none ∧
    blockWrites (BurnModule scriptedComm true 10 sampleModule5 sampleBuffer5 true true false
        resumeRun).world.trace = [2, 3, 4] ∧
    sampleModule5.blocks.length = 5 ∧
    (BurnModule scriptedComm true 10 sampleModule5 sampleBuffer5 true true false
        resumeRun).world.trace.count .tick = 3 := by
  decide!

/-! ## C19: the verification after the transfer -/

/-- C19: let `BurnModule` not skip and leave the transfer loop normally in
`w2`. If the block table then arrives (`"dlinfo end"` is seen within 3000 ms)
and the reconciler, called with `force_full = false` on that fresh report,
returns a list with a `true` entry, `BurnModule` throws "Update failed"; after
the loop it has only sent the block-table query, waited and consumed the
report: no block-write and no payload is added, and no activation command,
final or not, is among the commands of the run. -/
theorem BurnModule_update_failed {σ : Type} (C : Comm σ) (asserts : Bool) (fuel : Nat)
    (module : ModuleInfo) (buffer : List UInt8) (is_first is_last force_full : Bool)
    (w w1 w2 : World σ) (version_info : ModuleVersionInfo) (block_update_list : List Bool)
    (c : σ) (fresh : List Bool)
    (hq : burnQuery C asserts fuel module force_full w
      = .ok (version_info, block_update_list) w1)
    (hskip : ¬(true ∉ block_update_list ∧ version_info.state = .Active))
    (ht : burnTransfer C module buffer is_first
      (transferList version_info block_update_list) w1 = .ok () w2)
    (hwait : C.WaitForStr "dlinfo end" 3000 (C.WriteCmd (.dlinfo module.name) none w2.comm)
      = some c)
    (hfresh : GetBlockUpdateList asserts fuel module (C.GetScanPtr c) false
      = some (.returned fresh))
    (hflag : true ∈ fresh) :
    BurnModule C asserts fuel module buffer is_first is_last force_full w
      = .exit (.thrown .updateFailed)
          { comm := C.ConsumeScanned c,
            trace := w2.trace ++ [.writeCmd (.dlinfo module.name) none,
              .waitForStr "dlinfo end" 3000, .consumeScanned] } ∧
    ∃ l : List Nat, sentCmds (w2.trace ++ [.writeCmd (.dlinfo module.name) none,
          .waitForStr "dlinfo end" 3000, .consumeScanned])
        = sentCmds w.trace ++ ([.dlver, .dlinfo module.name,
            .dlinit module.name module.version module.size is_first module.crc BlockSize] ++
          l.map .dl ++ [.dlinfo module.name]) ∧
      ∀ b, Cmd.dlact b ∉ ([.dlver, .dlinfo module.name,
            .dlinit module.name module.version module.size is_first module.crc BlockSize] ++
          l.map Cmd.dl ++ [.dlinfo module.name]) := by
  obtain ⟨l, _, _, h2⟩ := BurnModule_update buffer is_first is_last hq hskip
  obtain ⟨_, hrun, hcmds, _, _⟩ := h2 w2 ht
  constructor
  · rw [hrun]
    unfold burnVerify
    rw [bind_eq]
    simp only [WriteCmd]
    rw [bind_eq]
    simp only [WaitForStr, hwait]
    rw [bind_eq]
    unfold callGetBlockUpdateList
    rw [bind_eq]
    simp only [GetScanPtr, hfresh]
    rw [bind_eq]
    simp only [ConsumeScanned, Pure.pure]
    have hc : fresh.contains true = true := by simpa using hflag
    simp only [hc, if_true, throwErr, exitWith, List.append_assoc, List.singleton_append,
      List.cons_append, List.nil_append]
  · refine ⟨l, ?_, ?_⟩
    · rw [sentCmds_append, hcmds]
      simp [sentCmds]
    · intro b hb
      simp at hb

theorem BurnModule_update_failed_witness :
    burnQuery scriptedComm true 10 sampleModule5 false failedVerifyRun
      = .ok (⟨"OPFW", "0.0.0.1", .Pending⟩, List.replicate 5 false)
          (burnQuery scriptedComm true 10 sampleModule5 false failedVerifyRun).world ∧
    GetBlockUpdateList true 10 sampleModule5 tableTwoOk.toList false
      = some (.returned [false, false, true, true, true]) ∧
    (BurnModule scriptedComm true 10 sampleModule5 sampleBuffer5 true true false
        failedVerifyRun).exit? = some (.thrown .updateFailed) ∧
    sentCmds (BurnModule scriptedComm true 10 sampleModule5 sampleBuffer5 true true false
        failedVerifyRun).world.trace
      = [.dlver, .dlinfo "OPFW", .dlinit "OPFW" "0.0.0.1" 20 true 0xabcdef01 BlockSize,
          .dl 0, .dl 1, .dl 2, .dl 3, .dl 4, .dlinfo "OPFW"] ∧
    BurnModule scriptedComm true 10 sampleModule5 sampleBuffer5 true true false failedVerifyRun
      = .exit (.thrown .updateFailed)
          { comm := scriptedComm.ConsumeScanned ⟨["", "validation ok\n"], tableTwoOk.toList⟩,
            trace := (burnTransfer scriptedComm sampleModule5 sampleBuffer5 true
                (transferList ⟨"OPFW", "0.0.0.1", .Pending⟩ (List.replicate 5 false))
                (burnQuery scriptedComm true 10 sampleModule5 false failedVerifyRun).world
              ).world.trace ++ [.writeCmd (.dlinfo sampleModule5.name) none,
              .waitForStr "dlinfo end" 3000, .consumeScanned] } :=
  ⟨by decide!, by decide!, by decide!, by decide!,
    (BurnModule_update_failed scriptedComm true 10 sampleModule5 sampleBuffer5 true true false
      failedVerifyRun (burnQuery scriptedComm true 10 sampleModule5 false failedVerifyRun).world
      (burnTransfer scriptedComm sampleModule5 sampleBuffer5 true
        (transferList ⟨"OPFW", "0.0.0.1", .Pending⟩ (List.replicate 5 false))
        (burnQuery scriptedComm true 10 sampleModule5 false failedVerifyRun).world).world
      ⟨"OPFW", "0.0.0.1", .Pending⟩ (List.replicate 5 false)
      ⟨["", "validation ok\n"], tableTwoOk.toList⟩ [false, false, true, true, true]
      (by decide!) (by decide) (by decide!) (by decide!) (by decide!) (by decide)).1⟩

/-! ## C27: the `SCRAP info` marker -/

theorem strstr_idem {hay needle p : List Char} (h : strstr hay needle = some p) :
    strstr p needle = some p := by
  induction hay with
  | nil =>
    unfold strstr at h
    split at h
    · cases h
      unfold strstr
      rw [if_pos (by assumption)]
    · cases h
  | cons c cs ih =>
    unfold strstr at h
    split at h
    · next hp =>
      cases h
      unfold strstr
      rw [if_pos hp]
    · exact ih h

theorem strstr_none_of_suffix {hay p needle : List Char} (hp : p <:+ hay)
    (h : strstr hay needle = none) : strstr p needle = none := by
  cases hs : strstr p needle with
  | none => rfl
  | some q =>
    have h1 : (strstr p needle).isSome = true := by rw [hs]; rfl
    have h2 : needle <:+: hay := ((strstr_isSome_iff p needle).mp h1).trans hp.isInfix
    have h3 := (strstr_isSome_iff hay needle).mpr h2
    rw [h] at h3
    cases h3

/-- C27: when the report has no `"empty"` and contains `"SCRAP info"`, `rest`
being the report from the first occurrence of that marker on (what
`strstr(logBuf, "SCRAP info")` returns), `GetBlockUpdateList` with
`force_full = false` gives on the whole report exactly what it gives on
`rest`: whatever precedes the marker, the records of the module's own
`<NAME> info` section included, has no influence on the result, and two
reports with the same `rest` give the same result. -/
theorem GetBlockUpdateList_scrap_section (asserts : Bool) (fuel : Nat) (module : ModuleInfo)
    (logBuf rest : List Char) (hempty : strstr logBuf emptyStr = none)
    (hmark : strstr logBuf scrapInfoStr = some rest) :
    (∃ before, logBuf = before ++ rest) ∧ scrapInfoStr <+: rest ∧
    GetBlockUpdateList asserts fuel module logBuf false
      = GetBlockUpdateList asserts fuel module rest false ∧
    ∀ other : List Char, strstr other emptyStr = none →
      strstr other scrapInfoStr = some rest →
      GetBlockUpdateList asserts fuel module other false
        = GetBlockUpdateList asserts fuel module logBuf false := by
  have key : ∀ buf : List Char, strstr buf emptyStr = none →
      strstr buf scrapInfoStr = some rest →
      GetBlockUpdateList asserts fuel module buf false
        = scanLoop asserts module fuel rest (List.replicate module.blocks.length true) := by
    intro buf h1 h2
    unfold GetBlockUpdateList scanStart
    simp [h1, h2]
  have hsuf := strstr_suffix hmark
  have hidem := strstr_idem hmark
  refine ⟨?_, ?_, ?_, ?_⟩
  · obtain ⟨before, hb⟩ := hsuf
    exact ⟨before, hb.symm⟩
  · cases rest with
    | nil =>
      unfold strstr at hidem
      simp [scrapInfoStr] at hidem
    | cons c cs =>
      unfold strstr at hidem
      split at hidem
      · next hp => exact List.isPrefixOf_iff_prefix.mp hp
      · have := strstr_suffix hidem
        have hl := this.length_le
        simp at hl
  · rw [key logBuf hempty hmark, key rest (strstr_none_of_suffix hsuf hempty) hidem]
  · intro other h1 h2
    rw [key other h1 h2, key logBuf hempty hmark]

theorem GetBlockUpdateList_scrap_section_witness :
    GetBlockUpdateList true 5 (moduleOfCrcs [0xb9fa1f11, 0xfae50cb5])
        ("OPFW info\n#0   OK    b9fa1f11 b9fa1f11\nOPFW end\n" ++
          "SCRAP info\n#1   OK    fae50cb5 fae50cb5\nSCRAP end\ndlinfo end\n").toList false
      = some (.returned [true, false]) ∧
    ((∃ before, ("OPFW info\n#0   OK    b9fa1f11 b9fa1f11\nOPFW end\n" ++
          "SCRAP info\n#1   OK    fae50cb5 fae50cb5\nSCRAP end\ndlinfo end\n").toList
        = before ++ "SCRAP info\n#1   OK    fae50cb5 fae50cb5\nSCRAP end\ndlinfo end\n".toList) ∧
      scrapInfoStr <+: "SCRAP info\n#1   OK    fae50cb5 fae50cb5\nSCRAP end\ndlinfo end\n".toList ∧
      GetBlockUpdateList true 5 (moduleOfCrcs [0xb9fa1f11, 0xfae50cb5])
          ("OPFW info\n#0   OK    b9fa1f11 b9fa1f11\nOPFW end\n" ++
            "SCRAP info\n#1   OK    fae50cb5 fae50cb5\nSCRAP end\ndlinfo end\n").toList false
        = GetBlockUpdateList true 5 (moduleOfCrcs [0xb9fa1f11, 0xfae50cb5])
            "SCRAP info\n#1   OK    fae50cb5 fae50cb5\nSCRAP end\ndlinfo end\n".toList false ∧
      ∀ other : List Char, strstr other emptyStr = none →
        strstr other scrapInfoStr
            = some "SCRAP info\n#1   OK    fae50cb5 fae50cb5\nSCRAP end\ndlinfo end\n".toList →
        GetBlockUpdateList true 5 (moduleOfCrcs [0xb9fa1f11, 0xfae50cb5]) other false
          = GetBlockUpdateList true 5 (moduleOfCrcs [0xb9fa1f11, 0xfae50cb5])
              ("OPFW info\n#0   OK    b9fa1f11 b9fa1f11\nOPFW end\n" ++
                "SCRAP info\n#1   OK    fae50cb5 fae50cb5\nSCRAP end\ndlinfo end\n").toList
              false) :=
  ⟨by decide,
    GetBlockUpdateList_scrap_section true 5 (moduleOfCrcs [0xb9fa1f11, 0xfae50cb5])
      ("OPFW info\n#0   OK    b9fa1f11 b9fa1f11\nOPFW end\n" ++
        "SCRAP info\n#1   OK    fae50cb5 fae50cb5\nSCRAP end\ndlinfo end\n").toList
      "SCRAP info\n#1   OK    fae50cb5 fae50cb5\nSCRAP end\ndlinfo end\n".toList
      (by decide) (by decide)⟩

/-! ## C25, C26: the blocks of a parsed module -/

theorem mul_le_of_lt_blockCount {aligned block_size i : Nat}
    (h : i < blockCount aligned block_size) : i * block_size ≤ aligned := by
  unfold blockCount at h
  split at h
  · have h1 : i ≤ aligned / block_size := by omega
    exact le_trans (Nat.mul_le_mul_right _ h1) (Nat.div_mul_le_self _ _)
  · have h1 : i ≤ aligned / block_size := by omega
    exact le_trans (Nat.mul_le_mul_right _ h1) (Nat.div_mul_le_self _ _)

theorem paddedPayload_length {file : List UInt8} {ofs size : Nat}
    (h1 : ofs + size ≤ file.length) (h2 : size ≤ alignedBufferSize size) :
    (paddedPayload file ofs size).length = alignedBufferSize size := by
  unfold paddedPayload slice
  simp only [List.length_append, List.length_take, List.length_drop, List.length_replicate]
  omega

theorem slice_length_of_le {bs : List UInt8} {ofs len : Nat} (h : ofs + len ≤ bs.length) :
    (slice bs ofs len).length = len := by
  unfold slice
  simp only [List.length_take, List.length_drop]
  omega

/-- C25: for every module that `ParseUfifToModules` returns and every block
index `i` below the number of its blocks, the block's offset is
`i * block_size`, its byte range `[offset, offset + size)` lies inside the
zero-padded buffer (the `size` payload bytes at `file_offset` followed by
zeroes up to `aligned_size` bytes), and its CRC is `CalculateCRC` with seed `i`
over exactly the `size` bytes of that range. -/
theorem ParseUfifToModules_blocks (crc : Nat → List UInt8 → Nat) (path : String)
    (content : List UInt8) (block_size : Nat) (ms : List ModuleInfo)
    (h : ParseUfifToModules crc path (some content) block_size = .ok ms) :
    ∀ m ∈ ms,
      (paddedPayload content m.file_offset m.size).length = m.aligned_size ∧
      ∀ (i : Nat) (block : BlockInfo), m.blocks[i]? = some block →
        block.offset = i * block_size ∧
        block.offset + block.size ≤ m.aligned_size ∧
        (slice (paddedPayload content m.file_offset m.size) block.offset block.size).length
          = block.size ∧
        block.crc
          = crc i (slice (paddedPayload content m.file_offset m.size) block.offset block.size) := by
  intro m hm
  obtain ⟨content2, e, p, p2, hc, hlt, hp⟩ := ParseUfifToModules_mem h hm
  cases hc
  obtain ⟨hbs, hle, hfile, _, _, _, hsize, halign, hofs, _, hblocks, _⟩ := parseEntry_ok hp
  have h1 : e.size ≤ 0xFFFFF000 := size_le_of_le_alignedBufferSize hlt hle
  have h2 := roundUp4_le_alignedBufferSize h1
  have hlen := paddedPayload_length hfile hle
  rw [crcAlignedDataSize_of_le h1] at hblocks
  rw [hsize, halign, hofs]
  refine ⟨hlen, ?_⟩
  intro i block hb
  have hi : i < blockCount (alignedBufferSize e.size) block_size := by
    have := (List.getElem?_eq_some_iff.mp hb).1
    rw [hblocks, makeBlocks_length] at this
    exact this
  rw [hblocks, makeBlocks_getElem _ _ _ _ _ _ _ hi] at hb
  simp only [Option.some.injEq] at hb
  subst hb
  simp only [Nat.zero_add]
  have h3 := mul_le_of_lt_blockCount hi
  have h4 : i * block_size + min (roundUp e.size 4 - i * block_size) block_size
      ≤ alignedBufferSize e.size := by
    simp only [Nat.min_def]
    split_ifs <;> omega
  refine ⟨trivial, h4, ?_, trivial⟩
  exact slice_length_of_le (by rw [hlen]; exact h4)

theorem ParseUfifToModules_blocks_witness :
    (ParseUfifToModules sumCrc "fw.bin" (some threeBlockContainer) 4096 = .ok threeBlockParsed ∧
      threeBlockParsed.map (fun m => m.blocks.map fun b => (b.offset, b.size))
        = [[(0, 4096), (4096, 4096), (8192, 320)]] ∧
      ∀ m ∈ threeBlockParsed,
        (paddedPayload threeBlockContainer m.file_offset m.size).length = m.aligned_size ∧
        ∀ (i : Nat) (block : BlockInfo), m.blocks[i]? = some block →
          block.offset = i * 4096 ∧
          block.offset + block.size ≤ m.aligned_size ∧
          (slice (paddedPayload threeBlockContainer m.file_offset m.size)
            block.offset block.size).length = block.size ∧
          block.crc
            = sumCrc i (slice (paddedPayload threeBlockContainer m.file_offset m.size)
                block.offset block.size)) ∧
    (ParseUfifToModules sampleCrc "fw.bin" (some (sampleContainer "OPFW" "OPFW" [0xAB])) BlockSize
      = .ok sampleParsed ∧
    ∀ m ∈ sampleParsed,
      (paddedPayload (sampleContainer "OPFW" "OPFW" [0xAB]) m.file_offset m.size).length
        = m.aligned_size ∧
      ∀ (i : Nat) (block : BlockInfo), m.blocks[i]? = some block →
        block.offset = i * BlockSize ∧
        block.offset + block.size ≤ m.aligned_size ∧
        (slice (paddedPayload (sampleContainer "OPFW" "OPFW" [0xAB]) m.file_offset m.size)
          block.offset block.size).length = block.size ∧
        block.crc
          = sampleCrc i (slice (paddedPayload (sampleContainer "OPFW" "OPFW" [0xAB])
              m.file_offset m.size) block.offset block.size)) :=
  ⟨⟨by decide!, by decide,
    ParseUfifToModules_blocks sumCrc "fw.bin" threeBlockContainer 4096 threeBlockParsed
      (by decide!)⟩,
   ⟨by decide, ParseUfifToModules_blocks sampleCrc "fw.bin" (sampleContainer "OPFW" "OPFW" [0xAB])
    BlockSize sampleParsed (by decide)⟩⟩
theorem blockCount_pred_mul_lt {aligned block_size : Nat} (hbs : 0 < block_size)
    (ha : 0 < aligned) :
    0 < blockCount aligned block_size ∧
      (blockCount aligned block_size - 1) * block_size < aligned := by
  unfold blockCount
  have h1 := Nat.div_add_mod aligned block_size
  have h2 := Nat.mod_lt aligned hbs
  have h3 : block_size * (aligned / block_size) = aligned / block_size * block_size :=
    Nat.mul_comm _ _
  split
  · refine ⟨Nat.succ_pos _, ?_⟩
    rw [Nat.add_sub_cancel]
    omega
  · next hz =>
    have hz2 : aligned % block_size = 0 := by omega
    have hq : 0 < aligned / block_size := by
      rcases Nat.eq_zero_or_pos (aligned / block_size) with h | h
      · rw [h] at h1; omega
      · exact h
    refine ⟨hq, ?_⟩
    have h4 : (aligned / block_size - 1) * block_size + block_size
        = aligned / block_size * block_size := by
      have : aligned / block_size = (aligned / block_size - 1) + 1 := by omega
      conv_rhs => rw [this, Nat.add_mul, Nat.one_mul]
    omega

/-- C26: let `ParseUfifToModules` return a module for a block size that is a
multiple of 4096 (such as the protocol block size of 512 KiB; the block size is
positive when a module is returned). If the module's size is 0 it has no
block. Otherwise its size is at most `0xFFFFF000`, the number `n` of its
blocks is `ceil(aligned_size / block_size)` (the least `n` with
`aligned_size ≤ n * block_size`), every block but the last has size exactly
`block_size`, and the last block is not empty and has size
`round_up(size, 4) - block_size * (n - 1) ≤ block_size`. -/
theorem ParseUfifToModules_block_count (crc : Nat → List UInt8 → Nat) (path : String)
    (file : Option (List UInt8)) (block_size : Nat) (ms : List ModuleInfo)
    (hbs : 4096 ∣ block_size)
    (h : ParseUfifToModules crc path file block_size = .ok ms) :
    ∀ m ∈ ms, 0 < block_size ∧
      (m.size = 0 → m.blocks = []) ∧
      (1 ≤ m.size →
        m.size ≤ 0xFFFFF000 ∧ 0 < m.blocks.length ∧
        m.blocks.length = blockCount m.aligned_size block_size ∧
        m.aligned_size ≤ m.blocks.length * block_size ∧
        (m.blocks.length - 1) * block_size < m.aligned_size ∧
        (∀ (i : Nat) (block : BlockInfo), m.blocks[i]? = some block →
          i + 1 < m.blocks.length → block.size = block_size) ∧
        ∀ last, m.blocks.getLast? = some last →
          0 < last.size ∧ last.size ≤ block_size ∧
          last.size = roundUp m.size 4 - block_size * (m.blocks.length - 1)) := by
  intro m hm
  obtain ⟨content, e, p, p2, _, hlt, hp⟩ := ParseUfifToModules_mem h hm
  obtain ⟨hbs0, hle, _, _, _, _, hsize, halign, _, _, hblocks, _⟩ := parseEntry_ok hp
  have hpos : 0 < block_size := Nat.pos_of_ne_zero hbs0
  have h1 : e.size ≤ 0xFFFFF000 := size_le_of_le_alignedBufferSize hlt hle
  have h2 := roundUp4_le_alignedBufferSize h1
  have h3 := le_blockCount_mul (alignedBufferSize e.size) block_size hbs0
  have hn : m.blocks.length = blockCount (alignedBufferSize e.size) block_size := by
    rw [hblocks, makeBlocks_length]
  rw [crcAlignedDataSize_of_le h1] at hblocks
  rw [hsize, halign]
  refine ⟨hpos, ?_, ?_⟩
  · intro hz
    have ha : alignedBufferSize e.size = 0 := by
      rw [alignedBufferSize_of_le h1, hz]
    have hc : blockCount (alignedBufferSize e.size) block_size = 0 := by
      rw [ha]
      simp [blockCount]
    exact List.length_eq_zero.mp (hn.trans hc)
  · intro hge
    have haeq := alignedBufferSize_of_le h1
    have hapos : 0 < alignedBufferSize e.size := by rw [haeq]; omega
    have halt : alignedBufferSize e.size < e.size + 4096 := by rw [haeq]; omega
    obtain ⟨hnpos, hpred⟩ := blockCount_pred_mul_lt hpos hapos
    have hr : e.size ≤ roundUp e.size 4 := by unfold roundUp; omega
    -- `(n - 1) * block_size` is a multiple of 4096 below `aligned_size`
    obtain ⟨k, hk⟩ := hbs
    obtain ⟨c, hc⟩ : 4096 ∣ alignedBufferSize e.size := by
      rw [haeq]; exact Nat.dvd_mul_left _ _
    have hmul : (blockCount (alignedBufferSize e.size) block_size - 1) * block_size
        = 4096 * ((blockCount (alignedBufferSize e.size) block_size - 1) * k) := by
      rw [hk]; ring
    have hbelow : (blockCount (alignedBufferSize e.size) block_size - 1) * block_size
        < roundUp e.size 4 := by
      generalize (blockCount (alignedBufferSize e.size) block_size - 1) * k = q at hmul
      omega
    refine ⟨h1, by rw [hn]; exact hnpos, hn, by rw [hn]; exact h3, by rw [hn]; exact hpred,
      ?_, ?_⟩
    · intro i block hb hi
      rw [hn] at hi
      rw [hblocks, makeBlocks_getElem _ _ _ _ _ _ _ (by omega)] at hb
      simp only [Option.some.injEq] at hb
      subst hb
      simp only
      have h5 : (i + 1) * block_size
          ≤ (blockCount (alignedBufferSize e.size) block_size - 1) * block_size :=
        Nat.mul_le_mul_right _ (by omega)
      rw [Nat.add_mul, Nat.one_mul] at h5
      apply Nat.min_eq_right
      omega
    · intro last hlast
      rw [List.getLast?_eq_getElem?] at hlast
      rw [hn]
      rw [hblocks, makeBlocks_length,
        makeBlocks_getElem _ _ _ _ _ _ _ (by omega)] at hlast
      simp only [Option.some.injEq] at hlast
      subst hlast
      simp only
      have h4 : (blockCount (alignedBufferSize e.size) block_size - 1) * block_size + block_size
          = blockCount (alignedBufferSize e.size) block_size * block_size := by
        have : blockCount (alignedBufferSize e.size) block_size
            = (blockCount (alignedBufferSize e.size) block_size - 1) + 1 := by omega
        conv_rhs => rw [this, Nat.add_mul, Nat.one_mul]
      rw [Nat.mul_comm block_size]
      have hmin : min (roundUp e.size 4
            - (blockCount (alignedBufferSize e.size) block_size - 1) * block_size) block_size
          = roundUp e.size 4
            - (blockCount (alignedBufferSize e.size) block_size - 1) * block_size := by
        apply Nat.min_eq_left
        omega
      rw [hmin]
      exact ⟨by omega, by omega, rfl⟩

theorem ParseUfifToModules_block_count_witness :
    (4096 ∣ 4096 ∧
      ParseUfifToModules sumCrc "fw.bin" (some threeBlockContainer) 4096 = .ok threeBlockParsed ∧
      threeBlockParsed.map (fun m => (m.size, m.aligned_size, m.blocks.map BlockInfo.size))
        = [(8512, 12288, [4096, 4096, 320])] ∧
      ∀ m ∈ threeBlockParsed, 0 < 4096 ∧
        (m.size = 0 → m.blocks = []) ∧
        (1 ≤ m.size →
          m.size ≤ 0xFFFFF000 ∧ 0 < m.blocks.length ∧
          m.blocks.length = blockCount m.aligned_size 4096 ∧
          m.aligned_size ≤ m.blocks.length * 4096 ∧
          (m.blocks.length - 1) * 4096 < m.aligned_size ∧
          (∀ (i : Nat) (block : BlockInfo), m.blocks[i]? = some block →
            i + 1 < m.blocks.length → block.size = 4096) ∧
          ∀ last, m.blocks.getLast? = some last →
            0 < last.size ∧ last.size ≤ 4096 ∧
            last.size = roundUp m.size 4 - 4096 * (m.blocks.length - 1))) ∧
    (4096 ∣ BlockSize ∧
    ParseUfifToModules sampleCrc "fw.bin" (some (sampleContainer "OPFW" "OPFW" [0xAB])) BlockSize
      = .ok sampleParsed ∧
    ∀ m ∈ sampleParsed, 0 < BlockSize ∧
      (m.size = 0 → m.blocks = []) ∧
      (1 ≤ m.size →
        m.size ≤ 0xFFFFF000 ∧ 0 < m.blocks.length ∧
        m.blocks.length = blockCount m.aligned_size BlockSize ∧
        m.aligned_size ≤ m.blocks.length * BlockSize ∧
        (m.blocks.length - 1) * BlockSize < m.aligned_size ∧
        (∀ (i : Nat) (block : BlockInfo), m.blocks[i]? = some block →
          i + 1 < m.blocks.length → block.size = BlockSize) ∧
        ∀ last, m.blocks.getLast? = some last →
          0 < last.size ∧ last.size ≤ BlockSize ∧
          last.size = roundUp m.size 4 - BlockSize * (m.blocks.length - 1))) :=
  ⟨⟨by decide, by decide!, by decide,
    ParseUfifToModules_block_count sumCrc "fw.bin" (some threeBlockContainer) 4096
      threeBlockParsed (by decide) (by decide!)⟩,
   ⟨by decide, by decide,
    ParseUfifToModules_block_count sampleCrc "fw.bin"
      (some (sampleContainer "OPFW" "OPFW" [0xAB])) BlockSize sampleParsed (by decide)
      (by decide)⟩⟩
/-! ## C21: `InitNewModules` -/

/-- C21: what `InitNewModules` adds to the trace is, in file order, the
new-module declaration `dlnew(name, size)` followed by a wait for idle for each
file module whose name no device module has (whatever the state of the device
modules), up to the first such module whose name is not allowed: at that
module it throws "Found invalid module name in file", having sent nothing for
it or for any later module; when there is none it returns. -/
theorem InitNewModules_spec {σ : Type} (C : Comm σ) (file_modules : List ModuleInfo)
    (device_modules : List ModuleVersionInfo) (w : World σ) :
    (InitNewModules C device_modules file_modules w).world.trace
      = w.trace ++
        (((file_modules.filter fun m => decide (∀ d ∈ device_modules, d.name ≠ m.name)).takeWhile
            fun m => decide (m.name ∈ AllowedModules)).flatMap
          fun m => [.writeCmd (.dlnew m.name m.size) none, .waitForIdle]) ∧
    (InitNewModules C device_modules file_modules w).exit?
      = ((file_modules.filter fun m => decide (∀ d ∈ device_modules, d.name ≠ m.name)).find?
            fun m => decide (m.name ∉ AllowedModules)).map
          fun m => .thrown (.invalidModuleName m.name) := by
  induction file_modules generalizing w with
  | nil => simp [InitNewModules, Pure.pure, Res.world, Res.exit?]
  | cons m rest ih =>
    unfold InitNewModules
    by_cases hnew : ∀ d ∈ device_modules, d.name ≠ m.name
    · have hany : (device_modules.any fun device_module => device_module.name == m.name)
          = false := by
        rw [List.any_eq_false]
        intro d hd
        simpa using hnew d hd
      have hf : decide (∀ d ∈ device_modules, d.name ≠ m.name) = true := decide_eq_true hnew
      simp only [hany, Bool.not_false, if_true, List.filter_cons, hf]
      by_cases hallowed : m.name ∈ AllowedModules
      · have hv : VerifyAllowed m = .ok () := by
          unfold VerifyAllowed
          rw [if_neg (fun h => h hallowed)]
        have ht : decide (m.name ∈ AllowedModules) = true := decide_eq_true hallowed
        have hn : decide (m.name ∉ AllowedModules) = false :=
          decide_eq_false (fun h => h hallowed)
        simp only [hv, List.takeWhile_cons, ht, if_true, List.find?_cons, hn]
        rw [bind_eq]
        simp only [WriteCmd]
        rw [bind_eq]
        simp only [WaitForIdle]
        obtain ⟨h1, h2⟩ := ih
          { comm := C.WaitForIdle (C.WriteCmd (.dlnew m.name m.size) none w.comm),
            trace := w.trace ++ [.writeCmd (.dlnew m.name m.size) none] ++ [.waitForIdle] }
        refine ⟨?_, h2⟩
        rw [h1]
        simp
      · have hv : VerifyAllowed m = .error (.invalidModuleName m.name) := by
          unfold VerifyAllowed
          rw [if_pos hallowed]
        have ht : decide (m.name ∈ AllowedModules) = false := decide_eq_false hallowed
        have hn : decide (m.name ∉ AllowedModules) = true := decide_eq_true hallowed
        simp only [hv, List.takeWhile_cons, ht, List.find?_cons, hn]
        simp [throwErr, exitWith, Res.world, Res.exit?]
    · have hany : (device_modules.any fun device_module => device_module.name == m.name)
          = true := by
        rw [List.any_eq_true]
        push_neg at hnew
        obtain ⟨d, hd, he⟩ := hnew
        exact ⟨d, hd, by simpa using he⟩
      have hf : decide (∀ d ∈ device_modules, d.name ≠ m.name) = false := decide_eq_false hnew
      simp only [hany, Bool.not_true, Bool.false_eq_true, if_false, List.filter_cons, hf]
      exact ih w

/-! ## The ticks a routine adds -/

theorem ticks_mono {σ α : Type} {m : M σ α} {a b : Nat} (h : Ticks a m) (hab : a ≤ b) :
    Ticks b m := by
  intro w
  obtain ⟨added, h1, h2, h3⟩ := h w
  exact ⟨added, h1, h2, le_trans h3 hab⟩

theorem ticks_pure {σ α : Type} (a : α) : Ticks 0 (pure a : M σ α) :=
  fun w => ⟨[], by simp [Pure.pure, Res.world], by simp, by simp⟩

theorem ticks_exitWith {σ α : Type} (e : Exit) : Ticks 0 (exitWith e : M σ α) :=
  fun w => ⟨[], by simp [FwUpdateF45x.exitWith, Res.world], by simp, by simp⟩

theorem ticks_throwErr {σ α : Type} (e : EngineError) : Ticks 0 (throwErr e : M σ α) :=
  ticks_exitWith _

theorem ticks_bind {σ α β : Type} {m : M σ α} {f : α → M σ β} {a b : Nat} (hm : Ticks a m)
    (hf : ∀ x, Ticks b (f x)) : Ticks (a + b) (m >>= f) := by
  intro w
  obtain ⟨a1, h1, p1, c1⟩ := hm w
  rw [bind_eq]
  cases hr : m w with
  | ok x w2 =>
    rw [hr] at h1
    obtain ⟨a2, h2, p2, c2⟩ := hf x w2
    refine ⟨a1 ++ a2, ?_, ?_, ?_⟩
    · simp only [Res.world] at h1
      simp only [h2, h1, List.append_assoc]
    · intro e he
      rcases List.mem_append.mp he with he | he
      · exact p1 e he
      · exact p2 e he
    · rw [List.count_append]
      omega
  | exit e w2 =>
    rw [hr] at h1
    exact ⟨a1, h1, p1, by omega⟩

theorem ticks_seq {σ α β : Type} {m : M σ α} {f : α → M σ β} {b : Nat} (hm : Ticks 0 m)
    (hf : ∀ x, Ticks b (f x)) : Ticks b (m >>= f) := by
  have := ticks_bind hm hf
  rwa [Nat.zero_add] at this

theorem ticks_cons {σ α β : Type} {m : M σ α} {f : α → M σ β} {b : Nat} (hm : Ticks 1 m)
    (hf : ∀ x, Ticks b (f x)) : Ticks (b + 1) (m >>= f) := by
  have := ticks_bind hm hf
  rwa [Nat.add_comm] at this

theorem ticks_single {σ α : Type} {m : M σ α} (e : Event)
    (h : ∀ w, (m w).world.trace = w.trace ++ [e]) (hp : e.isProgress = false) (ht : e ≠ .tick) :
    Ticks 0 m := by
  intro w
  refine ⟨[e], h w, ?_, ?_⟩
  · intro e2 h2
    rw [List.mem_singleton] at h2
    rw [h2]
    exact hp
  · rw [Nat.le_zero, List.count_eq_zero]
    intro hmem
    rw [List.mem_singleton] at hmem
    exact ht hmem.symm

theorem ticks_tick {σ : Type} : Ticks 1 (tick : M σ Unit) :=
  fun _ => ⟨[.tick], rfl, by simp [Event.isProgress], by simp⟩

theorem ticks_WriteCmd {σ : Type} (C : Comm σ) (cmd : Cmd) (wr : Option Bool) :
    Ticks 0 (WriteCmd C cmd wr) :=
  ticks_single (.writeCmd cmd wr) (fun _ => rfl) rfl (by simp)

theorem ticks_WriteBinary {σ : Type} (C : Comm σ) (bytes : List UInt8) :
    Ticks 0 (WriteBinary C bytes) :=
  ticks_single (.writeBinary bytes) (fun _ => rfl) rfl (by simp)

theorem ticks_WaitForStr {σ : Type} (C : Comm σ) (str : String) (ms : Nat) :
    Ticks 0 (WaitForStr C str ms) := by
  refine ticks_single (.waitForStr str ms) (fun w => ?_) rfl (by simp)
  unfold FwUpdateF45x.WaitForStr
  split <;> rfl

theorem ticks_WaitForIdle {σ : Type} (C : Comm σ) : Ticks 0 (WaitForIdle C) :=
  ticks_single .waitForIdle (fun _ => rfl) rfl (by simp)

theorem ticks_GetScanPtr {σ : Type} (C : Comm σ) : Ticks 0 (GetScanPtr C) :=
  fun w => ⟨[], by simp [FwUpdateF45x.GetScanPtr, Res.world], by simp, by simp⟩

theorem ticks_ConsumeScanned {σ : Type} (C : Comm σ) : Ticks 0 (ConsumeScanned C) :=
  ticks_single .consumeScanned (fun _ => rfl) rfl (by simp)

theorem ticks_StopReaderThread {σ : Type} (C : Comm σ) : Ticks 0 (StopReaderThread C) :=
  ticks_single .stopReaderThread (fun _ => rfl) rfl (by simp)

theorem ticks_sleep_for {σ : Type} (C : Comm σ) (ms : Nat) : Ticks 0 (sleep_for C ms) :=
  ticks_single (.sleep ms) (fun _ => rfl) rfl (by simp)

theorem ticks_DumpSession {σ : Type} : Ticks 0 (DumpSession : M σ Unit) :=
  ticks_single .dumpSession (fun _ => rfl) rfl (by simp)

theorem ticks_closeComm {σ : Type} : Ticks 0 (closeComm : M σ Unit) :=
  ticks_single .closeComm (fun _ => rfl) rfl (by simp)

theorem ticks_openComm {σ : Type} : Ticks 0 (openComm : M σ Unit) :=
  ticks_single .openComm (fun _ => rfl) rfl (by simp)

theorem ticks_ModulesFromDevice {σ : Type} (C : Comm σ) (asserts : Bool) :
    Ticks 0 (ModulesFromDevice C asserts) := by
  unfold FwUpdateF45x.ModulesFromDevice
  refine ticks_seq (ticks_WriteCmd C _ _) (fun _ =>
    ticks_seq (ticks_sleep_for C _) (fun _ =>
      ticks_seq (ticks_GetScanPtr C) (fun response => ?_)))
  split
  · exact ticks_exitWith _
  · refine ticks_seq (ticks_ConsumeScanned C) (fun _ => ?_)
    split
    · exact ticks_throwErr _
    · exact ticks_pure _

theorem ticks_ModuleFromDevice {σ : Type} (C : Comm σ) (asserts : Bool) (module_name : String) :
    Ticks 0 (ModuleFromDevice C asserts module_name) := by
  unfold FwUpdateF45x.ModuleFromDevice
  refine ticks_seq (ticks_ModulesFromDevice C asserts) (fun modules => ?_)
  split
  · exact ticks_pure _
  · exact ticks_throwErr _

theorem ticks_callGetBlockUpdateList {σ : Type} (C : Comm σ) (asserts : Bool) (fuel : Nat)
    (module : ModuleInfo) (force_full : Bool) :
    Ticks 0 (callGetBlockUpdateList C asserts fuel module force_full) := by
  unfold FwUpdateF45x.callGetBlockUpdateList
  refine ticks_seq (ticks_GetScanPtr C) (fun logBuf => ?_)
  split
  · exact ticks_exitWith _
  · exact ticks_exitWith _
  · exact ticks_exitWith _
  · exact ticks_seq (ticks_ConsumeScanned C) (fun _ => ticks_pure _)

theorem ticks_ParseDlResponse {σ : Type} (C : Comm σ) (name : String) (blkNo sz : Nat) :
    Ticks 0 (ParseDlResponse C name blkNo sz) := by
  unfold FwUpdateF45x.ParseDlResponse
  exact ticks_seq (ticks_GetScanPtr C) (fun _ =>
    ticks_seq (ticks_ConsumeScanned C) (fun _ => ticks_pure _))

theorem ticks_ParseDlBlockResult {σ : Type} (C : Comm σ) : Ticks 0 (ParseDlBlockResult C) := by
  unfold FwUpdateF45x.ParseDlBlockResult
  refine ticks_seq (ticks_GetScanPtr C) (fun logBuf => ?_)
  split
  · exact ticks_seq (ticks_ConsumeScanned C) (fun _ => ticks_pure _)
  · split
    · exact ticks_seq (ticks_ConsumeScanned C) (fun _ => ticks_pure _)
    · exact ticks_seq (ticks_ConsumeScanned C) (fun _ => ticks_pure _)

theorem ticks_burnBlock {σ : Type} (C : Comm σ) (module : ModuleInfo) (buffer : List UInt8)
    (i : Nat) (block : BlockInfo) : Ticks 1 (burnBlock C module buffer i block) := by
  unfold FwUpdateF45x.burnBlock
  refine ticks_seq (ticks_WriteCmd C _ _) (fun _ =>
    ticks_seq (ticks_WaitForIdle C) (fun _ =>
      ticks_seq (ticks_ParseDlResponse C _ _ _) (fun dlAck => ?_)))
  split
  · exact ticks_mono (ticks_throwErr _) (by omega)
  · split
    · exact ticks_mono (ticks_exitWith _) (by omega)
    · refine ticks_seq (ticks_WriteBinary C _) (fun _ =>
        ticks_seq (ticks_WaitForStr C _ _) (fun _ =>
          ticks_seq (ticks_ParseDlBlockResult C) (fun dlErr => ?_)))
      split
      · exact ticks_mono (ticks_throwErr _) (by omega)
      · exact ticks_tick

theorem ticks_burnBlocks {σ : Type} (C : Comm σ) (module : ModuleInfo) (buffer : List UInt8)
    (block_update_list : List Bool) :
    ∀ todo i, Ticks todo (burnBlocks C module buffer block_update_list todo i) := by
  intro todo
  induction todo with
  | zero => intro i; exact ticks_pure _
  | succ n ih =>
    intro i
    rw [burnBlocks_succ]
    split
    · split
      · exact ticks_mono (ih _) (by omega)
      · exact ticks_cons (ticks_burnBlock C module buffer i _) (fun _ => ih (i + 1))
    · exact ticks_mono (ticks_exitWith _) (by omega)

theorem ticks_tickTimes {σ : Type} : ∀ n, Ticks n (tickTimes n : M σ Unit) := by
  intro n
  induction n with
  | zero => exact ticks_pure _
  | succ k ih =>
    unfold tickTimes
    exact ticks_cons ticks_tick (fun _ => ih)

theorem ticks_burnQuery {σ : Type} (C : Comm σ) (asserts : Bool) (fuel : Nat)
    (module : ModuleInfo) (force_full : Bool) :
    Ticks 0 (burnQuery C asserts fuel module force_full) := by
  unfold FwUpdateF45x.burnQuery
  refine ticks_seq (ticks_ModuleFromDevice C _ _) (fun version_info =>
    ticks_seq (ticks_WriteCmd C _ _) (fun _ =>
      ticks_seq (ticks_WaitForStr C _ _) (fun _ =>
        ticks_seq (ticks_callGetBlockUpdateList C _ _ _ _) (fun l => ?_))))
  split
  · exact ticks_exitWith _
  · exact ticks_pure _

theorem ticks_burnSkip {σ : Type} (C : Comm σ) (module : ModuleInfo) (is_last : Bool) :
    Ticks module.blocks.length (burnSkip C module is_last) := by
  unfold FwUpdateF45x.burnSkip
  have h : ∀ x : Unit, Ticks 0 (if is_last = true then do
        StopReaderThread C
        WriteCmd C (.dlact true) (some false)
      else (pure () : M σ Unit)) := by
    intro _
    split
    · exact ticks_seq (ticks_StopReaderThread C) (fun _ => ticks_WriteCmd C _ _)
    · exact ticks_pure _
  exact ticks_bind (ticks_tickTimes _) h

theorem ticks_burnTransfer {σ : Type} (C : Comm σ) (module : ModuleInfo) (buffer : List UInt8)
    (is_first : Bool) (block_update_list : List Bool) :
    Ticks module.blocks.length (burnTransfer C module buffer is_first block_update_list) := by
  unfold FwUpdateF45x.burnTransfer
  refine ticks_seq (ticks_WriteCmd C _ _) (fun _ =>
    ticks_seq (ticks_sleep_for C _) (fun _ =>
      ticks_seq (ticks_GetScanPtr C) (fun logBuf =>
        ticks_seq (ticks_ConsumeScanned C) (fun _ => ?_))))
  split
  · exact ticks_mono (ticks_seq (ticks_WriteCmd C _ _) (fun _ => ticks_throwErr _))
      (Nat.zero_le _)
  · exact ticks_seq (ticks_WriteBinary C _) (fun _ =>
      ticks_seq (ticks_ConsumeScanned C) (fun _ => ticks_burnBlocks C _ _ _ _ _))

theorem ticks_burnVerify {σ : Type} (C : Comm σ) (asserts : Bool) (fuel : Nat)
    (module : ModuleInfo) (is_last : Bool) :
    Ticks 0 (burnVerify C asserts fuel module is_last) := by
  unfold FwUpdateF45x.burnVerify
  refine ticks_seq (ticks_WriteCmd C _ _) (fun _ =>
    ticks_seq (ticks_WaitForStr C _ _) (fun _ =>
      ticks_seq (ticks_callGetBlockUpdateList C _ _ _ _) (fun l => ?_)))
  split
  · exact ticks_throwErr _
  · split
    · exact ticks_seq (ticks_StopReaderThread C) (fun _ => ticks_WriteCmd C _ _)
    · exact ticks_seq (ticks_WriteCmd C _ _) (fun _ => ticks_WaitForStr C _ _)

theorem ticks_BurnModule {σ : Type} (C : Comm σ) (asserts : Bool) (fuel : Nat)
    (module : ModuleInfo) (buffer : List UInt8) (is_first is_last force_full : Bool) :
    Ticks module.blocks.length
      (BurnModule C asserts fuel module buffer is_first is_last force_full) := by
  unfold FwUpdateF45x.BurnModule
  refine ticks_seq (ticks_burnQuery C _ _ _ _) (fun p => ?_)
  obtain ⟨version_info, block_update_list⟩ := p
  simp only
  split
  · exact ticks_burnSkip C module is_last
  · exact ticks_bind (ticks_burnTransfer C _ _ _ _) (fun _ => ticks_burnVerify C _ _ _ _)

theorem ticks_CleanObsoleteModules {σ : Type} (C : Comm σ) (file_modules : List ModuleInfo) :
    ∀ device_modules, Ticks 0 (CleanObsoleteModules C file_modules device_modules) := by
  intro device_modules
  induction device_modules with
  | nil => exact ticks_pure _
  | cons d rest ih =>
    unfold CleanObsoleteModules
    split
    · exact ih
    · simp only
      split
      · exact ticks_seq (ticks_WriteCmd C _ _) (fun _ =>
          ticks_seq (ticks_WaitForIdle C) (fun _ => ih))
      · exact ih

theorem ticks_InitNewModules {σ : Type} (C : Comm σ) (device_modules : List ModuleVersionInfo) :
    ∀ file_modules, Ticks 0 (InitNewModules C device_modules file_modules) := by
  intro file_modules
  induction file_modules with
  | nil => exact ticks_pure _
  | cons m rest ih =>
    unfold InitNewModules
    simp only
    split
    · split
      · exact ticks_throwErr _
      · exact ticks_seq (ticks_WriteCmd C _ _) (fun _ =>
          ticks_seq (ticks_WaitForIdle C) (fun _ => ih))
    · exact ih

theorem ticks_burnSelectLoop {σ : Type} (C : Comm σ) (asserts : Bool) (fuel : Nat)
    (LoadFileToBuffer : String → Nat → Nat → Nat → List UInt8) (force_full : Bool)
    (modules_size : Nat) : ∀ (modules : List ModuleInfo) (module_count : Nat),
    Ticks (totalBlocks modules)
      (burnSelectLoop C asserts fuel LoadFileToBuffer force_full modules_size module_count
        modules) := by
  intro modules
  induction modules with
  | nil => intro _; exact ticks_pure _
  | cons m rest ih =>
    intro module_count
    unfold burnSelectLoop
    simp only
    split
    · exact ticks_mono (ticks_throwErr _) (Nat.zero_le _)
    · have := ticks_bind (ticks_BurnModule C asserts fuel m
          (LoadFileToBuffer m.filename m.aligned_size m.size m.file_offset)
          (decide (module_count + 1 = 1)) (decide (module_count + 1 = modules_size)) force_full)
        (fun _ => ih (module_count + 1))
      simpa [totalBlocks] using this

/-! ## C23: `BurnModules` with nothing to do -/

/-- C23: called with an empty module list, or with modules that have zero
blocks in total, `BurnModules` returns without error and leaves the state of
the run as it was: no communication session is opened, no command is sent, and
the progress callback is not called. -/
theorem BurnModules_nothing_to_do {σ : Type} (C : Comm σ) (asserts : Bool) (fuel : Nat)
    (LoadFileToBuffer : String → Nat → Nat → Nat → List UInt8) (settings : Settings)
    (modules : List ModuleInfo) (w : World σ)
    (h : modules = [] ∨ totalBlocks modules = 0) :
    BurnModules C asserts fuel LoadFileToBuffer settings modules w = .ok () w := by
  unfold BurnModules
  rcases h with h | h
  · rw [h]
    rfl
  · unfold totalBlocks at h
    split
    · rfl
    · simp only [h, if_true]
      rfl

theorem BurnModules_nothing_to_do_witness :
    ([] = ([] : List ModuleInfo) ∨ totalBlocks [] = 0) ∧
    BurnModules scriptedComm true 10 (fun _ _ _ _ => sampleBuffer5) ⟨115200, false⟩ []
        (scripted sampleDlver) = .ok () (scripted sampleDlver) ∧
    totalBlocks [moduleOfCrcs [], moduleOfCrcs []] = 0 ∧
    BurnModules scriptedComm true 10 (fun _ _ _ _ => sampleBuffer5) ⟨115200, false⟩
        [moduleOfCrcs [], moduleOfCrcs []] (scripted sampleDlver)
      = .ok () (scripted sampleDlver) :=
  ⟨Or.inl rfl,
    BurnModules_nothing_to_do scriptedComm true 10 (fun _ _ _ _ => sampleBuffer5)
      ⟨115200, false⟩ [] (scripted sampleDlver) (Or.inl rfl),
    by decide,
    BurnModules_nothing_to_do scriptedComm true 10 (fun _ _ _ _ => sampleBuffer5)
      ⟨115200, false⟩ [moduleOfCrcs [], moduleOfCrcs []] (scripted sampleDlver)
      (Or.inr (by decide))⟩

/-! ## C24: the values the progress callback receives -/

theorem exactProgress_tick (d p : ℚ) (rest : List Event) :
    exactProgress d p (.tick :: rest) = (p + d) :: exactProgress d (p + d) rest := rfl

theorem exactProgress_onProgress (d p v : ℚ) (rest : List Event) :
    exactProgress d p (.onProgress v :: rest) = v :: exactProgress d p rest := rfl

theorem exactProgress_other (d p : ℚ) (e : Event) (rest : List Event) (ht : e ≠ .tick)
    (hp : e.isProgress = false) :
    exactProgress d p (e :: rest) = exactProgress d p rest := by
  cases e with
  | tick => exact absurd rfl ht
  | onProgress v => simp [Event.isProgress] at hp
  | writeCmd c r => rfl
  | writeBinary bs => rfl
  | waitForStr s t => rfl
  | waitForIdle => rfl
  | consumeScanned => rfl
  | stopReaderThread => rfl
  | sleep ms => rfl
  | openComm => rfl
  | dumpSession => rfl
  | closeComm => rfl

theorem exactProgress_append (d : ℚ) : ∀ (a b : List Event) (p : ℚ),
    exactProgress d p (a ++ b)
      = exactProgress d p a ++ exactProgress d (p + (a.count .tick : ℚ) * d) b := by
  intro a
  induction a with
  | nil => intro b p; simp [exactProgress]
  | cons e rest ih =>
    intro b p
    rw [List.cons_append]
    by_cases ht : e = .tick
    · subst ht
      rw [exactProgress_tick, exactProgress_tick, ih, List.count_cons_self, List.cons_append]
      have hq : p + d + (List.count Event.tick rest : ℚ) * d
          = p + ((List.count Event.tick rest + 1 : Nat) : ℚ) * d := by
        push_cast
        ring
      rw [hq]
    · have hc : (e :: rest).count .tick = rest.count .tick :=
        List.count_cons_of_ne (fun h => ht h.symm) _
      rw [hc]
      by_cases hp : e.isProgress = false
      · rw [exactProgress_other _ _ _ _ ht hp, exactProgress_other _ _ _ _ ht hp, ih]
      · cases e with
        | onProgress v =>
          rw [exactProgress_onProgress, exactProgress_onProgress, ih, List.cons_append]
        | tick => exact absurd rfl ht
        | writeCmd c r => exact absurd rfl hp
        | writeBinary bs => exact absurd rfl hp
        | waitForStr s t => exact absurd rfl hp
        | waitForIdle => exact absurd rfl hp
        | consumeScanned => exact absurd rfl hp
        | stopReaderThread => exact absurd rfl hp
        | sleep ms => exact absurd rfl hp
        | openComm => exact absurd rfl hp
        | dumpSession => exact absurd rfl hp
        | closeComm => exact absurd rfl hp

theorem exactProgress_ticks (d : ℚ) : ∀ (a : List Event) (p : ℚ),
    (∀ e ∈ a, e.isProgress = false) →
    exactProgress d p a
      = (List.range (a.count .tick)).map fun (k : Nat) => p + ((k : ℚ) + 1) * d := by
  intro a
  induction a with
  | nil => intro p _; simp [exactProgress]
  | cons e rest ih =>
    intro p h
    have hrest : ∀ e ∈ rest, e.isProgress = false := fun e he => h e (List.mem_cons_of_mem _ he)
    have hp : e.isProgress = false := h e (List.mem_cons_self _ _)
    by_cases ht : e = .tick
    · subst ht
      rw [exactProgress_tick, ih _ hrest, List.count_cons_self, List.range_succ_eq_map,
        List.map_cons, List.map_map]
      congr 1
      · simp
      · apply List.map_congr_left
        intro k _
        simp only [Function.comp, Nat.cast_succ]
        ring
    · have hc : (e :: rest).count .tick = rest.count .tick :=
        List.count_cons_of_ne (fun h => ht h.symm) _
      rw [hc, exactProgress_other _ _ _ _ ht hp, ih _ hrest]

theorem ticksThenDone_on_progress {σ : Type} : TicksThenDone 0 (on_progress 1 : M σ Unit) :=
  fun _ => ⟨[], by simp, by simp, Or.inr ⟨rfl, by simp [on_progress, Res.world]⟩⟩

theorem ticksThenDone_bind {σ α β : Type} {m : M σ α} {f : α → M σ β} {a b : Nat}
    (hm : Ticks a m) (hf : ∀ x, TicksThenDone b (f x)) : TicksThenDone (a + b) (m >>= f) := by
  intro w
  obtain ⟨a1, h1, p1, c1⟩ := hm w
  rw [bind_eq]
  cases hr : m w with
  | exit e w2 =>
    rw [hr] at h1
    exact ⟨a1, p1, by omega, Or.inl ⟨by simp [Res.exit?], h1⟩⟩
  | ok x w2 =>
    rw [hr] at h1
    simp only [Res.world] at h1
    obtain ⟨b2, p2, c2, hcase⟩ := hf x w2
    refine ⟨a1 ++ b2, ?_, ?_, ?_⟩
    · intro e he
      rcases List.mem_append.mp he with he | he
      · exact p1 e he
      · exact p2 e he
    · rw [List.count_append]
      omega
    · simp only
      rcases hcase with ⟨he, ht⟩ | ⟨he, ht⟩
      · exact Or.inl ⟨he, by rw [ht, h1, List.append_assoc]⟩
      · exact Or.inr ⟨he, by rw [ht, h1]; simp⟩

theorem ticksThenDone_seq {σ α β : Type} {m : M σ α} {f : α → M σ β} {b : Nat}
    (hm : Ticks 0 m) (hf : ∀ x, TicksThenDone b (f x)) : TicksThenDone b (m >>= f) := by
  have := ticksThenDone_bind hm hf
  rwa [Nat.zero_add] at this

theorem progress_values_bounds (T K : Nat) (hT : 0 < T) (hK : K ≤ T) :
    ∀ v ∈ (0 : ℚ) :: (List.range K).map (fun (k : Nat) => ((k : ℚ) + 1) / (T : ℚ)) ++ [1],
      0 ≤ v ∧ v ≤ 1 := by
  have hTq : (0 : ℚ) < (T : ℚ) := by exact_mod_cast hT
  intro v hv
  simp only [List.cons_append, List.mem_cons, List.mem_append, List.mem_map, List.mem_range,
    List.mem_singleton, List.not_mem_nil, or_false] at hv
  rcases hv with rfl | ⟨k, hk, rfl⟩ | rfl
  · exact ⟨le_refl _, zero_le_one⟩
  · constructor
    · positivity
    · rw [div_le_one hTq]
      have : k + 1 ≤ T := by omega
      exact_mod_cast this
  · exact ⟨zero_le_one, le_refl _⟩

theorem progress_values_sorted (T K : Nat) (hT : 0 < T) (hK : K ≤ T) :
    ((0 : ℚ) :: (List.range K).map (fun (k : Nat) => ((k : ℚ) + 1) / (T : ℚ)) ++ [1]).Pairwise
      (fun a b => a ≤ b) := by
  have hTq : (0 : ℚ) < (T : ℚ) := by exact_mod_cast hT
  have hb := progress_values_bounds T K hT hK
  rw [List.cons_append, List.pairwise_cons]
  constructor
  · intro v hv
    exact (hb v (List.mem_cons_of_mem _ hv)).1
  · rw [List.pairwise_append]
    refine ⟨?_, List.pairwise_singleton _ _, ?_⟩
    · rw [List.pairwise_map]
      refine (List.pairwise_lt_range K).imp ?_
      intro a b hab
      apply div_le_div_of_nonneg_right _ hTq.le
      have : a + 1 ≤ b + 1 := by omega
      exact_mod_cast this
    · intro a ha b hbm
      rw [List.mem_singleton] at hbm
      rw [hbm]
      exact (hb a (List.mem_cons_of_mem _ (List.mem_append_left _ ha))).2

theorem ticksThenDone_burnSessionRest {σ : Type} (C : Comm σ) (asserts : Bool) (fuel : Nat)
    (LoadFileToBuffer : String → Nat → Nat → Nat → List UInt8) (settings : Settings)
    (modules : List ModuleInfo) (device_modules : List ModuleVersionInfo) :
    TicksThenDone (totalBlocks modules)
      (burnSessionRest C asserts fuel LoadFileToBuffer settings modules device_modules) := by
  unfold burnSessionRest
  refine ticksThenDone_seq (ticks_CleanObsoleteModules C modules device_modules) (fun _ =>
    ticksThenDone_seq (ticks_InitNewModules C device_modules modules) (fun _ => ?_))
  have hb : Ticks (totalBlocks modules)
      (BurnSelectModules C asserts fuel LoadFileToBuffer modules settings.force_full) :=
    ticks_burnSelectLoop C asserts fuel LoadFileToBuffer settings.force_full modules.length
      modules 0
  have := ticksThenDone_bind hb (fun _ =>
    ticksThenDone_seq (ticks_DumpSession : Ticks 0 (DumpSession : M σ Unit))
      (fun _ => (ticksThenDone_on_progress : TicksThenDone 0 (on_progress 1 : M σ Unit))))
  rwa [Nat.add_zero] at this

theorem burnSession_shape {σ : Type} (C : Comm σ) (asserts : Bool) (fuel : Nat)
    (LoadFileToBuffer : String → Nat → Nat → Nat → List UInt8) (settings : Settings)
    (modules : List ModuleInfo) (w : World σ) :
    ∃ A B, (∀ e ∈ A, e.isProgress = false) ∧ A.count .tick = 0 ∧
      (∀ e ∈ B, e.isProgress = false) ∧ B.count .tick ≤ totalBlocks modules ∧
      (((burnSession C asserts fuel LoadFileToBuffer settings modules w).exit? ≠ none ∧
          (burnSession C asserts fuel LoadFileToBuffer settings modules w).world.trace
            = w.trace ++ A) ∨
       ((burnSession C asserts fuel LoadFileToBuffer settings modules w).exit? ≠ none ∧
          (burnSession C asserts fuel LoadFileToBuffer settings modules w).world.trace
            = w.trace ++ A ++ .onProgress 0 :: B) ∨
       ((burnSession C asserts fuel LoadFileToBuffer settings modules w).exit? = none ∧
          (burnSession C asserts fuel LoadFileToBuffer settings modules w).world.trace
            = w.trace ++ A ++ .onProgress 0 :: (B ++ [.onProgress 1]))) := by
  unfold burnSession
  rw [bind_eq]
  simp only [WaitForIdle]
  rw [bind_eq]
  simp only [WriteCmd]
  rw [bind_eq]
  obtain ⟨a3, h3, p3, c3⟩ := ticks_ModulesFromDevice C asserts
    { comm := C.WriteCmd (.dlspd settings.baud_rate) (some true) (C.WaitForIdle w.comm),
      trace := w.trace ++ [.waitForIdle] ++ [.writeCmd (.dlspd settings.baud_rate) (some true)] }
  have hA : ∀ e ∈ [Event.waitForIdle, .writeCmd (.dlspd settings.baud_rate) (some true)] ++ a3,
      e.isProgress = false := by
    intro e he
    rcases List.mem_append.mp he with he | he
    · simp only [List.mem_cons, List.mem_singleton, List.not_mem_nil, or_false] at he
      rcases he with rfl | rfl <;> rfl
    · exact p3 e he
  have hcA : ([Event.waitForIdle, .writeCmd (.dlspd settings.baud_rate) (some true)]
      ++ a3).count .tick = 0 := by
    rw [List.count_append]
    have : a3.count .tick = 0 := by omega
    rw [this]
    rfl
  cases hr : ModulesFromDevice C asserts
      { comm := C.WriteCmd (.dlspd settings.baud_rate) (some true) (C.WaitForIdle w.comm),
        trace := w.trace ++ [.waitForIdle] ++
          [.writeCmd (.dlspd settings.baud_rate) (some true)] } with
  | exit e w3 =>
    rw [hr] at h3
    simp only [Res.world] at h3
    refine ⟨_, [], hA, hcA, by simp, by simp, Or.inl ⟨by simp [Res.exit?], ?_⟩⟩
    simp only [Res.world]
    rw [h3]
    simp
  | ok dm w3 =>
    rw [hr] at h3
    simp only [Res.world] at h3
    simp only
    rw [bind_eq]
    simp only [on_progress]
    obtain ⟨b, pb, cb, hcase⟩ := ticksThenDone_burnSessionRest C asserts fuel LoadFileToBuffer
      settings modules dm { comm := w3.comm, trace := w3.trace ++ [.onProgress 0] }
    refine ⟨_, b, hA, hcA, pb, cb, Or.inr ?_⟩
    rcases hcase with ⟨he, ht⟩ | ⟨he, ht⟩
    · refine Or.inl ⟨he, ?_⟩
      rw [ht, h3]
      simp
    · refine Or.inr ⟨he, ?_⟩
      rw [ht, h3]
      simp

theorem exactProgress_before (d : ℚ) (A : List Event) (hA : ∀ e ∈ A, e.isProgress = false)
    (hc : A.count .tick = 0) : exactProgress d 0 A = [] := by
  rw [exactProgress_ticks d A 0 hA, hc]
  rfl

theorem exactProgress_started (T : Nat) (A B : List Event)
    (hA : ∀ e ∈ A, e.isProgress = false) (hc : A.count .tick = 0)
    (hB : ∀ e ∈ B, e.isProgress = false) :
    exactProgress (1 / (T : ℚ)) 0 (A ++ .onProgress 0 :: B)
      = 0 :: (List.range (B.count .tick)).map fun (k : Nat) => ((k : ℚ) + 1) / (T : ℚ) := by
  rw [exactProgress_append, exactProgress_before _ A hA hc, hc, exactProgress_onProgress,
    exactProgress_ticks _ B _ hB]
  simp only [List.nil_append, CharP.cast_eq_zero, zero_mul, add_zero, zero_add, mul_one_div,
    zero_div]

theorem exactProgress_finished (T : Nat) (A B : List Event)
    (hA : ∀ e ∈ A, e.isProgress = false) (hc : A.count .tick = 0)
    (hB : ∀ e ∈ B, e.isProgress = false) :
    exactProgress (1 / (T : ℚ)) 0 (A ++ .onProgress 0 :: (B ++ [.onProgress 1]))
      = 0 :: (List.range (B.count .tick)).map (fun (k : Nat) => ((k : ℚ) + 1) / (T : ℚ))
          ++ [1] := by
  rw [exactProgress_append, exactProgress_before _ A hA hc, hc, exactProgress_onProgress,
    exactProgress_append, exactProgress_ticks _ B _ hB, exactProgress_onProgress]
  simp only [List.nil_append, CharP.cast_eq_zero, zero_mul, add_zero, zero_add, mul_one_div,
    zero_div, exactProgress, List.cons_append]

/-! ## The progress values in `float` arithmetic -/

theorem progressCalls_tick (T : Nat) (p : ℚ) (rest : List Event) :
    progressCalls T p (.tick :: rest)
      = roundFloat (p + progress_delta T)
          :: progressCalls T (roundFloat (p + progress_delta T)) rest := rfl

theorem progressCalls_onProgress (T : Nat) (p v : ℚ) (rest : List Event) :
    progressCalls T p (.onProgress v :: rest) = v :: progressCalls T p rest := rfl

theorem progressCalls_other (T : Nat) (p : ℚ) (e : Event) (rest : List Event) (ht : e ≠ .tick)
    (hp : e.isProgress = false) :
    progressCalls T p (e :: rest) = progressCalls T p rest := by
  cases e with
  | tick => exact absurd rfl ht
  | onProgress v => simp [Event.isProgress] at hp
  | writeCmd c r => rfl
  | writeBinary bs => rfl
  | waitForStr s t => rfl
  | waitForIdle => rfl
  | consumeScanned => rfl
  | stopReaderThread => rfl
  | sleep ms => rfl
  | openComm => rfl
  | dumpSession => rfl
  | closeComm => rfl

theorem floatSum_succ (d : ℚ) (n : Nat) (p : ℚ) :
    floatSum d (n + 1) p = floatSum d n (roundFloat (p + d)) := rfl

theorem progressCalls_ticks (T : Nat) : ∀ (a : List Event) (p : ℚ),
    (∀ e ∈ a, e.isProgress = false) →
    progressCalls T p a
      = (List.range (a.count .tick)).map fun (k : Nat) => floatSum (progress_delta T) (k + 1) p := by
  intro a
  induction a with
  | nil => intro p _; simp [progressCalls]
  | cons e rest ih =>
    intro p h
    have hrest : ∀ e ∈ rest, e.isProgress = false := fun e he => h e (List.mem_cons_of_mem _ he)
    have hp : e.isProgress = false := h e (List.mem_cons_self _ _)
    by_cases ht : e = .tick
    · subst ht
      rw [progressCalls_tick, ih _ hrest, List.count_cons_self, List.range_succ_eq_map,
        List.map_cons, List.map_map]
      rfl
    · have hc : (e :: rest).count .tick = rest.count .tick :=
        List.count_cons_of_ne (fun h => ht h.symm) _
      rw [hc, progressCalls_other _ _ _ _ ht hp, ih _ hrest]

theorem progressCalls_quiet_append (T : Nat) : ∀ (a b : List Event) (p : ℚ),
    (∀ e ∈ a, e.isProgress = false) →
    progressCalls T p (a ++ b)
      = progressCalls T p a ++ progressCalls T (floatSum (progress_delta T) (a.count .tick) p) b := by
  intro a
  induction a with
  | nil => intro b p _; simp [progressCalls, floatSum]
  | cons e rest ih =>
    intro b p h
    have hrest : ∀ e ∈ rest, e.isProgress = false := fun e he => h e (List.mem_cons_of_mem _ he)
    have hp : e.isProgress = false := h e (List.mem_cons_self _ _)
    rw [List.cons_append]
    by_cases ht : e = .tick
    · subst ht
      rw [progressCalls_tick, progressCalls_tick, ih _ _ hrest, List.count_cons_self,
        floatSum_succ, List.cons_append]
    · have hc : (e :: rest).count .tick = rest.count .tick :=
        List.count_cons_of_ne (fun h => ht h.symm) _
      rw [hc, progressCalls_other _ _ _ _ ht hp, progressCalls_other _ _ _ _ ht hp,
        ih _ _ hrest]

theorem progressCalls_before (T : Nat) (A : List Event) (hA : ∀ e ∈ A, e.isProgress = false)
    (hc : A.count .tick = 0) : progressCalls T 0 A = [] := by
  rw [progressCalls_ticks T A 0 hA, hc]
  rfl

theorem progressCalls_started (T : Nat) (A B : List Event)
    (hA : ∀ e ∈ A, e.isProgress = false) (hc : A.count .tick = 0)
    (hB : ∀ e ∈ B, e.isProgress = false) :
    progressCalls T 0 (A ++ .onProgress 0 :: B)
      = 0 :: (List.range (B.count .tick)).map fun (k : Nat) => floatSum (progress_delta T) (k + 1) 0 := by
  rw [progressCalls_quiet_append T A _ 0 hA, progressCalls_before T A hA hc, hc,
    progressCalls_onProgress, progressCalls_ticks T B _ hB]
  rfl

theorem progressCalls_finished (T : Nat) (A B : List Event)
    (hA : ∀ e ∈ A, e.isProgress = false) (hc : A.count .tick = 0)
    (hB : ∀ e ∈ B, e.isProgress = false) :
    progressCalls T 0 (A ++ .onProgress 0 :: (B ++ [.onProgress 1]))
      = 0 :: (List.range (B.count .tick)).map (fun (k : Nat) => floatSum (progress_delta T) (k + 1) 0)
          ++ [1] := by
  rw [progressCalls_quiet_append T A _ 0 hA, progressCalls_before T A hA hc, hc,
    progressCalls_onProgress, progressCalls_quiet_append T B _ _ hB,
    progressCalls_ticks T B _ hB, progressCalls_onProgress]
  rfl

theorem handler_eq {σ : Type} (w : World σ) :
    (do DumpSession; closeComm : M σ Unit) w
      = .ok () { comm := w.comm, trace := w.trace ++ [.dumpSession, .closeComm] } := by
  rw [bind_eq]
  simp [DumpSession, closeComm]

theorem tryCatchRethrow_shape {σ : Type} (body : M σ Unit) (w : World σ) :
    ∃ H, (∀ e ∈ H, e.isProgress = false) ∧ H.count .tick = 0 ∧
      (tryCatchRethrow body (do DumpSession; closeComm) w).world.trace
        = (body w).world.trace ++ H ∧
      (tryCatchRethrow body (do DumpSession; closeComm) w).exit? = (body w).exit? ∧
      ((body w).exit? = none → H = []) := by
  unfold tryCatchRethrow
  cases hb : body w with
  | ok a w2 => exact ⟨[], by simp, by simp, by simp [Res.world], rfl, fun _ => rfl⟩
  | exit e w2 =>
    cases e with
    | thrown err =>
      simp only [handler_eq]
      refine ⟨[.dumpSession, .closeComm], ?_, by decide, by simp [Res.world], rfl, ?_⟩
      · intro e he
        simp only [List.mem_cons, List.mem_singleton, List.not_mem_nil, or_false] at he
        rcases he with rfl | rfl <;> rfl
      · intro h
        simp [Res.exit?] at h
    | assertFailed =>
      exact ⟨[], by simp, by simp, by simp [Res.world], rfl, fun _ => rfl⟩
    | undefined =>
      exact ⟨[], by simp, by simp, by simp [Res.world], rfl, fun _ => rfl⟩
    | outOfFuel =>
      exact ⟨[], by simp, by simp, by simp [Res.world], rfl, fun _ => rfl⟩

theorem BurnModules_run {σ : Type} (C : Comm σ) (asserts : Bool) (fuel : Nat)
    (LoadFileToBuffer : String → Nat → Nat → Nat → List UInt8) (settings : Settings)
    (modules : List ModuleInfo) (w : World σ) (hT : 0 < totalBlocks modules) :
    BurnModules C asserts fuel LoadFileToBuffer settings modules w
      = tryCatchRethrow (burnSession C asserts fuel LoadFileToBuffer settings modules)
          (do DumpSession; closeComm)
          { comm := w.comm, trace := w.trace ++ [.openComm] } := by
  unfold BurnModules
  have hne : modules.isEmpty = false := by
    cases modules with
    | nil => simp [totalBlocks] at hT
    | cons m rest => rfl
  have hsum : (modules.map fun module => module.blocks.length).sum ≠ 0 := by
    unfold totalBlocks at hT
    omega
  simp only [hne, Bool.false_eq_true, if_false, hsum]
  rw [bind_eq]
  simp only [openComm]

/-- C24: let the modules have `T > 0` blocks in total. A run of `BurnModules`
calls the progress callback, for some `K ≤ T`: not at all or with 0 and then
once per tick, `K` times, when the run fails, and with 0, once per tick, `K`
times, and then with 1 when it succeeds. Read over the rationals with the
per-block increment `1 / T`, as the claim reads them, the values are
`0, 1/T, 2/T, ..., K/T` and then 1: that sequence is non-decreasing and every
value of it lies in `[0, 1]`. The `float` values the code passes in these
calls are listed next to them: 0, the `float` sums of 1, 2, ..., `K` times
`progress_delta`, and then 1. -/
theorem BurnModules_progress {σ : Type} (C : Comm σ) (asserts : Bool) (fuel : Nat)
    (LoadFileToBuffer : String → Nat → Nat → Nat → List UInt8) (settings : Settings)
    (modules : List ModuleInfo) (w : World σ) (hT : 0 < totalBlocks modules) :
    ∃ added K,
      (BurnModules C asserts fuel LoadFileToBuffer settings modules w).world.trace
        = w.trace ++ added ∧
      K ≤ totalBlocks modules ∧
      (((BurnModules C asserts fuel LoadFileToBuffer settings modules w).exit? ≠ none ∧
          ((exactProgress (1 / (totalBlocks modules : ℚ)) 0 added = [] ∧
            progressCalls (totalBlocks modules) 0 added = []) ∨
           (exactProgress (1 / (totalBlocks modules : ℚ)) 0 added
             = 0 :: (List.range K).map
                 (fun (k : Nat) => ((k : ℚ) + 1) / (totalBlocks modules : ℚ)) ∧
            progressCalls (totalBlocks modules) 0 added
             = 0 :: (List.range K).map
                 (fun (k : Nat) => floatSum (progress_delta (totalBlocks modules)) (k + 1) 0)))) ∨
       ((BurnModules C asserts fuel LoadFileToBuffer settings modules w).exit? = none ∧
          exactProgress (1 / (totalBlocks modules : ℚ)) 0 added
            = 0 :: (List.range K).map
                (fun (k : Nat) => ((k : ℚ) + 1) / (totalBlocks modules : ℚ)) ++ [1] ∧
          progressCalls (totalBlocks modules) 0 added
            = 0 :: (List.range K).map
                (fun (k : Nat) => floatSum (progress_delta (totalBlocks modules)) (k + 1) 0)
              ++ [1])) ∧
      (exactProgress (1 / (totalBlocks modules : ℚ)) 0 added).Pairwise (fun a b => a ≤ b) ∧
      ∀ v ∈ exactProgress (1 / (totalBlocks modules : ℚ)) 0 added, 0 ≤ v ∧ v ≤ 1 := by
  rw [BurnModules_run C asserts fuel LoadFileToBuffer settings modules w hT]
  obtain ⟨H, pH, cH, hHt, hHe, hHok⟩ := tryCatchRethrow_shape
    (burnSession C asserts fuel LoadFileToBuffer settings modules)
    { comm := w.comm, trace := w.trace ++ [.openComm] }
  obtain ⟨A, B, pA, cA, pB, cB, hcase⟩ := burnSession_shape C asserts fuel LoadFileToBuffer
    settings modules { comm := w.comm, trace := w.trace ++ [.openComm] }
  rw [hHt, hHe]
  have pA2 : ∀ e ∈ Event.openComm :: A, e.isProgress = false := by
    intro e he
    rcases List.mem_cons.mp he with rfl | he
    · rfl
    · exact pA e he
  have cA2 : (Event.openComm :: A).count .tick = 0 := by
    rw [List.count_cons_of_ne (by simp)]
    exact cA
  have hsortedK : ∀ K, K ≤ totalBlocks modules →
      ((0 : ℚ) :: (List.range K).map
        (fun (k : Nat) => ((k : ℚ) + 1) / (totalBlocks modules : ℚ))).Pairwise
        (fun a b => a ≤ b) := by
    intro K hK
    have := progress_values_sorted (totalBlocks modules) K hT hK
    rw [List.cons_append] at this
    have h2 := this.sublist (List.Sublist.cons₂ (0 : ℚ)
      (List.sublist_append_left ((List.range K).map
        (fun (k : Nat) => ((k : ℚ) + 1) / (totalBlocks modules : ℚ))) [1]))
    exact h2
  have hboundsK : ∀ K, K ≤ totalBlocks modules →
      ∀ v ∈ (0 : ℚ) :: (List.range K).map
        (fun (k : Nat) => ((k : ℚ) + 1) / (totalBlocks modules : ℚ)), 0 ≤ v ∧ v ≤ 1 := by
    intro K hK v hv
    exact progress_values_bounds (totalBlocks modules) K hT hK v (List.mem_append_left _ hv)
  rcases hcase with ⟨he, ht⟩ | ⟨he, ht⟩ | ⟨he, ht⟩
  · have hadd : ∀ e ∈ Event.openComm :: A ++ H, e.isProgress = false := by
      intro e h
      rcases List.mem_append.mp h with h | h
      · exact pA2 e h
      · exact pH e h
    have hcnt : (Event.openComm :: A ++ H).count .tick = 0 := by
      rw [List.count_append, cA2, cH]
    have hcalls := exactProgress_before (1 / (totalBlocks modules : ℚ)) _ hadd hcnt
    have hfloat := progressCalls_before (totalBlocks modules) _ hadd hcnt
    refine ⟨Event.openComm :: A ++ H, 0, ?_, Nat.zero_le _,
      Or.inl ⟨he, Or.inl ⟨hcalls, hfloat⟩⟩, ?_, ?_⟩
    · rw [ht]
      simp
    · rw [hcalls]
      exact List.Pairwise.nil
    · rw [hcalls]
      intro v hv
      cases hv
  · have pBH : ∀ e ∈ B ++ H, e.isProgress = false := by
      intro e h
      rcases List.mem_append.mp h with h | h
      · exact pB e h
      · exact pH e h
    have cBH : (B ++ H).count .tick = B.count .tick := by
      rw [List.count_append, cH, Nat.add_zero]
    have hcalls := exactProgress_started (totalBlocks modules) _ _ pA2 cA2 pBH
    have hfloat := progressCalls_started (totalBlocks modules) _ _ pA2 cA2 pBH
    rw [cBH] at hcalls hfloat
    refine ⟨Event.openComm :: A ++ .onProgress 0 :: (B ++ H), B.count .tick, ?_, cB,
      Or.inl ⟨he, Or.inr ⟨hcalls, hfloat⟩⟩, ?_, ?_⟩
    · rw [ht]
      simp
    · rw [hcalls]
      exact hsortedK _ cB
    · rw [hcalls]
      exact hboundsK _ cB
  · have hH : H = [] := hHok he
    have hcalls := exactProgress_finished (totalBlocks modules) _ _ pA2 cA2 pB
    have hfloat := progressCalls_finished (totalBlocks modules) _ _ pA2 cA2 pB
    refine ⟨Event.openComm :: A ++ .onProgress 0 :: (B ++ [.onProgress 1]), B.count .tick, ?_,
      cB, Or.inr ⟨he, hcalls, hfloat⟩, ?_, ?_⟩
    · rw [ht, hH]
      simp
    · rw [hcalls]
      exact progress_values_sorted (totalBlocks modules) _ hT cB
    · rw [hcalls]
      exact progress_values_bounds (totalBlocks modules) _ hT cB
theorem BurnModules_progress_witness :
    0 < totalBlocks [sampleModule10] ∧
    (BurnModules scriptedComm true 20 (fun _ _ _ _ => sampleBuffer10) ⟨115200, false⟩
        [sampleModule10] tenBlockRun).exit? = none ∧
    exactProgress (1 / 10) 0
        (BurnModules scriptedComm true 20 (fun _ _ _ _ => sampleBuffer10) ⟨115200, false⟩
          [sampleModule10] tenBlockRun).world.trace
      = [0, 1 / 10, 2 / 10, 3 / 10, 4 / 10, 5 / 10, 6 / 10, 7 / 10, 8 / 10, 9 / 10, 1, 1] ∧
    progressCalls 10 0
        (BurnModules scriptedComm true 20 (fun _ _ _ _ => sampleBuffer10) ⟨115200, false⟩
          [sampleModule10] tenBlockRun).world.trace
      = [0, 13421773 / 134217728, 13421773 / 67108864, 5033165 / 16777216,
         13421773 / 33554432, 1 / 2, 5033165 / 8388608, 2936013 / 4194304,
         6710887 / 8388608, 1887437 / 2097152, 8388609 / 8388608, 1] ∧
    ∃ added K,
      (BurnModules scriptedComm true 20 (fun _ _ _ _ => sampleBuffer10) ⟨115200, false⟩
          [sampleModule10] tenBlockRun).world.trace = tenBlockRun.trace ++ added ∧
      K ≤ totalBlocks [sampleModule10] ∧
      (((BurnModules scriptedComm true 20 (fun _ _ _ _ => sampleBuffer10) ⟨115200, false⟩
            [sampleModule10] tenBlockRun).exit? ≠ none ∧
          ((exactProgress (1 / (totalBlocks [sampleModule10] : ℚ)) 0 added = [] ∧
            progressCalls (totalBlocks [sampleModule10]) 0 added = []) ∨
           (exactProgress (1 / (totalBlocks [sampleModule10] : ℚ)) 0 added
             = 0 :: (List.range K).map
                 (fun (k : Nat) => ((k : ℚ) + 1) / (totalBlocks [sampleModule10] : ℚ)) ∧
            progressCalls (totalBlocks [sampleModule10]) 0 added
             = 0 :: (List.range K).map
                 (fun (k : Nat) =>
                   floatSum (progress_delta (totalBlocks [sampleModule10])) (k + 1) 0)))) ∨
       ((BurnModules scriptedComm true 20 (fun _ _ _ _ => sampleBuffer10) ⟨115200, false⟩
            [sampleModule10] tenBlockRun).exit? = none ∧
          exactProgress (1 / (totalBlocks [sampleModule10] : ℚ)) 0 added
            = 0 :: (List.range K).map
                (fun (k : Nat) => ((k : ℚ) + 1) / (totalBlocks [sampleModule10] : ℚ)) ++ [1] ∧
          progressCalls (totalBlocks [sampleModule10]) 0 added
            = 0 :: (List.range K).map
                (fun (k : Nat) =>
                  floatSum (progress_delta (totalBlocks [sampleModule10])) (k + 1) 0)
              ++ [1])) ∧
      (exactProgress (1 / (totalBlocks [sampleModule10] : ℚ)) 0 added).Pairwise
        (fun a b => a ≤ b) ∧
      ∀ v ∈ exactProgress (1 / (totalBlocks [sampleModule10] : ℚ)) 0 added, 0 ≤ v ∧ v ≤ 1 :=
  ⟨by decide, by decide!, by decide!, by decide!,
    BurnModules_progress scriptedComm true 20 (fun _ _ _ _ => sampleBuffer10) ⟨115200, false⟩
      [sampleModule10] tenBlockRun (by decide)⟩

/-- In the run of the ten-block sample the `float` value passed at the tenth
tick is `1 + 2 ^ -23`, above 1, and the value passed next is 1: the bound and
the order of the progress values are facts of the reading over exact
rationals, not of the `float` values. -/
theorem progressCalls_ten_blocks :
    floatSum (progress_delta 10) 10 0 = 1 + 1 / 2 ^ 23 ∧
    ¬ (progressCalls 10 0
        (BurnModules scriptedComm true 20 (fun _ _ _ _ => sampleBuffer10) ⟨115200, false⟩
          [sampleModule10] tenBlockRun).world.trace).Pairwise (fun a b => a ≤ b) ∧
    ¬ ∀ v ∈ progressCalls 10 0
        (BurnModules scriptedComm true 20 (fun _ _ _ _ => sampleBuffer10) ⟨115200, false⟩
          [sampleModule10] tenBlockRun).world.trace, 0 ≤ v ∧ v ≤ 1 := by
  have hv : progressCalls 10 0
      (BurnModules scriptedComm true 20 (fun _ _ _ _ => sampleBuffer10) ⟨115200, false⟩
        [sampleModule10] tenBlockRun).world.trace
      = [0, 13421773 / 134217728, 13421773 / 67108864, 5033165 / 16777216,
         13421773 / 33554432, 1 / 2, 5033165 / 8388608, 2936013 / 4194304,
         6710887 / 8388608, 1887437 / 2097152, 8388609 / 8388608, 1] := by decide!
  rw [hv]
  refine ⟨by decide!, by decide!, by decide!⟩
/-! ## C22: `BurnSelectModules` and the activation commands -/

theorem burnVerify_ok {σ : Type} {C : Comm σ} {asserts : Bool} {fuel : Nat}
    {module : ModuleInfo} {is_last : Bool} {w w3 : World σ}
    (h : burnVerify C asserts fuel module is_last w = .ok () w3) :
    w3.trace = w.trace ++ [.writeCmd (.dlinfo module.name) none,
        .waitForStr "dlinfo end" 3000, .consumeScanned] ++
      if is_last then [.stopReaderThread, .writeCmd (.dlact true) (some false)]
      else [.writeCmd (.dlact false) none, .waitForStr "validation ok" 3000] := by
  unfold burnVerify at h
  rw [bind_eq] at h
  simp only [WriteCmd] at h
  rw [bind_eq] at h
  cases hw : WaitForStr C "dlinfo end" 3000
      { comm := C.WriteCmd (.dlinfo module.name) none w.comm,
        trace := w.trace ++ [.writeCmd (.dlinfo module.name) none] } with
  | exit e w4 => rw [hw] at h; cases h
  | ok u w4 =>
    rw [hw] at h
    simp only at h
    have h4 : w4.trace = w.trace ++ [.writeCmd (.dlinfo module.name) none] ++
        [.waitForStr "dlinfo end" 3000] := by
      unfold WaitForStr at hw
      split at hw
      · cases hw; rfl
      · cases hw
    rw [bind_eq] at h
    cases hc : callGetBlockUpdateList C asserts fuel module false w4 with
    | exit e w5 => rw [hc] at h; cases h
    | ok rv w5 =>
      rw [hc] at h
      simp only at h
      have h5 := (callGetBlockUpdateList_ok hc).2
      by_cases hcont : rv.contains true = true
      · rw [if_pos hcont] at h
        cases h
      · rw [if_neg hcont] at h
        cases is_last with
        | true =>
          simp only [if_true] at h
          rw [bind_eq] at h
          simp only [StopReaderThread, FwUpdateF45x.WriteCmd] at h
          cases h
          simp only [h5, h4, if_true]
          simp
        | false =>
          simp only [Bool.false_eq_true, if_false] at h
          rw [bind_eq] at h
          simp only [FwUpdateF45x.WriteCmd] at h
          unfold WaitForStr at h
          split at h
          · cases h
            simp only [h5, h4, Bool.false_eq_true, if_false]
            simp
          · cases h

theorem sentCmds_replicate_tick (n : Nat) : sentCmds (List.replicate n .tick) = [] := by
  unfold sentCmds
  rw [List.filterMap_eq_nil_iff]
  intro e he
  rw [List.eq_of_mem_replicate he]

theorem dlact_not_mem_map_dl (b : Bool) (l : List Nat) : Cmd.dlact b ∉ l.map Cmd.dl := by
  intro h
  rw [List.mem_map] at h
  obtain ⟨i, _, hi⟩ := h
  cases hi

theorem BurnModule_ok_shape {σ : Type} {C : Comm σ} {asserts : Bool} {fuel : Nat}
    {module : ModuleInfo} {buffer : List UInt8} {is_first is_last force_full : Bool}
    {w w3 : World σ}
    (h : BurnModule C asserts fuel module buffer is_first is_last force_full w = .ok () w3) :
    ∃ seg, w3.trace = w.trace ++ seg ∧
      (is_last = true → (sentCmds seg).count (.dlact true) = 1 ∧
        (sentCmds seg).getLast? = some (.dlact true)) ∧
      (is_last = false → Cmd.dlact true ∉ sentCmds seg ∧
        (sentCmds seg = [.dlver, .dlinfo module.name] ∨
         (.dlinit module.name module.version module.size is_first module.crc BlockSize
            ∈ sentCmds seg ∧
          ∃ before, seg = before ++
            [.writeCmd (.dlact false) none, .waitForStr "validation ok" 3000]))) := by
  cases hq : burnQuery C asserts fuel module force_full w with
  | exit e w1 =>
    unfold BurnModule at h
    rw [bind_eq, hq] at h
    cases h
  | ok p w1 =>
    obtain ⟨version_info, block_update_list⟩ := p
    have hw1 := burnQuery_ok hq
    by_cases hskip : true ∉ block_update_list ∧ version_info.state = .Active
    · rw [BurnModule_eq buffer is_first is_last hq, if_pos hskip, burnSkip_eq] at h
      cases h
      cases is_last with
      | true =>
        refine ⟨[.writeCmd .dlver (some true), .sleep 200, .consumeScanned,
          .writeCmd (.dlinfo module.name) none, .waitForStr "dlinfo end" 1000, .consumeScanned]
          ++ List.replicate module.blocks.length .tick
          ++ [.stopReaderThread, .writeCmd (.dlact true) (some false)], ?_, ?_, ?_⟩
        · simp only [hw1, if_true, List.append_assoc]
        · intro _
          simp only [sentCmds_append, sentCmds_replicate_tick]
          simp [sentCmds]
        · intro hc
          cases hc
      | false =>
        refine ⟨[.writeCmd .dlver (some true), .sleep 200, .consumeScanned,
          .writeCmd (.dlinfo module.name) none, .waitForStr "dlinfo end" 1000, .consumeScanned]
          ++ List.replicate module.blocks.length .tick, ?_, ?_, ?_⟩
        · simp only [hw1, Bool.false_eq_true, if_false, List.append_nil, List.append_assoc]
        · intro hc
          cases hc
        · intro _
          simp only [sentCmds_append, sentCmds_replicate_tick]
          simp [sentCmds]
    · obtain ⟨l, _, _, h2⟩ := BurnModule_update buffer is_first is_last hq hskip
      cases ht : burnTransfer C module buffer is_first
          (transferList version_info block_update_list) w1 with
      | exit e w2 =>
        rw [BurnModule_eq buffer is_first is_last hq, if_neg hskip, ht] at h
        cases h
      | ok a w2 =>
        obtain ⟨_, hrun, hcmds, _, _⟩ := h2 w2 ht
        rw [hrun] at h
        have hv := burnVerify_ok h
        obtain ⟨rest, hrest⟩ := burnTransfer_starts C module buffer is_first
          (transferList version_info block_update_list) w1
        rw [ht] at hrest
        simp only [Res.world] at hrest
        obtain ⟨t2, hw2, hc2⟩ : ∃ t2, w2.trace = w.trace ++ t2 ∧
            sentCmds t2 = [.dlver, .dlinfo module.name,
                .dlinit module.name module.version module.size is_first module.crc BlockSize]
              ++ l.map .dl := by
          refine ⟨[.writeCmd .dlver (some true), .sleep 200,
            .consumeScanned, .writeCmd (.dlinfo module.name) none,
            .waitForStr "dlinfo end" 1000, .consumeScanned] ++
            .writeCmd (.dlinit module.name module.version module.size is_first module.crc
              BlockSize) none :: rest, ?_, ?_⟩
          · rw [hrest, hw1, List.append_assoc]
          · have hw2 : w2.trace = w.trace ++ ([.writeCmd .dlver (some true), .sleep 200,
                .consumeScanned, .writeCmd (.dlinfo module.name) none,
                .waitForStr "dlinfo end" 1000, .consumeScanned] ++
                .writeCmd (.dlinit module.name module.version module.size is_first module.crc
                  BlockSize) none :: rest) := by
              rw [hrest, hw1, List.append_assoc]
            rw [hw2, sentCmds_append, List.append_assoc] at hcmds
            exact List.append_cancel_left hcmds
        cases is_last with
        | true =>
          simp only [if_true] at hv
          refine ⟨t2 ++ [.writeCmd (.dlinfo module.name) none,
            .waitForStr "dlinfo end" 3000, .consumeScanned] ++
            [.stopReaderThread, .writeCmd (.dlact true) (some false)], ?_, ?_, ?_⟩
          · rw [hv, hw2, List.append_assoc, List.append_assoc, List.append_assoc]
          · intro _
            rw [sentCmds_append, sentCmds_append, hc2]
            have hz : (l.map Cmd.dl).count (.dlact true) = 0 :=
              List.count_eq_zero.mpr (dlact_not_mem_map_dl true l)
            have hlast : sentCmds [Event.stopReaderThread,
                .writeCmd (.dlact true) (some false)] = [Cmd.dlact true] := rfl
            have hmid : sentCmds [Event.writeCmd (.dlinfo module.name) none,
                .waitForStr "dlinfo end" 3000, .consumeScanned] = [Cmd.dlinfo module.name] := rfl
            rw [hlast, hmid]
            constructor
            · simp only [List.count_append, hz]
              simp
            · exact List.getLast?_concat _
          · intro hc
            cases hc
        | false =>
          simp only [Bool.false_eq_true, if_false] at hv
          refine ⟨t2 ++ [.writeCmd (.dlinfo module.name) none,
            .waitForStr "dlinfo end" 3000, .consumeScanned] ++
            [.writeCmd (.dlact false) none, .waitForStr "validation ok" 3000], ?_, ?_, ?_⟩
          · rw [hv, hw2, List.append_assoc, List.append_assoc, List.append_assoc]
          · intro hc
            cases hc
          · intro _
            rw [sentCmds_append, sentCmds_append, hc2]
            refine ⟨?_, Or.inr ⟨?_, ?_⟩⟩
            · intro hmem
              simp only [List.mem_append] at hmem
              rcases hmem with (hmem | hmem) | hmem
              · rcases hmem with hmem | hmem
                · simp at hmem
                · exact dlact_not_mem_map_dl true l hmem
              · simp [sentCmds] at hmem
              · simp [sentCmds] at hmem
            · simp
            · exact ⟨_, rfl⟩

theorem burnSelectLoop_ok {σ : Type} (C : Comm σ) (asserts : Bool) (fuel : Nat)
    (LoadFileToBuffer : String → Nat → Nat → Nat → List UInt8) (force_full : Bool)
    (modules_size : Nat) : ∀ (modules : List ModuleInfo) (module_count : Nat) (w w2 : World σ),
    burnSelectLoop C asserts fuel LoadFileToBuffer force_full modules_size module_count modules w
      = .ok () w2 →
    ∃ segs : List (List Event), segs.length = modules.length ∧
      w2.trace = w.trace ++ segs.flatten ∧
      ∀ (j : Nat) (m : ModuleInfo) (seg : List Event), modules[j]? = some m →
        segs[j]? = some seg →
        ∃ wj wj2, wj.trace = w.trace ++ (segs.take j).flatten ∧ wj2.trace = wj.trace ++ seg ∧
          LoadFileToBuffer m.filename m.aligned_size m.size m.file_offset ≠ [] ∧
          BurnModule C asserts fuel m
              (LoadFileToBuffer m.filename m.aligned_size m.size m.file_offset)
              (decide (module_count + j + 1 = 1)) (decide (module_count + j + 1 = modules_size))
              force_full wj = .ok () wj2 := by
  intro modules
  induction modules with
  | nil =>
    intro k w w2 h
    simp only [burnSelectLoop, Pure.pure] at h
    cases h
    refine ⟨[], rfl, by simp, ?_⟩
    intro j m seg hm
    simp at hm
  | cons m rest ih =>
    intro k w w2 h
    unfold burnSelectLoop at h
    simp only at h
    by_cases hbuf : (LoadFileToBuffer m.filename m.aligned_size m.size m.file_offset).isEmpty
        = true
    · rw [if_pos hbuf] at h
      cases h
    · rw [if_neg hbuf, bind_eq] at h
      have hne : LoadFileToBuffer m.filename m.aligned_size m.size m.file_offset ≠ [] := by
        intro hc
        rw [hc] at hbuf
        exact hbuf rfl
      cases hb : BurnModule C asserts fuel m
          (LoadFileToBuffer m.filename m.aligned_size m.size m.file_offset)
          (decide (k + 1 = 1)) (decide (k + 1 = modules_size)) force_full w with
      | exit e w1 => rw [hb] at h; cases h
      | ok u w1 =>
        rw [hb] at h
        simp only at h
        obtain ⟨seg0, hseg0, _⟩ := BurnModule_ok_shape hb
        obtain ⟨segs, hlen, htrace, hall⟩ := ih (k + 1) w1 w2 h
        refine ⟨seg0 :: segs, by simp [hlen], ?_, ?_⟩
        · rw [htrace, hseg0, List.flatten_cons, List.append_assoc]
        · intro j m2 seg hm hs
          cases j with
          | zero =>
            simp only [List.getElem?_cons_zero, Option.some.injEq] at hm hs
            subst hm
            subst hs
            exact ⟨w, w1, by simp, hseg0, hne, hb⟩
          | succ j =>
            simp only [List.getElem?_cons_succ] at hm hs
            obtain ⟨wj, wj2, h1, h2, h3, h4⟩ := hall j m2 seg hm hs
            have e : k + 1 + j + 1 = k + (j + 1) + 1 := by omega
            rw [e] at h4
            refine ⟨wj, wj2, ?_, h2, h3, h4⟩
            rw [h1, hseg0, List.take_succ_cons, List.flatten_cons, List.append_assoc]

theorem final_command_once : ∀ (segs : List (List Event)), segs ≠ [] →
    (∀ (i : Nat) (seg : List Event), segs[i]? = some seg → i + 1 < segs.length →
      Cmd.dlact true ∉ sentCmds seg) →
    (∀ (i : Nat) (seg : List Event), segs[i]? = some seg → i + 1 = segs.length →
      (sentCmds seg).count (.dlact true) = 1 ∧
        (sentCmds seg).getLast? = some (.dlact true)) →
    (sentCmds segs.flatten).count (.dlact true) = 1 ∧
      (sentCmds segs.flatten).getLast? = some (.dlact true) := by
  intro segs
  induction segs with
  | nil => intro h; exact absurd rfl h
  | cons s rest ih =>
    intro _ h1 h2
    rw [List.flatten_cons, sentCmds_append]
    cases rest with
    | nil =>
      have := h2 0 s rfl rfl
      simpa [sentCmds] using this
    | cons s2 rest2 =>
      have hs : Cmd.dlact true ∉ sentCmds s := h1 0 s rfl (by simp)
      obtain ⟨c, g⟩ := ih (by simp)
        (fun i seg hi hlt => h1 (i + 1) seg (by simpa using hi) (by simpa using hlt))
        (fun i seg hi hlt => h2 (i + 1) seg (by simpa using hi) (by simpa using hlt))
      constructor
      · rw [List.count_append, List.count_eq_zero.mpr hs, c]
      · rw [List.getLast?_append, g]
        rfl

/-- C22: let `BurnSelectModules` return for a non-empty module list. The trace
it adds splits into one segment per module, in file order, the segment of the
module at index `i` being what `BurnModule` adds when called for that module
with `is_first = (i == 0)` and `is_last = (i + 1 == modules.size())`. The
final command `dlact(true)` is among the commands of the last segment only,
exactly once, and it is the last command of that segment, hence of the run.
The segment of every other module holds no `dlact(true)`; either the module
was skipped (the only commands are the two queries `dlver` and `dlinfo`), or a
session was opened for it (`dlinit`) and its segment ends with the non-final
`dlact(false)` followed by the wait for `"validation ok"`. -/
theorem BurnSelectModules_activation {σ : Type} (C : Comm σ) (asserts : Bool) (fuel : Nat)
    (LoadFileToBuffer : String → Nat → Nat → Nat → List UInt8) (modules : List ModuleInfo)
    (force_full : Bool) (w w2 : World σ) (hne : modules ≠ [])
    (hrun : BurnSelectModules C asserts fuel LoadFileToBuffer modules force_full w = .ok () w2) :
    ∃ segs : List (List Event), segs.length = modules.length ∧
      w2.trace = w.trace ++ segs.flatten ∧
      (∀ (i : Nat) (m : ModuleInfo) (seg : List Event), modules[i]? = some m →
        segs[i]? = some seg →
        (∃ wi wi2, wi.trace = w.trace ++ (segs.take i).flatten ∧ wi2.trace = wi.trace ++ seg ∧
          BurnModule C asserts fuel m
              (LoadFileToBuffer m.filename m.aligned_size m.size m.file_offset)
              (decide (i = 0)) (decide (i + 1 = modules.length)) force_full wi = .ok () wi2) ∧
        (i + 1 = modules.length →
          (sentCmds seg).count (.dlact true) = 1 ∧
            (sentCmds seg).getLast? = some (.dlact true)) ∧
        (i + 1 < modules.length →
          Cmd.dlact true ∉ sentCmds seg ∧
          (sentCmds seg = [.dlver, .dlinfo m.name] ∨
           (.dlinit m.name m.version m.size (decide (i = 0)) m.crc BlockSize ∈ sentCmds seg ∧
            ∃ before, seg = before ++
              [.writeCmd (.dlact false) none, .waitForStr "validation ok" 3000])))) ∧
      (sentCmds segs.flatten).count (.dlact true) = 1 ∧
      (sentCmds segs.flatten).getLast? = some (.dlact true) := by
  unfold BurnSelectModules at hrun
  obtain ⟨segs, hlen, htrace, hall⟩ := burnSelectLoop_ok C asserts fuel LoadFileToBuffer
    force_full modules.length modules 0 w w2 hrun
  have key : ∀ (i : Nat) (m : ModuleInfo) (seg : List Event), modules[i]? = some m →
      segs[i]? = some seg →
      (∃ wi wi2, wi.trace = w.trace ++ (segs.take i).flatten ∧ wi2.trace = wi.trace ++ seg ∧
        BurnModule C asserts fuel m
            (LoadFileToBuffer m.filename m.aligned_size m.size m.file_offset)
            (decide (i = 0)) (decide (i + 1 = modules.length)) force_full wi = .ok () wi2) ∧
      (i + 1 = modules.length →
        (sentCmds seg).count (.dlact true) = 1 ∧
          (sentCmds seg).getLast? = some (.dlact true)) ∧
      (i + 1 < modules.length →
        Cmd.dlact true ∉ sentCmds seg ∧
        (sentCmds seg = [.dlver, .dlinfo m.name] ∨
         (.dlinit m.name m.version m.size (decide (i = 0)) m.crc BlockSize ∈ sentCmds seg ∧
          ∃ before, seg = before ++
            [.writeCmd (.dlact false) none, .waitForStr "validation ok" 3000]))) := by
    intro i m seg hm hs
    obtain ⟨wi, wi2, h1, h2, _, h4⟩ := hall i m seg hm hs
    have e1 : decide (0 + i + 1 = 1) = decide (i = 0) := by
      apply decide_eq_decide.mpr
      omega
    have e2 : decide (0 + i + 1 = modules.length) = decide (i + 1 = modules.length) := by
      rw [Nat.zero_add]
    rw [e1, e2] at h4
    obtain ⟨seg2, hseg2, hlast, hnot⟩ := BurnModule_ok_shape h4
    have hsame : seg2 = seg := by
      rw [h2] at hseg2
      exact (List.append_cancel_left hseg2).symm
    subst hsame
    refine ⟨⟨wi, wi2, h1, h2, h4⟩, ?_, ?_⟩
    · intro hi
      exact hlast (decide_eq_true hi)
    · intro hi
      exact hnot (decide_eq_false (by omega))
  have hsegs : segs ≠ [] := by
    intro hc
    rw [hc] at hlen
    exact hne (List.length_eq_zero.mp hlen.symm)
  refine ⟨segs, hlen, htrace, key, ?_⟩
  apply final_command_once segs hsegs
  · intro i seg hs hlt
    rw [hlen] at hlt
    have hi : i < modules.length := by omega
    exact ((key i modules[i] seg (List.getElem?_eq_getElem hi) hs).2.2 hlt).1
  · intro i seg hs heq
    rw [hlen] at heq
    have hi : i < modules.length := by omega
    exact (key i modules[i] seg (List.getElem?_eq_getElem hi) hs).2.1 heq

theorem BurnSelectModules_activation_witness :
    BurnSelectModules scriptedComm true 10 (fun _ _ _ _ => sampleBuffer5)
        [sampleModule5, sampleModuleB] false twoModuleRun
      = .ok () (BurnSelectModules scriptedComm true 10 (fun _ _ _ _ => sampleBuffer5)
          [sampleModule5, sampleModuleB] false twoModuleRun).world ∧
    sentCmds (BurnSelectModules scriptedComm true 10 (fun _ _ _ _ => sampleBuffer5)
        [sampleModule5, sampleModuleB] false twoModuleRun).world.trace
      = [.dlver, .dlinfo "OPFW", .dlinit "OPFW" "0.0.0.1" 20 true 0xabcdef01 BlockSize,
          .dl 0, .dl 1, .dl 2, .dl 3, .dl 4, .dlinfo "OPFW", .dlact false,
          .dlver, .dlinfo "SPOOFS", .dlact true] ∧
    ∃ segs : List (List Event), segs.length = [sampleModule5, sampleModuleB].length ∧
      (BurnSelectModules scriptedComm true 10 (fun _ _ _ _ => sampleBuffer5)
          [sampleModule5, sampleModuleB] false twoModuleRun).world.trace
        = twoModuleRun.trace ++ segs.flatten ∧
      (∀ (i : Nat) (m : ModuleInfo) (seg : List Event),
        [sampleModule5, sampleModuleB][i]? = some m → segs[i]? = some seg →
        (∃ wi wi2, wi.trace = twoModuleRun.trace ++ (segs.take i).flatten ∧
          wi2.trace = wi.trace ++ seg ∧
          BurnModule scriptedComm true 10 m
              ((fun _ _ _ _ => sampleBuffer5) m.filename m.aligned_size m.size m.file_offset)
              (decide (i = 0)) (decide (i + 1 = [sampleModule5, sampleModuleB].length)) false wi
            = .ok () wi2) ∧
        (i + 1 = [sampleModule5, sampleModuleB].length →
          (sentCmds seg).count (.dlact true) = 1 ∧
            (sentCmds seg).getLast? = some (.dlact true)) ∧
        (i + 1 < [sampleModule5, sampleModuleB].length →
          Cmd.dlact true ∉ sentCmds seg ∧
          (sentCmds seg = [.dlver, .dlinfo m.name] ∨
           (.dlinit m.name m.version m.size (decide (i = 0)) m.crc BlockSize ∈ sentCmds seg ∧
            ∃ before, seg = before ++
              [.writeCmd (.dlact false) none, .waitForStr "validation ok" 3000])))) ∧
      (sentCmds segs.flatten).count (.dlact true) = 1 ∧
      (sentCmds segs.flatten).getLast? = some (.dlact true) :=
  ⟨by decide!, by decide!,
    BurnSelectModules_activation scriptedComm true 10 (fun _ _ _ _ => sampleBuffer5)
      [sampleModule5, sampleModuleB] false twoModuleRun
      (BurnSelectModules scriptedComm true 10 (fun _ _ _ _ => sampleBuffer5)
        [sampleModule5, sampleModuleB] false twoModuleRun).world
      (by decide) (by decide!)⟩

end FwUpdateF45x
end RealSenseID
